import Mathlib

/-!
# pydtrace: bucket-range synthesis, range cache and record decoding

A shallow embedding of the helper functions of `src/pydtrace.c`:

* `_ranges_cached`, `_ranges_cache` (the single-slot range cache),
* `_ranges_quantize`, `_ranges_lquantize`, `_ranges_llquantize`
  (the three bucket-range synthesizers),
* `_make_record` (the record decoder),
* `_action`, `_valid`, `_action_valid`, `_error` (action names and error texts),
* `_aggwalk`, `_consume`, `_bufhandler` (the per-tuple and per-record callbacks),
* `DTraceConsumer_consume`, `DTraceConsumer_aggwalk` (the two passes),
  `DTraceConsumer_init`.

Machine integers are mathematical integers narrowed explicitly to their C
width.  The consumer object is passed explicitly as a state value.
-/

namespace PyDTrace

/-! ## Machine integers -/

/-- Smallest value of the C type `int64_t`. -/
def INT64_MIN : Int := -(2 ^ 63)

/-- Largest value of the C type `int64_t`. -/
def INT64_MAX : Int := 2 ^ 63 - 1

/-- Narrowing of an integer to a signed two's complement value of `w` bits
(`w ≥ 1`): the unique representative of `x` modulo `2 ^ w` in
`[-2 ^ (w-1), 2 ^ (w-1))`. -/
def wrapSigned (w : Nat) (x : Int) : Int :=
  (x + 2 ^ (w - 1)) % 2 ^ w - 2 ^ (w - 1)

/-- Value of an expression of C type `int` / `int32_t`. -/
def int32 (x : Int) : Int := wrapSigned 32 x

/-- Value of an expression of C type `int64_t` / `long`. -/
def int64 (x : Int) : Int := wrapSigned 64 x

/-! ## Python values built by `Py_BuildValue` -/

/-- The call `Py_BuildValue("i", x)`: format unit `i` converts a plain C `int`,
so only the low 32 bits of an `int64_t` argument reach the Python integer. -/
def Py_BuildValue_i (x : Int) : Int := int32 x

/-- The call `Py_BuildValue("l", x)`: format unit `l` converts a C `long`
(64 bits on the LP64 platforms the tracing engine runs on). -/
def Py_BuildValue_l (x : Int) : Int := int64 x

/-- One entry `ranges[i]` of a range table: the two-element Python list
`[min, max]` filled by the two `PyList_SetItem` calls. -/
structure BucketRange where
  min : Int
  max : Int
  deriving DecidableEq, Repr

/-- The two `PyList_SetItem(ranges[i], k, Py_BuildValue("i", ...))` calls that
fill one table entry from the C variables `min` and `max`. -/
def set_range (min max : Int) : BucketRange :=
  ⟨Py_BuildValue_i min, Py_BuildValue_i max⟩

/-- A range table: the array `PyObject** ranges`, entry `i` at position `i`. -/
abbrev RangeTable := List BucketRange

/-! ## The consumer object and its range cache -/

/-- The fields of the C struct `DTraceConsumer` the helpers read or write.
`dtc_ranges = none` is the `NULL` pointer, `dtc_error = none` is `Py_None`,
`dtc_error = some s` is the Python string with the bytes `s`. -/
structure DTraceConsumer where
  dtc_error : Option (List Nat)
  dtc_ranges_varid : Int
  dtc_ranges : Option RangeTable
  deriving DecidableEq, Repr

/-- Source `_ranges_cached`: the stored table when the stored id is `varid`
(possibly `NULL`), and `NULL` otherwise. -/
def _ranges_cached (dtc : DTraceConsumer) (varid : Int) : Option RangeTable :=
  if varid = dtc.dtc_ranges_varid then dtc.dtc_ranges else none

/-- Source `_ranges_cache`: frees the table held before (if any), stores
`ranges` under `varid`, and returns `ranges`. -/
def _ranges_cache (dtc : DTraceConsumer) (varid : Int) (ranges : Option RangeTable) :
    Option RangeTable × DTraceConsumer :=
  (ranges, { dtc with dtc_ranges := ranges, dtc_ranges_varid := varid })

/-! ## Linear quantize -/

/-- Modelled from the spec: the engine header constant
`DTRACE_QUANTIZE_NBUCKETS` (`dtrace.h` is not part of the sources), N = 127. -/
def DTRACE_QUANTIZE_NBUCKETS : Nat := 127

/-- Modelled from the spec: the engine header constant
`DTRACE_QUANTIZE_ZEROBUCKET` (`dtrace.h` is not part of the sources), Z = 63. -/
def DTRACE_QUANTIZE_ZEROBUCKET : Nat := 63

/-- Modelled from the spec: the engine header macro
`DTRACE_QUANTIZE_BUCKETVAL` (`dtrace.h` is not part of the sources):
`-2^(62-i)` below the zero bucket, `0` at it, `2^(i-64)` above it. -/
def DTRACE_QUANTIZE_BUCKETVAL (buck : Nat) : Int :=
  if buck < DTRACE_QUANTIZE_ZEROBUCKET then
    -(2 ^ (DTRACE_QUANTIZE_ZEROBUCKET - 1 - buck))
  else if buck = DTRACE_QUANTIZE_ZEROBUCKET then 0
  else 2 ^ (buck - DTRACE_QUANTIZE_ZEROBUCKET - 1)

/-- The C variables `(min, max)` of `_ranges_quantize` at loop index `i`
(both of type `int64_t`). -/
def quantize_minmax (i : Nat) : Int × Int :=
  if i < DTRACE_QUANTIZE_ZEROBUCKET then
    (if i > 0 then int64 (DTRACE_QUANTIZE_BUCKETVAL (i - 1) + 1) else INT64_MIN,
     DTRACE_QUANTIZE_BUCKETVAL i)
  else if i = DTRACE_QUANTIZE_ZEROBUCKET then
    (0, 0)
  else
    (DTRACE_QUANTIZE_BUCKETVAL i,
     if i < DTRACE_QUANTIZE_NBUCKETS - 1 then
       int64 (DTRACE_QUANTIZE_BUCKETVAL (i + 1) - 1)
     else INT64_MAX)

/-- The table built by the loop of `_ranges_quantize`. -/
def quantize_table : RangeTable :=
  (List.range DTRACE_QUANTIZE_NBUCKETS).map fun i =>
    set_range (quantize_minmax i).1 (quantize_minmax i).2

/-- Source `_ranges_quantize`: the cached table on a hit, otherwise the newly
built table, stored in the cache under `varid`. -/
def _ranges_quantize (dtc : DTraceConsumer) (varid : Int) :
    Option RangeTable × DTraceConsumer :=
  match _ranges_cached dtc varid with
  | some ranges => (some ranges, dtc)
  | none => _ranges_cache dtc varid (some quantize_table)

/-! ## Log-linear quantize -/

/-- Modelled from the spec: engine header macro `DTRACE_LQUANTIZE_BASE`
(`dtrace.h` is not part of the sources): the low 32 bits as `int32_t`. -/
def DTRACE_LQUANTIZE_BASE (x : Nat) : Int := int32 ((x % 2 ^ 32 : Nat) : Int)

/-- Modelled from the spec: engine header macro `DTRACE_LQUANTIZE_STEP`
(`dtrace.h` is not part of the sources): bits 48..63 as `uint16_t`. -/
def DTRACE_LQUANTIZE_STEP (x : Nat) : Nat := x / 2 ^ 48 % 2 ^ 16

/-- Modelled from the spec: engine header macro `DTRACE_LQUANTIZE_LEVELS`
(`dtrace.h` is not part of the sources): bits 32..47 as `uint16_t`. -/
def DTRACE_LQUANTIZE_LEVELS (x : Nat) : Nat := x / 2 ^ 32 % 2 ^ 16

/-- The C variables `(min, max)` of `_ranges_lquantize` at loop index `i`.
The arithmetic on `base`, `i` and `step` is carried out in the C type `int`
before the result is widened to `int64_t`. -/
def lquantize_minmax (base : Int) (step levels : Nat) (i : Nat) : Int × Int :=
  (if i = 0 then INT64_MIN else int32 (base + int32 (int32 ((i : Int) - 1) * step)),
   if i > levels then INT64_MAX else int32 (int32 (base + int32 ((i : Int) * step)) - 1))

/-- The table built by the loop `for (i = 0; i <= levels + 1; i++)` of
`_ranges_lquantize`. -/
def lquantize_table (base : Int) (step levels : Nat) : RangeTable :=
  (List.range (levels + 2)).map fun i =>
    set_range (lquantize_minmax base step levels i).1 (lquantize_minmax base step levels i).2

/-- Source `_ranges_lquantize`: the cached table on a hit, otherwise the table
built from the control word `arg`, stored in the cache under `varid`. -/
def _ranges_lquantize (dtc : DTraceConsumer) (varid : Int) (arg : Nat) :
    Option RangeTable × DTraceConsumer :=
  match _ranges_cached dtc varid with
  | some ranges => (some ranges, dtc)
  | none =>
    _ranges_cache dtc varid
      (some (lquantize_table (DTRACE_LQUANTIZE_BASE arg) (DTRACE_LQUANTIZE_STEP arg)
        (DTRACE_LQUANTIZE_LEVELS arg)))

/-! ## Log-log-linear quantize -/

/-- Modelled from the spec: engine header macro `DTRACE_LLQUANTIZE_FACTOR`
(`dtrace.h` is not part of the sources): bits 48..63 as `uint16_t`. -/
def DTRACE_LLQUANTIZE_FACTOR (x : Nat) : Nat := x / 2 ^ 48 % 2 ^ 16

/-- Modelled from the spec: engine header macro `DTRACE_LLQUANTIZE_LOW`
(`dtrace.h` is not part of the sources): bits 32..47 as `uint16_t`. -/
def DTRACE_LLQUANTIZE_LOW (x : Nat) : Nat := x / 2 ^ 32 % 2 ^ 16

/-- Modelled from the spec: engine header macro `DTRACE_LLQUANTIZE_HIGH`
(`dtrace.h` is not part of the sources): bits 16..31 as `uint16_t`. -/
def DTRACE_LLQUANTIZE_HIGH (x : Nat) : Nat := x / 2 ^ 16 % 2 ^ 16

/-- Modelled from the spec: engine header macro `DTRACE_LLQUANTIZE_NSTEP`
(`dtrace.h` is not part of the sources): bits 0..15 as `uint16_t`. -/
def DTRACE_LLQUANTIZE_NSTEP (x : Nat) : Nat := x % 2 ^ 16

/-- Ways a call can fail to return. -/
inductive Fault
  /-- The integer division `next / nsteps` with `nsteps = 0`. -/
  | division_by_zero
  /-- An `assert(...)` does not hold. -/
  | assertion_failed
  /-- The `while` loop is still running when the iteration budget is spent. -/
  | out_of_fuel
  /-- A load `ranges[i]` past the end of the range table. -/
  | out_of_bounds
  deriving DecidableEq, Repr

/-- Outcome of a run: a result, or the fault that ended it. -/
inductive Run (α : Type) where
  | done (a : α)
  | fault (f : Fault)
  deriving DecidableEq, Repr

/-- The value of `value` after `for (order = 0; order < low; order++)
value *= factor;`, starting from `value = 1` (`int64_t` arithmetic). -/
def llquantize_start (factor : Nat) : Nat → Int
  | 0 => 1
  | low + 1 => int64 (llquantize_start factor low * factor)

/-- The statement `step = next > nsteps ? next / nsteps : 1` (C division
truncates; it is evaluated only when `next > nsteps`). -/
def llquantize_step (next : Int) (nsteps : Nat) : Run Int :=
  if next > nsteps then
    if nsteps = 0 then .fault .division_by_zero else .done (Int.tdiv next nsteps)
  else .done 1

/-- The local variables of `_ranges_llquantize` together with the log of the
array stores `ranges[bucket] = ...` performed so far, oldest first, each with
the index it was stored at. -/
structure LLState where
  value : Int
  next : Int
  step : Int
  order : Nat
  bucket : Nat
  writes : List (Nat × BucketRange)
  deriving DecidableEq, Repr

/-- The `while (order <= high)` loop of `_ranges_llquantize`; `fuel` bounds the
number of iterations. -/
def llquantize_loop (factor high nsteps : Nat) : Nat → LLState → Run LLState
  | 0, s => if s.order ≤ high then .fault .out_of_fuel else .done s
  | fuel + 1, s =>
    if s.order ≤ high then
      let writes :=
        s.writes ++ [(s.bucket, set_range s.value (int64 (int64 (s.value + s.step) - 1)))]
      let bucket := s.bucket + 1
      let value := int64 (s.value + s.step)
      if value ≠ s.next then
        llquantize_loop factor high nsteps fuel
          { s with value := value, bucket := bucket, writes := writes }
      else
        let next := int64 (value * factor)
        match llquantize_step next nsteps with
        | .fault f => .fault f
        | .done step =>
          llquantize_loop factor high nsteps fuel
            { value := value, next := next, step := step, order := s.order + 1,
              bucket := bucket, writes := writes }
    else .done s

/-- The body of `_ranges_llquantize` after the cache lookup, up to and
including the store of the final bucket: the state in which the assertion is
evaluated. -/
def llquantize_run (fuel : Nat) (arg : Nat) : Run LLState :=
  let factor := DTRACE_LLQUANTIZE_FACTOR arg
  let low := DTRACE_LLQUANTIZE_LOW arg
  let high := DTRACE_LLQUANTIZE_HIGH arg
  let nsteps := DTRACE_LLQUANTIZE_NSTEP arg
  let value := llquantize_start factor low
  let next := int64 (value * factor)
  match llquantize_step next nsteps with
  | .fault f => .fault f
  | .done step =>
    match llquantize_loop factor high nsteps fuel
        { value := value, next := next, step := step, order := low, bucket := 1,
          writes := [(0, set_range 0 (int64 (value - 2)))] } with
    | .fault f => .fault f
    | .done s => .done { s with writes := s.writes ++ [(s.bucket, set_range s.value INT64_MAX)] }

/-- Source `_ranges_llquantize`: the cached table on a hit; otherwise the
buckets are stored one after the other, the assertion
`bucket + 1 == nbuckets` is checked, and the table is cached under `varid`. -/
def _ranges_llquantize (fuel : Nat) (dtc : DTraceConsumer) (varid : Int) (arg : Nat)
    (nbuckets : Int) : Run (Option RangeTable × DTraceConsumer) :=
  match _ranges_cached dtc varid with
  | some ranges => .done (some ranges, dtc)
  | none =>
    match llquantize_run fuel arg with
    | .fault f => .fault f
    | .done s =>
      if (s.bucket : Int) + 1 = nbuckets then
        .done (_ranges_cache dtc varid (some (s.writes.map Prod.snd)))
      else .fault .assertion_failed

/-- Packs the four llquantize fields into a control word (inverse of the four
field macros on in-range fields). -/
def llquantize_arg (factor low high nsteps : Nat) : Nat :=
  factor % 2 ^ 16 * 2 ^ 48 + low % 2 ^ 16 * 2 ^ 32 + high % 2 ^ 16 * 2 ^ 16 + nsteps % 2 ^ 16

/-! ## Record decoding -/

/-- Modelled from the spec: the engine's action kinds (`dtrace_actkind_t` and
its `DTRACEACT_*` / `DTRACEAGG_*` constants; `dtrace.h` is not part of the
sources). `other` stands for every kind the binding does not name. -/
inductive dtrace_actkind_t
  | DTRACEACT_NONE
  | DTRACEACT_DIFEXPR
  | DTRACEACT_EXIT
  | DTRACEACT_PRINTF
  | DTRACEACT_PRINTA
  | DTRACEACT_LIBACT
  | DTRACEACT_USTACK
  | DTRACEACT_JSTACK
  | DTRACEACT_USYM
  | DTRACEACT_UMOD
  | DTRACEACT_UADDR
  | DTRACEACT_STOP
  | DTRACEACT_RAISE
  | DTRACEACT_SYSTEM
  | DTRACEACT_FREOPEN
  | DTRACEACT_STACK
  | DTRACEACT_SYM
  | DTRACEACT_MOD
  | DTRACEAGG_COUNT
  | DTRACEAGG_MIN
  | DTRACEAGG_MAX
  | DTRACEAGG_AVG
  | DTRACEAGG_SUM
  | DTRACEAGG_STDDEV
  | DTRACEAGG_QUANTIZE
  | DTRACEAGG_LQUANTIZE
  | DTRACEAGG_LLQUANTIZE
  | other (code : Nat)
  deriving DecidableEq, Repr

open dtrace_actkind_t

/-- Modelled from the spec: the test `DTRACEACT_CLASS(action) ==
DTRACEACT_KERNEL` of the engine header (`dtrace.h` is not part of the
sources): the kernel class holds `stack()`, `sym()` and `mod()`; the user
variants `ustack()`, `usym()`, `umod()`, `uaddr()` are in the process class. -/
def class_is_kernel : dtrace_actkind_t → Bool
  | DTRACEACT_STACK => true
  | DTRACEACT_SYM => true
  | DTRACEACT_MOD => true
  | _ => false

/-- The fields of the engine's record descriptor the binding reads. -/
structure dtrace_recdesc_t where
  dtrd_action : dtrace_actkind_t
  dtrd_size : Nat
  dtrd_offset : Nat
  deriving DecidableEq, Repr

/-- The byte at offset `k` of the raw data at `addr`. The data is given as the
list of the bytes from `addr` on; bytes past its end read as zero. -/
def load_byte (addr : List Nat) (k : Nat) : Nat := addr.getD k 0 % 256

/-- The load `((uint64_t *)addr)[k]` (little-endian). -/
def load_u64 (addr : List Nat) (k : Nat) : Nat :=
  (List.range 8).foldr (fun j acc => load_byte addr (8 * k + j) + 256 * acc) 0

/-- The load `*(int64_t *)addr`. -/
def load_i64 (addr : List Nat) : Int := int64 (load_u64 addr 0)

/-- The C string starting at `buf`: the bytes before the first NUL. -/
def c_str (buf : List Nat) : List Nat := buf.takeWhile (· ≠ 0)

/-- C library `strchr(buf, c)`: offset of the first occurrence of `c` in the C
string at `buf` (the terminating NUL belongs to the string), `none` for
`NULL`. -/
def strchr : List Nat → Nat → Option Nat
  | [], _ => none
  | b :: rest, c =>
    if b = c then some 0
    else if b = 0 then none
    else (strchr rest c).map (· + 1)

/-- C library `strrchr(buf, c)`: offset of the last occurrence of `c` in the C
string at `buf` (the terminating NUL belongs to the string), `none` for
`NULL`. -/
def strrchr : List Nat → Nat → Option Nat
  | [], _ => none
  | b :: rest, c =>
    if b = 0 then (if c = 0 then some 0 else none)
    else
      match strrchr rest c with
      | some k => some (k + 1)
      | none => if b = c then some 0 else none

/-- The values `_make_record` builds: a Python integer or a Python string
(given by its bytes). -/
inductive PyValue
  | long (v : Int)
  | str (s : List Nat)
  deriving DecidableEq, Repr

/-- The back-tick character. -/
def TICK : Nat := 96

/-- The character `+`. -/
def PLUS : Nat := 43

/-- The bytes of the string literal `"<unknown>"`. -/
def UNKNOWN : List Nat := [60, 117, 110, 107, 110, 111, 119, 110, 62]

/-- Source `_make_record`. The engine's address-resolution calls are
parameters: `addr2str pc` and `uaddr2str pid pc` give the content of `buf`
after `dtrace_addr2str` resp. `dtrace_uaddr2str` returned. The result is
`none` when control reaches `assert(0)`. -/
def _make_record (addr2str : Nat → List Nat) (uaddr2str : Nat → Nat → List Nat)
    (rec : dtrace_recdesc_t) (addr : List Nat) : Option PyValue :=
  if rec.dtrd_action = DTRACEACT_DIFEXPR then
    if rec.dtrd_size = 8 ∨ rec.dtrd_size = 4 ∨ rec.dtrd_size = 2 ∨ rec.dtrd_size = 1 then
      some (.long (Py_BuildValue_l (load_i64 addr)))
    else
      some (.str (c_str addr))
  else if rec.dtrd_action = DTRACEACT_SYM ∨ rec.dtrd_action = DTRACEACT_MOD ∨
      rec.dtrd_action = DTRACEACT_USYM ∨ rec.dtrd_action = DTRACEACT_UMOD ∨
      rec.dtrd_action = DTRACEACT_UADDR then
    let buf :=
      if class_is_kernel rec.dtrd_action then addr2str (load_u64 addr 0)
      else uaddr2str (load_u64 addr 0) (load_u64 addr 1)
    if rec.dtrd_action = DTRACEACT_MOD ∨ rec.dtrd_action = DTRACEACT_UMOD then
      match strchr buf TICK with
      | none => some (.str UNKNOWN)
      | some tick => some (.str (c_str (buf.set tick 0)))
    else if rec.dtrd_action = DTRACEACT_SYM ∨ rec.dtrd_action = DTRACEACT_USYM then
      match strrchr buf PLUS with
      | some plus => some (.str (c_str (buf.set plus 0)))
      | none => some (.str (c_str buf))
    else
      some (.str (c_str buf))
  else none

/-- A consumer whose cache is empty, as left by `DTraceConsumer_init` and by
the flush at the end of a snapshot pass. -/
def empty_consumer : DTraceConsumer := ⟨none, 0, none⟩

/-- Packs the three lquantize fields into a control word (inverse of the three
field macros on in-range fields). -/
def lquantize_arg (base : Int) (step levels : Nat) : Nat :=
  step % 2 ^ 16 * 2 ^ 48 + levels % 2 ^ 16 * 2 ^ 32 + (base % 2 ^ 32).toNat

/-- The entry `ranges[i]` of a returned table pointer. -/
def entry (ranges : Option RangeTable) (i : Nat) : Option BucketRange :=
  ranges.bind (·[i]?)

/-- Spec wording: the module part of a resolved address string `s`, the
prefix left of the first back-tick, or the sentinel when there is none. -/
def module_part (s : List Nat) : List Nat :=
  if TICK ∈ s then s.takeWhile (· ≠ TICK) else UNKNOWN

/-- Spec wording: the symbol part of a resolved address string `s`, the
prefix left of the last `+`, or all of `s` when there is none. -/
def symbol_part (s : List Nat) : List Nat :=
  if PLUS ∈ s then (s.reverse.dropWhile (· ≠ PLUS)).tail.reverse else s

/-! ## Error texts -/

/-- The bytes of a string literal of the source. -/
def bytes (s : String) : List Nat := s.toList.map Char.toNat

/-- The conversion `%d` of a non-negative `int`. -/
def fmt_d (n : Nat) : List Nat := (Nat.toDigits 10 n).map Char.toNat

/-- The conversion `%x`. -/
def fmt_x (n : Nat) : List Nat := (Nat.toDigits 16 n).map Char.toNat

/-- The C string a buffer of `size` bytes holds after `snprintf` or
`vsnprintf` was asked to write the text `m` to it: at most `size - 1` bytes. -/
def snprintf (size : Nat) (m : List Nat) : List Nat := (c_str m).take (size - 1)

/-- Source `_action`: the name of the record's action from the table `act`,
or `<unknown action 0x..>`, written to the 256-byte `errbuf`, for an action
the table does not hold. -/
def _action (rec : dtrace_recdesc_t) : List Nat :=
  match rec.dtrd_action with
  | DTRACEACT_NONE => bytes "<none>"
  | DTRACEACT_DIFEXPR => bytes "<DIF expression>"
  | DTRACEACT_EXIT => bytes "exit()"
  | DTRACEACT_PRINTF => bytes "printf()"
  | DTRACEACT_PRINTA => bytes "printa()"
  | DTRACEACT_LIBACT => bytes "<library action>"
  | DTRACEACT_USTACK => bytes "ustack()"
  | DTRACEACT_JSTACK => bytes "jstack()"
  | DTRACEACT_USYM => bytes "usym()"
  | DTRACEACT_UMOD => bytes "umod()"
  | DTRACEACT_UADDR => bytes "uaddr()"
  | DTRACEACT_STOP => bytes "stop()"
  | DTRACEACT_RAISE => bytes "raise()"
  | DTRACEACT_SYSTEM => bytes "system()"
  | DTRACEACT_FREOPEN => bytes "freopen()"
  | DTRACEACT_STACK => bytes "stack()"
  | DTRACEACT_SYM => bytes "sym()"
  | DTRACEACT_MOD => bytes "mod()"
  | DTRACEAGG_COUNT => bytes "count()"
  | DTRACEAGG_MIN => bytes "min()"
  | DTRACEAGG_MAX => bytes "max()"
  | DTRACEAGG_AVG => bytes "avg()"
  | DTRACEAGG_SUM => bytes "sum()"
  | DTRACEAGG_STDDEV => bytes "stddev()"
  | DTRACEAGG_QUANTIZE => bytes "quantize()"
  | DTRACEAGG_LQUANTIZE => bytes "lquantize()"
  | DTRACEAGG_LLQUANTIZE => bytes "llquantize()"
  | other code => snprintf 256 (bytes "<unknown action 0x" ++ fmt_x code ++ bytes ">")

/-- Source `_valid`: the actions that can be decoded as a key. -/
def _valid (rec : dtrace_recdesc_t) : Bool :=
  match rec.dtrd_action with
  | DTRACEACT_DIFEXPR => true
  | DTRACEACT_SYM => true
  | DTRACEACT_MOD => true
  | DTRACEACT_USYM => true
  | DTRACEACT_UMOD => true
  | DTRACEACT_UADDR => true
  | _ => false

/-- Source `_action_valid`: the actions that can be decoded as a record. -/
def _action_valid (rec : dtrace_recdesc_t) : Bool :=
  match rec.dtrd_action with
  | DTRACEACT_DIFEXPR => true
  | DTRACEACT_SYM => true
  | DTRACEACT_MOD => true
  | DTRACEACT_USYM => true
  | DTRACEACT_UMOD => true
  | DTRACEACT_UADDR => true
  | _ => false

/-- What lies outside the binding: the engine's address resolution, the C
library's error text, and two facts of the memory layout the code depends on. -/
structure Host where
  /-- Content of `buf` after `dtrace_addr2str(dtp, pc, buf, ...)`. -/
  addr2str : Nat → List Nat
  /-- Content of `buf` after `dtrace_uaddr2str(dtp, pid, pc, buf, ...)`. -/
  uaddr2str : Nat → Nat → List Nat
  /-- The text `strerror(errno)`. -/
  strerror : List Nat
  /-- The byte in front of the array `buf` of `_error`, which
  `buf[strlen(buf) - 1]` reads when `buf` holds the empty string. -/
  stray : Nat
  /-- The address of the Python integer object `Py_BuildValue("i", v)` returns
  for the value `v`. -/
  PyInt_addr : Int → Int
  /-- What format unit `l` of `Py_BuildValue` reads from the variable
  arguments, a C `long`, when the caller passed the `double`
  `data[1] / (double)data[0]`; given by the words `data[0]` and `data[1]`. -/
  long_of_double : Int → Int → Int

/-- Source `_error`, for the text `m` that the format and its arguments
produce: the bytes of the Python string it returns. -/
def _error (h : Host) (m : List Nat) : List Nat :=
  let buf := snprintf 1024 m
  let last := if buf.length = 0 then h.stray else buf.getD (buf.length - 1) 0
  if last ≠ 10 then
    snprintf 1024 (buf ++ bytes ": " ++ c_str h.strerror)
  else
    buf.take (buf.length - 1)

/-! ## Aggregation walk -/

/-- The fields of the engine's aggregation descriptor the binding reads;
`dtagd_nrecs` is the length of `dtagd_rec`. -/
structure dtrace_aggdesc_t where
  dtagd_name : List Nat
  dtagd_varid : Int
  dtagd_rec : List dtrace_recdesc_t
  deriving DecidableEq, Repr

/-- The fields of the engine's aggregation data the binding reads: the
descriptor and the raw bytes from `dtada_data` on. -/
structure dtrace_aggdata_t where
  dtada_desc : dtrace_aggdesc_t
  dtada_data : List Nat
  deriving DecidableEq, Repr

/-- The value object `val` that `_aggwalk` builds. -/
inductive AggValue
  /-- The Python integer a call `Py_BuildValue("l", ...)` returns. -/
  | long (v : Int)
  /-- The list of `[ranges[i], count]` pairs, in the order they were appended. -/
  | hist (entries : List (BucketRange × Int))
  deriving DecidableEq, Repr

/-- The arguments the sink receives from
`PyObject_CallFunction(dtc->dtc_callback, "iOO", id, keys, val)`. -/
structure AggCall where
  id : Int
  keys : List PyValue
  val : AggValue
  deriving DecidableEq, Repr

/-- Modelled from the spec: the walk outcomes `_aggwalk` returns (the
`DTRACE_AGGWALK_*` constants of `dtrace.h`, which is not part of the sources). -/
inductive AggWalkRval
  | DTRACE_AGGWALK_ERROR
  | DTRACE_AGGWALK_REMOVE
  deriving DecidableEq, Repr

open AggWalkRval

/-- What a call of `_aggwalk` that returns leaves behind: the returned
outcome, the consumer object, and the sink invocations made, oldest first. -/
structure AggWalkResult where
  rval : AggWalkRval
  dtc : DTraceConsumer
  calls : List AggCall
  deriving DecidableEq, Repr

/-- The load `data[k]` through a pointer `const int64_t *data`. -/
def load_word (addr : List Nat) (k : Nat) : Int := int64 (load_u64 addr k)

/-- The text the key loop of `_aggwalk` formats for an unsupported key. -/
def key_error_text (rec : dtrace_recdesc_t) (i : Nat) (name : List Nat) : List Nat :=
  bytes "unsupported action " ++ c_str (_action rec) ++ bytes " as key #" ++ fmt_d i ++
    bytes " in aggregation " ++ [34] ++ c_str name ++ [34, 10]

/-- The text `_aggwalk` formats for an unsupported aggregating action. -/
def agg_error_text (aggrec : dtrace_recdesc_t) (name : List Nat) : List Nat :=
  bytes "unsupported aggregating action " ++ c_str (_action aggrec) ++
    bytes " in aggregation " ++ [34] ++ c_str name ++ [34, 10]

/-- The loop `for (i = 1; i < nrecs - 1; i++)` of `_aggwalk`, from index `i`
on, over the records still to visit: the decoded keys (`inl`), or the record
and index at which the loop returned with an error (`inr`). -/
def key_loop (h : Host) (data : List Nat) :
    Nat → List dtrace_recdesc_t → Run (List PyValue ⊕ (dtrace_recdesc_t × Nat))
  | _, [] => .done (.inl [])
  | i, krec :: rest =>
    if _valid krec = false then .done (.inr (krec, i))
    else
      match _make_record h.addr2str h.uaddr2str krec (data.drop krec.dtrd_offset) with
      | none => .fault .assertion_failed
      | some key =>
        match key_loop h data (i + 1) rest with
        | .fault f => .fault f
        | .done (.inr e) => .done (.inr e)
        | .done (.inl keys) => .done (.inl (key :: keys))

/-- The loops `for (i = 0; i < n; i++) { if (!data[i]) continue; ... }` of
`_aggwalk` over the indices still to visit: the appended `[ranges[i],
Py_BuildValue("i", data[i])]` pairs. -/
def hist_entries (ranges : RangeTable) (data : Nat → Int) :
    List Nat → Run (List (BucketRange × Int))
  | [] => .done []
  | i :: rest =>
    if data i = 0 then hist_entries ranges data rest
    else
      match ranges[i]? with
      | none => .fault .out_of_bounds
      | some r =>
        match hist_entries ranges data rest with
        | .fault f => .fault f
        | .done entries => .done ((r, Py_BuildValue_i (data i)) :: entries)

/-- The histogram branches of `_aggwalk` once the call for the range table is
made: the loop over `n` buckets on the returned table `ranges`, and the list
it builds as the value. -/
def hist_value (table : Run (Option RangeTable × DTraceConsumer)) (data : Nat → Int) (n : Nat) :
    Run (Option AggValue × DTraceConsumer) :=
  match table with
  | .fault f => .fault f
  | .done (none, _) => .fault .out_of_bounds
  | .done (some ranges, dtc') =>
    match hist_entries ranges data (List.range n) with
    | .fault f => .fault f
    | .done entries => .done (some (.hist entries), dtc')

/-- The value `levels` of the lquantize and llquantize branch:
`(aggrec->dtrd_size / sizeof (uint64_t)) - 1`, stored in an `int`. -/
def agg_levels (aggrec : dtrace_recdesc_t) : Int :=
  int32 (((aggrec.dtrd_size / 8 : Nat) : Int) - 1)

/-- The `switch (aggrec->dtrd_action)` of `_aggwalk`: the value object and the
consumer object after it, `none` for the `default` branch. In the avg branch
the quotient `data[1] / (double)data[0]` is a `double` handed to
`Py_BuildValue` under format unit `l`, which reads a `long`. -/
def agg_value (fuel : Nat) (h : Host) (dtc : DTraceConsumer) (varid : Int)
    (aggrec : dtrace_recdesc_t) (addr : List Nat) : Run (Option AggValue × DTraceConsumer) :=
  if aggrec.dtrd_action = DTRACEAGG_COUNT ∨ aggrec.dtrd_action = DTRACEAGG_MIN ∨
      aggrec.dtrd_action = DTRACEAGG_MAX ∨ aggrec.dtrd_action = DTRACEAGG_SUM then
    if aggrec.dtrd_size = 8 then .done (some (.long (Py_BuildValue_l (load_i64 addr))), dtc)
    else .fault .assertion_failed
  else if aggrec.dtrd_action = DTRACEAGG_AVG then
    if aggrec.dtrd_size = 16 then
      .done (some (.long (Py_BuildValue_l
        (h.long_of_double (load_word addr 0) (load_word addr 1)))), dtc)
    else .fault .assertion_failed
  else if aggrec.dtrd_action = DTRACEAGG_QUANTIZE then
    hist_value (.done (_ranges_quantize dtc varid)) (load_word addr) DTRACE_QUANTIZE_NBUCKETS
  else if aggrec.dtrd_action = DTRACEAGG_LQUANTIZE then
    hist_value (.done (_ranges_lquantize dtc varid (load_u64 addr 0)))
      (fun i => load_word addr (i + 1)) (agg_levels aggrec).toNat
  else if aggrec.dtrd_action = DTRACEAGG_LLQUANTIZE then
    hist_value (_ranges_llquantize fuel dtc varid (load_u64 addr 0) (agg_levels aggrec))
      (fun i => load_word addr (i + 1)) (agg_levels aggrec).toNat
  else .done (none, dtc)

/-- Source `_aggwalk`. The sink's first argument is what format unit `i` of
`"iOO"` reads from the pointer `id`: the low 32 bits of the address of the
integer object built from the variable id. -/
def _aggwalk (fuel : Nat) (h : Host) (dtc : DTraceConsumer) (agg : dtrace_aggdata_t) :
    Run AggWalkResult :=
  let aggdesc := agg.dtada_desc
  let nrecs := aggdesc.dtagd_rec.length
  if nrecs < 2 then .fault .assertion_failed
  else
    let id := Py_BuildValue_i aggdesc.dtagd_varid
    match key_loop h agg.dtada_data 1 ((aggdesc.dtagd_rec.drop 1).take (nrecs - 2)) with
    | .fault f => .fault f
    | .done (.inr (krec, i)) =>
      .done ⟨DTRACE_AGGWALK_ERROR,
        { dtc with dtc_error := some (_error h (key_error_text krec i aggdesc.dtagd_name)) }, []⟩
    | .done (.inl keys) =>
      match aggdesc.dtagd_rec[nrecs - 1]? with
      | none => .fault .out_of_bounds
      | some aggrec =>
        match agg_value fuel h dtc aggdesc.dtagd_varid aggrec
            (agg.dtada_data.drop aggrec.dtrd_offset) with
        | .fault f => .fault f
        | .done (none, dtc') =>
          .done ⟨DTRACE_AGGWALK_ERROR,
            { dtc' with dtc_error := some (_error h (agg_error_text aggrec aggdesc.dtagd_name)) },
            []⟩
        | .done (some val, dtc') =>
          .done ⟨DTRACE_AGGWALK_REMOVE, dtc',
            [⟨Py_BuildValue_i (h.PyInt_addr id), keys, val⟩]⟩

/-! ## Consuming probe records -/

/-- The name arrays of the engine's probe descriptor. -/
structure dtrace_probedesc_t where
  dtpd_provider : List Nat
  dtpd_mod : List Nat
  dtpd_func : List Nat
  dtpd_name : List Nat
  deriving DecidableEq, Repr

/-- The fields of the engine's probe data the binding reads. -/
structure dtrace_probedata_t where
  dtpda_pdesc : dtrace_probedesc_t
  dtpda_data : List Nat
  deriving DecidableEq, Repr

/-- The dictionary built by `_make_probedesc`, by its four entries
`provider`, `module`, `function` and `name`. -/
structure ProbeDict where
  provider : List Nat
  module_name : List Nat
  function_name : List Nat
  name : List Nat
  deriving DecidableEq, Repr

/-- Source `_make_probedesc`. -/
def _make_probedesc (pd : dtrace_probedesc_t) : ProbeDict :=
  ⟨c_str pd.dtpd_provider, c_str pd.dtpd_mod, c_str pd.dtpd_func, c_str pd.dtpd_name⟩

/-- The arguments the sink receives from
`PyObject_CallFunction(dtc->dtc_callback, "OO", probe, record)`. -/
structure EventCall where
  probe : ProbeDict
  record : PyValue
  deriving DecidableEq, Repr

/-- Modelled from the spec: the outcomes `_consume` returns (the
`DTRACE_CONSUME_*` constants of `dtrace.h`, which is not part of the sources):
`THIS` hands the record to the engine's own (buffered) output, `NEXT`
advances, `ABORT` stops the pass. -/
inductive ConsumeRval
  | DTRACE_CONSUME_THIS
  | DTRACE_CONSUME_NEXT
  | DTRACE_CONSUME_ABORT
  deriving DecidableEq, Repr

open ConsumeRval

/-- What a call of `_consume` that returns leaves behind. -/
structure ConsumeResult where
  rval : ConsumeRval
  dtc : DTraceConsumer
  calls : List EventCall
  deriving DecidableEq, Repr

/-- The text `_consume` formats for an unsupported action. -/
def consume_error_text (r : dtrace_recdesc_t) (pd : dtrace_probedesc_t) : List Nat :=
  bytes "unsupported action " ++ c_str (_action r) ++ bytes " in record for " ++
    c_str pd.dtpd_provider ++ [58] ++ c_str pd.dtpd_mod ++ [58] ++ c_str pd.dtpd_func ++ [58] ++
    c_str pd.dtpd_name ++ [10]

/-- Source `_consume`; `r = none` is the `NULL` record. -/
def _consume (h : Host) (dtc : DTraceConsumer) (data : dtrace_probedata_t)
    (r : Option dtrace_recdesc_t) : Run ConsumeResult :=
  match r with
  | none => .done ⟨DTRACE_CONSUME_NEXT, dtc, []⟩
  | some r =>
    if _action_valid r = false then
      if r.dtrd_action = DTRACEACT_PRINTF then .done ⟨DTRACE_CONSUME_THIS, dtc, []⟩
      else
        .done ⟨DTRACE_CONSUME_ABORT,
          { dtc with dtc_error := some (_error h (consume_error_text r data.dtpda_pdesc)) }, []⟩
    else
      match _make_record h.addr2str h.uaddr2str r data.dtpda_data with
      | none => .fault .assertion_failed
      | some record => .done ⟨DTRACE_CONSUME_NEXT, dtc, [⟨_make_probedesc data.dtpda_pdesc, record⟩]⟩

/-- The fields of the engine's buffered-output data the binding reads. -/
structure dtrace_bufdata_t where
  dtbda_probe : dtrace_probedata_t
  dtbda_recdesc : Option dtrace_recdesc_t
  dtbda_buffered : List Nat
  deriving DecidableEq, Repr

/-- Modelled from the spec: the outcome `_bufhandler` returns (the constant
`DTRACE_HANDLE_OK` of `dtrace.h`, which is not part of the sources). -/
inductive HandleRval
  | DTRACE_HANDLE_OK
  deriving DecidableEq, Repr

open HandleRval

/-- Source `_bufhandler`: the returned outcome and the invocations of
`dtc_callback` made. -/
def _bufhandler (bufdata : dtrace_bufdata_t) : HandleRval × List EventCall :=
  match bufdata.dtbda_recdesc with
  | none => (DTRACE_HANDLE_OK, [])
  | some r =>
    if r.dtrd_action ≠ DTRACEACT_PRINTF then (DTRACE_HANDLE_OK, [])
    else
      (DTRACE_HANDLE_OK,
        [⟨_make_probedesc bufdata.dtbda_probe.dtpda_pdesc, .str (c_str bufdata.dtbda_buffered)⟩])

/-! ## The passes -/

/-- The engine calls a pass makes, by what they return. `dtrace_work` and
`dtrace_aggregate_walk` run the binding's callbacks, so they also give the
consumer object as the callbacks left it. -/
structure Engine where
  dtrace_status : Int
  dtrace_aggregate_snap : Int
  dtrace_aggregate_walk : DTraceConsumer → Int × DTraceConsumer
  dtrace_work : DTraceConsumer → Int × DTraceConsumer
  /-- The text `dtrace_errmsg(dtp, dtrace_errno(dtp))`. -/
  dtrace_errmsg : List Nat

/-- The exception types the passes raise. -/
inductive PyExc
  | PyExc_RuntimeError
  | PyExc_AttributeError
  deriving DecidableEq, Repr

open PyExc

/-- What a pass returns to Python: `None`, or `NULL` with an exception set. -/
inductive PyReturn
  | Py_None
  | raised (type : PyExc) (value : List Nat)
  deriving DecidableEq, Repr

/-- Modelled from the spec: the engine header constant `DTRACE_AGGVARIDNONE`
(`dtrace.h` is not part of the sources), the id of no variable. -/
def DTRACE_AGGVARIDNONE : Int := 0

/-- The text both passes raise when their arguments cannot be parsed. -/
def invalid_parameters : List Nat :=
  bytes ("Invalid parameters: consume accepts a callback function and a nullable array of " ++
    "objects that act as additional arguments to the callback as inputs")

/-- Source `DTraceConsumer_consume`; `parsed` tells whether
`PyArg_ParseTupleAndKeywords` succeeded. -/
def DTraceConsumer_consume (e : Engine) (parsed : Bool) (self : DTraceConsumer) :
    PyReturn × DTraceConsumer :=
  if parsed = false then (.raised PyExc_AttributeError invalid_parameters, self)
  else
    let self1 := { self with dtc_error := none }
    let (status, self2) := e.dtrace_work self1
    match self2.dtc_error with
    | some err => if status = -1 then (.raised PyExc_RuntimeError err, self2) else (.Py_None, self2)
    | none => (.Py_None, self2)

/-- Source `DTraceConsumer_aggwalk`; `parsed` tells whether
`PyArg_ParseTupleAndKeywords` succeeded. -/
def DTraceConsumer_aggwalk (h : Host) (e : Engine) (parsed : Bool) (self : DTraceConsumer) :
    PyReturn × DTraceConsumer :=
  if parsed = false then (.raised PyExc_AttributeError invalid_parameters, self)
  else
    let self1 := { self with dtc_error := none }
    if e.dtrace_status = -1 then
      (.raised PyExc_RuntimeError
        (_error h (bytes "couldn't get status: " ++ c_str e.dtrace_errmsg ++ [10])), self1)
    else if e.dtrace_aggregate_snap = -1 then
      (.raised PyExc_RuntimeError
        (_error h (bytes "couldn't snap aggregate: " ++ c_str e.dtrace_errmsg ++ [10])), self1)
    else
      let (rval, self2) := e.dtrace_aggregate_walk self1
      let self3 := (_ranges_cache self2 DTRACE_AGGVARIDNONE none).2
      if rval = -1 then
        match self3.dtc_error with
        | some err => (.raised PyExc_RuntimeError err, self3)
        | none =>
          (.raised PyExc_RuntimeError
            (_error h (bytes "couldn't walk aggregate: " ++ c_str e.dtrace_errmsg ++ [10])), self3)
      else (.Py_None, self3)

/-- Source `DTraceConsumer_init`: the return value and the consumer object.
`has_handle` tells whether `self->dtc_handle` is set already, `opened` whether
`dtrace_open` succeeds. The calls `dtrace_setopt` and `dtrace_handle_buffered`
in between change neither the return value nor a field of the model. -/
def DTraceConsumer_init (has_handle opened : Bool) (self : DTraceConsumer) :
    Int × DTraceConsumer :=
  if has_handle then (0, self)
  else if opened = false then (-1, self)
  else (0, { self with dtc_ranges := none })

/-! ## Sample inputs and spec-side notions -/

/-- The eight bytes of a 64-bit word, least significant first. -/
def le64 (v : Nat) : List Nat := (List.range 8).map fun j => v / 256 ^ j % 256

/-- The bytes of a sequence of 64-bit words. -/
def words (l : List Nat) : List Nat := l.foldr (fun v acc => le64 v ++ acc) []

/-- The whole number nearest to `p / q` (`q > 0`), ties to the even one. -/
def round_half_even (p q : Nat) : Nat :=
  if 2 * (p % q) < q then p / q
  else if q < 2 * (p % q) then p / q + 1
  else p / q + p / q % 2

/-- The position of the highest set bit of `n` (0 for `n ≤ 1`), found by
halving at most `fuel` times. -/
def highest_bit : Nat → Nat → Nat
  | 0, _ => 0
  | fuel + 1, n => if 2 ≤ n then highest_bit fuel (n / 2) + 1 else 0

/-- The exponent of a positive ratio of numbers below `2 ^ 128`: the `e` with
`2 ^ e ≤ p / q < 2 ^ (e + 1)` (`p, q > 0`). -/
def ratio_exponent (p q : Nat) : Int :=
  let e0 : Int := (highest_bit 128 p : Int) - (highest_bit 128 q : Int)
  if 0 ≤ e0 then (if p < q * 2 ^ e0.toNat then e0 - 1 else e0)
  else (if p * 2 ^ (-e0).toNat < q then e0 - 1 else e0)

/-- The binary64 number nearest to the positive ratio `p / q` (round to nearest,
ties to even; `p, q > 0`, the ratio within the normal range): its 53-bit
significand `m` and its exponent `e`, the number being `m * 2 ^ (e - 52)`. -/
def binary64_nearest (p q : Nat) : Nat × Int :=
  let e := ratio_exponent p q
  let m := if e ≤ 52 then round_half_even (p * 2 ^ (52 - e).toNat) q
    else round_half_even p (q * 2 ^ (e - 52).toNat)
  if m = 2 ^ 53 then (2 ^ 52, e + 1) else (m, e)

/-- The 64 bits of a binary64 number given by sign, significand and exponent. -/
def binary64_bits (negative : Bool) (m : Nat) (e : Int) : Nat :=
  (if negative then 2 ^ 63 else 0) + (e + 1023).toNat * 2 ^ 52 + (m - 2 ^ 52)

/-- The 64 bits of the C expression `data[1] / (double)data[0]` on two
`int64_t` words, in IEEE-754 binary64 arithmetic: both words are converted to
the nearest double and the quotient is rounded to the nearest double; a zero
divisor gives an infinity or, for `0 / 0`, the default NaN. -/
def double_bits (data0 data1 : Int) : Nat :=
  if data0 = 0 then
    if data1 = 0 then 0x7FF8000000000000
    else if data1 < 0 then 0xFFF0000000000000 else 0x7FF0000000000000
  else if data1 = 0 then (if data0 < 0 then 2 ^ 63 else 0)
  else
    let a := binary64_nearest data1.natAbs 1
    let b := binary64_nearest data0.natAbs 1
    let q := binary64_nearest (a.1 * 2 ^ a.2.toNat) (b.1 * 2 ^ b.2.toNat)
    binary64_bits (decide ((data1 < 0) ≠ (data0 < 0))) q.1 q.2

/-- A host: no address resolves, `strerror(errno)` is `Invalid argument`, the
byte in front of `buf` is NUL, the integer object for `v` lives at the address
`4325376 + 32 * v`, and variable arguments travel in memory, so that format
unit `l` reads the 64 bits of a `double` passed in its place. -/
def sample_host : Host :=
  ⟨fun _ => [], fun _ _ => [], bytes "Invalid argument", 0, fun v => 4325376 + 32 * v,
    fun data0 data1 => double_bits data0 data1⟩

/-- The interior records of an aggregation tuple: all but the first and the
last. -/
def interior (agg : dtrace_aggdata_t) : List dtrace_recdesc_t :=
  (agg.dtada_desc.dtagd_rec.drop 1).take (agg.dtada_desc.dtagd_rec.length - 2)

/-- Spec wording: the aggregating actions the walker decodes: count, min,
max, sum, avg, quantize, lquantize, llquantize. -/
def aggregating : dtrace_actkind_t → Bool
  | DTRACEAGG_COUNT => true
  | DTRACEAGG_MIN => true
  | DTRACEAGG_MAX => true
  | DTRACEAGG_SUM => true
  | DTRACEAGG_AVG => true
  | DTRACEAGG_QUANTIZE => true
  | DTRACEAGG_LQUANTIZE => true
  | DTRACEAGG_LLQUANTIZE => true
  | _ => false

/-- A tuple without keys whose aggregating action is `stddev()`, in an
aggregation whose name is 1100 bytes long. -/
def long_name_stddev_agg : dtrace_aggdata_t :=
  ⟨⟨List.replicate 1100 97, 1, [⟨DTRACEACT_DIFEXPR, 8, 0⟩, ⟨DTRACEAGG_STDDEV, 16, 0⟩]⟩,
   words [0, 0]⟩

/-- A tuple without keys whose aggregating record is an llquantize record of
48 bytes (a control word and five bucket counts) with the control word for
factor 10, low 1, high 1, nsteps 10, which describes eleven buckets. -/
def short_llquantize_agg : dtrace_aggdata_t :=
  ⟨⟨bytes "a", 1, [⟨DTRACEACT_DIFEXPR, 8, 0⟩, ⟨DTRACEAGG_LLQUANTIZE, 48, 0⟩]⟩,
   words [llquantize_arg 10 1 1 10, 1, 0, 2, 0, 3]⟩

/-- The spec's count aggregation: variable id 1, one key that decodes to 1,
stored value 5. -/
def count_agg : dtrace_aggdata_t :=
  ⟨⟨bytes "a", 1,
    [⟨DTRACEACT_DIFEXPR, 8, 0⟩, ⟨DTRACEACT_DIFEXPR, 8, 8⟩, ⟨DTRACEAGG_COUNT, 8, 16⟩]⟩,
   words [1, 1, 5]⟩

/-- The spec's avg aggregation: no keys, the stored pair count 3 (`data[0]`)
and sum 30 (`data[1]`). -/
def avg_agg : dtrace_aggdata_t :=
  ⟨⟨bytes "a", 1, [⟨DTRACEACT_DIFEXPR, 8, 0⟩, ⟨DTRACEAGG_AVG, 16, 0⟩]⟩, words [3, 30]⟩

/-- A tuple without keys whose aggregating record is a quantize record (127
words, 1016 bytes) with the counts 7, 2^32 + 5 and 2^32 in the buckets 63, 64
and 65 and zero elsewhere. -/
def quantize_agg : dtrace_aggdata_t :=
  ⟨⟨bytes "a", 1, [⟨DTRACEACT_DIFEXPR, 8, 0⟩, ⟨DTRACEAGG_QUANTIZE, 1016, 0⟩]⟩,
   List.replicate 504 0 ++
     [7, 0, 0, 0, 0, 0, 0, 0, 5, 0, 0, 0, 1, 0, 0, 0, 0, 0, 0, 0, 1, 0, 0, 0] ++
     List.replicate 488 0⟩

/-- A tuple without keys whose aggregating record is an lquantize record of
48 bytes: the control word for base 0, step 10, levels 3 and the five bucket
counts 1, 0, 2^32 + 7, 2^32, 3. -/
def lquantize_agg : dtrace_aggdata_t :=
  ⟨⟨bytes "a", 1, [⟨DTRACEACT_DIFEXPR, 8, 0⟩, ⟨DTRACEAGG_LQUANTIZE, 48, 0⟩]⟩,
   words [lquantize_arg 0 10 3, 1, 0, 4294967303, 4294967296, 3]⟩

/-- A probe `syscall:genunix:read:entry` with the raw data word 7. -/
def sample_probe : dtrace_probedata_t :=
  ⟨⟨bytes "syscall", bytes "genunix", bytes "read", bytes "entry"⟩, words [7]⟩

/-- A probe whose provider name is 1100 bytes long, with the module
`genunix`, the function `read` and the name `entry`. -/
def long_provider_probe : dtrace_probedata_t :=
  ⟨⟨List.replicate 1100 97, bytes "genunix", bytes "read", bytes "entry"⟩, words [7]⟩

/-- An engine whose status and snapshot calls succeed and whose walk and work
calls fail with the message `Abort due to drop`, without running a callback. -/
def failing_engine : Engine :=
  ⟨0, 0, fun d => (-1, d), fun d => (-1, d), bytes "Abort due to drop"⟩

/-- One pass over a consumer object, by the call that makes it: a snapshot
pass (`DTraceConsumer_aggwalk`) or a consume pass (`DTraceConsumer_consume`). -/
inductive Pass
  | aggwalk (h : Host) (e : Engine) (parsed : Bool)
  | consume (e : Engine) (parsed : Bool)

/-- The consumer object after one pass. -/
def run_pass : Pass → DTraceConsumer → DTraceConsumer
  | .aggwalk h e parsed, dtc => (DTraceConsumer_aggwalk h e parsed dtc).2
  | .consume e parsed, dtc => (DTraceConsumer_consume e parsed dtc).2

/-- The consumer object after a sequence of passes, first pass first. -/
def run_passes (ps : List Pass) (dtc : DTraceConsumer) : DTraceConsumer :=
  ps.foldl (fun d p => run_pass p d) dtc

/-- The work call of a consume pass leaves the two cache fields as they are,
as its callbacks `_consume` and `_bufhandler` do. Nothing is asked of a
snapshot pass. -/
def keeps_cache : Pass → Prop
  | .aggwalk _ _ _ => True
  | .consume e _ =>
    ∀ d, (e.dtrace_work d).2.dtc_ranges = d.dtc_ranges ∧
      (e.dtrace_work d).2.dtc_ranges_varid = d.dtc_ranges_varid

/-- The bucket count the llquantize control word `arg` describes:
`(high - low + 1) * (nsteps - nsteps / factor) + 2`. -/
def llquantize_bucket_count (arg : Nat) : Nat :=
  (DTRACE_LLQUANTIZE_HIGH arg - DTRACE_LLQUANTIZE_LOW arg + 1) *
    (DTRACE_LLQUANTIZE_NSTEP arg - DTRACE_LLQUANTIZE_NSTEP arg / DTRACE_LLQUANTIZE_FACTOR arg) + 2


/-- A consumer object whose cache holds a one-entry table under the id 1. -/
def cached_consumer : DTraceConsumer := ⟨none, 1, some [⟨0, 8⟩]⟩

/-- An engine whose calls succeed and whose walk, standing for a callback that
decoded an lquantize aggregation of the variable 7, leaves the table for base
0, step 10, levels 3 in the cache. -/
def caching_engine : Engine :=
  ⟨0, 0, fun d => (0, (_ranges_lquantize d 7 (lquantize_arg 0 10 3)).2), fun d => (0, d), []⟩

/-! ## Auxiliary facts -/

/-- The C variables `min` and `max` of `_ranges_quantize`, before they are
handed to `Py_BuildValue`, tile the `int64_t` domain. -/
theorem quantize_minmax_tiles :
    (quantize_minmax 0).1 = INT64_MIN ∧
    (quantize_minmax (DTRACE_QUANTIZE_NBUCKETS - 1)).2 = INT64_MAX ∧
    (∀ i < DTRACE_QUANTIZE_NBUCKETS, (quantize_minmax i).1 ≤ (quantize_minmax i).2) ∧
    (∀ i < DTRACE_QUANTIZE_NBUCKETS - 1,
      (quantize_minmax i).2 + 1 = (quantize_minmax (i + 1)).1) := by
  decide

/-- The sentinel bytes spell `<unknown>`. -/
theorem UNKNOWN_eq : UNKNOWN = "<unknown>".toList.map Char.toNat := by decide

/-- The C string at a buffer that starts with NUL is empty. -/
theorem c_str_cons_zero (rest : List Nat) : c_str (0 :: rest) = [] := by
  simp [c_str]

/-- The C string at a buffer that starts with a non-NUL byte. -/
theorem c_str_cons_ne {b : Nat} (hb : b ≠ 0) (rest : List Nat) :
    c_str (b :: rest) = b :: c_str rest := by
  simp [c_str, List.takeWhile_cons, hb]

/-- The offset found by `strchr` for a non-NUL character: cutting the buffer
there leaves the part of the C string before the first occurrence. -/
theorem strchr_spec (c : Nat) (hc : c ≠ 0) (buf : List Nat) :
    match strchr buf c with
    | none => c ∉ c_str buf
    | some k => c_str (buf.set k 0) = (c_str buf).takeWhile (· ≠ c) ∧ c ∈ c_str buf := by
  induction buf with
  | nil => simp [strchr, c_str]
  | cons b rest ih =>
    by_cases hbc : b = c
    · subst hbc
      simp [strchr, c_str_cons_zero, c_str_cons_ne hc, List.takeWhile_cons]
    · by_cases hb0 : b = 0
      · subst hb0
        simp [strchr, c_str_cons_zero, hbc]
      · cases hr : strchr rest c with
        | none =>
          rw [hr] at ih
          have hcb : ¬ c = b := fun e => hbc e.symm
          simpa [strchr, hbc, hb0, hr, c_str_cons_ne hb0, hcb] using ih
        | some k =>
          rw [hr] at ih
          obtain ⟨h1, h2⟩ := ih
          simp [strchr, hbc, hb0, hr, c_str_cons_ne hb0, List.takeWhile_cons, h1, h2]

/-- The offset found by `strrchr` for a non-NUL character: cutting the buffer
there leaves the part of the C string before the last occurrence. -/
theorem strrchr_spec (c : Nat) (hc : c ≠ 0) (buf : List Nat) :
    match strrchr buf c with
    | none => c ∉ c_str buf
    | some k => ∃ post, c_str buf = c_str (buf.set k 0) ++ c :: post ∧ c ∉ post := by
  induction buf with
  | nil => simp [strrchr, c_str]
  | cons b rest ih =>
    by_cases hb0 : b = 0
    · subst hb0
      simp [strrchr, c_str_cons_zero, hc]
    · cases hr : strrchr rest c with
      | some k =>
        rw [hr] at ih
        obtain ⟨post, hpost, hnot⟩ := ih
        simp only [strrchr, hb0, hr, if_false]
        exact ⟨post, by simp [c_str_cons_ne hb0, hpost], hnot⟩
      | none =>
        rw [hr] at ih
        by_cases hbc : b = c
        · subst hbc
          simp only [strrchr, hb0, hr, if_false, if_true]
          exact ⟨c_str rest, by simp [c_str_cons_ne hb0, c_str_cons_zero], ih⟩
        · have hcb : ¬ c = b := fun e => hbc e.symm
          simpa [strrchr, hb0, hr, hbc, c_str_cons_ne hb0, hcb] using ih

/-- The spec-side symbol part is the prefix before an occurrence of `+` that
no further `+` follows. -/
theorem symbol_part_of_split (pre post : List Nat) (h : PLUS ∉ post) :
    symbol_part (pre ++ PLUS :: post) = pre := by
  have hmem : PLUS ∈ pre ++ PLUS :: post := by simp
  have hdrop : ∀ l : List Nat, PLUS ∉ l →
      (l ++ PLUS :: pre.reverse).dropWhile (· ≠ PLUS) = PLUS :: pre.reverse := by
    intro l hl
    induction l with
    | nil => simp [List.dropWhile_cons]
    | cons a l ih =>
      have ha : a ≠ PLUS := fun e => hl (by simp [e])
      have hl2 : PLUS ∉ l := fun e => hl (by simp [e])
      have := ih hl2
      simp only [List.cons_append, List.dropWhile_cons, ha, ne_eq, not_false_eq_true,
        decide_True, if_true]
      exact this
  have hrev : (pre ++ PLUS :: post).reverse = post.reverse ++ PLUS :: pre.reverse := by simp
  rw [symbol_part, if_pos hmem, hrev, hdrop post.reverse (by simpa using h)]
  simp

/-- Every list that contains `c` splits at the last occurrence of `c`. -/
theorem exists_last_split (c : Nat) (s : List Nat) (h : c ∈ s) :
    ∃ pre post, s = pre ++ c :: post ∧ c ∉ post := by
  induction s with
  | nil => simp at h
  | cons a s ih =>
    by_cases hs : c ∈ s
    · obtain ⟨pre, post, hsplit, hpost⟩ := ih hs
      exact ⟨a :: pre, post, by simp [hsplit], hpost⟩
    · have hca : c = a := by
        rcases List.mem_cons.mp h with h1 | h1
        · exact h1
        · exact absurd h1 hs
      exact ⟨[], s, by simp [hca], hs⟩

/-- The spec-side symbol part splits the string at its last `+`. -/
theorem symbol_part_spec (s : List Nat) (h : PLUS ∈ s) :
    ∃ post, s = symbol_part s ++ PLUS :: post ∧ PLUS ∉ post := by
  obtain ⟨pre, post, hsplit, hpost⟩ := exists_last_split PLUS s h
  refine ⟨post, ?_, hpost⟩
  rw [hsplit, symbol_part_of_split pre post hpost]

/-- The spec-side module part never contains a back-tick. -/
theorem tick_not_mem_module_part (s : List Nat) : TICK ∉ module_part s := by
  unfold module_part
  split
  · intro hmem
    have := List.mem_takeWhile_imp hmem
    simp at this
  · decide

/-- The module branch of `_make_record` computes the spec-side module part of
the C string the service left in `buf`. -/
theorem module_branch (buf : List Nat) :
    (match strchr buf TICK with
      | none => some (PyValue.str UNKNOWN)
      | some tick => some (PyValue.str (c_str (buf.set tick 0)))) =
      some (PyValue.str (module_part (c_str buf))) := by
  have h := strchr_spec TICK (by decide) buf
  cases hr : strchr buf TICK with
  | none => rw [hr] at h; simp [module_part, h]
  | some k => rw [hr] at h; simp [module_part, h.1, h.2]

/-- The symbol branch of `_make_record` computes the spec-side symbol part of
the C string the service left in `buf`. -/
theorem symbol_branch (buf : List Nat) :
    (match strrchr buf PLUS with
      | some plus => some (PyValue.str (c_str (buf.set plus 0)))
      | none => some (PyValue.str (c_str buf))) =
      some (PyValue.str (symbol_part (c_str buf))) := by
  have h := strrchr_spec PLUS (by decide) buf
  cases hr : strrchr buf PLUS with
  | none => rw [hr] at h; simp [symbol_part, h]
  | some k =>
    rw [hr] at h
    obtain ⟨post, hsplit, hpost⟩ := h
    simp only
    rw [hsplit, symbol_part_of_split _ post hpost]

/-- A value inside the signed 32-bit range is left alone by the narrowing. -/
theorem int32_of_fits (x : Int) (h1 : -(2 ^ 31) ≤ x) (h2 : x < 2 ^ 31) : int32 x = x := by
  unfold int32 wrapSigned
  norm_num at h1 h2 ⊢
  omega

/-- Narrowing an operand first does not change a narrowed sum. -/
theorem int32_add_int32 (a b : Int) : int32 (a + int32 b) = int32 (a + b) := by
  unfold int32 wrapSigned
  norm_num
  omega

/-- Narrowing the minuend first does not change a narrowed difference. -/
theorem int32_int32_sub (a b : Int) : int32 (int32 a - b) = int32 (a - b) := by
  unfold int32 wrapSigned
  norm_num
  omega

/-- The table of `_ranges_lquantize` has `levels + 2` entries. -/
theorem lquantize_table_length (base : Int) (step levels : Nat) :
    (lquantize_table base step levels).length = levels + 2 := by
  simp [lquantize_table]

/-- The C variables `min` and `max` of `_ranges_lquantize`, before they are
handed to `Py_BuildValue`, hold the exact bounds as long as `base - 1` and
`base + levels * step` fit in 32 bits. -/
theorem lquantize_minmax_of_fits (base : Int) (step levels i : Nat)
    (hlev : levels < 2 ^ 16)
    (hlo : -(2 ^ 31) ≤ base - 1) (hhi : base + (levels : Int) * step < 2 ^ 31)
    (hi : i ≤ levels + 1) :
    (lquantize_minmax base step levels i).1 =
      (if i = 0 then INT64_MIN else base + ((i : Int) - 1) * step) ∧
    (lquantize_minmax base step levels i).2 =
      (if i > levels then INT64_MAX else base + (i : Int) * step - 1) := by
  constructor
  · by_cases h0 : i = 0
    · simp [lquantize_minmax, h0]
    · have hle : (i - 1) * step ≤ levels * step := Nat.mul_le_mul_right _ (by omega)
      have hcast : ((i : Int) - 1) * step = (((i - 1) * step : Nat) : Int) := by
        have : ((i - 1 : Nat) : Int) = (i : Int) - 1 := by omega
        push_cast
        rw [this]
      have h1 : int32 ((i : Int) - 1) = (i : Int) - 1 := by
        apply int32_of_fits
        · omega
        · norm_num at hlev ⊢
          omega
      have hle2 : ((((i - 1) * step : Nat)) : Int) ≤ ((levels * step : Nat) : Int) := by
        exact_mod_cast hle
      have hpos : (0 : Int) ≤ (((i - 1) * step : Nat) : Int) := Int.ofNat_nonneg _
      have hlc : ((levels * step : Nat) : Int) = (levels : Int) * step := by push_cast; rfl
      simp only [lquantize_minmax, h0, if_false, h1, int32_add_int32]
      rw [hcast]
      apply int32_of_fits <;> omega
  · by_cases hgt : i > levels
    · simp [lquantize_minmax, hgt]
    · have hle : i * step ≤ levels * step := Nat.mul_le_mul_right _ (by omega)
      have hle2 : ((i * step : Nat) : Int) ≤ ((levels * step : Nat) : Int) := by
        exact_mod_cast hle
      have hpos : (0 : Int) ≤ ((i * step : Nat) : Int) := Int.ofNat_nonneg _
      have hlc : ((levels * step : Nat) : Int) = (levels : Int) * step := by push_cast; rfl
      have hic : ((i * step : Nat) : Int) = (i : Int) * step := by push_cast; rfl
      simp only [lquantize_minmax, hgt, if_false, int32_add_int32, int32_int32_sub]
      rw [← hic]
      apply int32_of_fits <;> omega

/-- The stores of the `while` loop go to consecutive indices: if the log holds
the indices `0 .. bucket-1` before the loop, it does so after it. -/
theorem llquantize_loop_indices (factor high nsteps : Nat) (fuel : Nat) :
    ∀ s s' : LLState, s.writes.map Prod.fst = List.range s.bucket →
      llquantize_loop factor high nsteps fuel s = .done s' →
      s'.writes.map Prod.fst = List.range s'.bucket := by
  induction fuel with
  | zero =>
    intro s s' hs h
    unfold llquantize_loop at h
    split at h
    · cases h
    · cases h; exact hs
  | succ fuel ih =>
    intro s s' hs h
    unfold llquantize_loop at h
    split at h
    · simp only at h
      split at h
      · exact ih _ _ (by simp [hs, List.range_succ]) h
      · split at h
        · cases h
        · exact ih _ _ (by simp [hs, List.range_succ]) h
    · cases h; exact hs

/-- When the assertion is reached, the stores made so far are exactly those at
the indices `0 .. bucket`. -/
theorem llquantize_run_indices (fuel arg : Nat) (s : LLState)
    (h : llquantize_run fuel arg = .done s) :
    s.writes.map Prod.fst = List.range (s.bucket + 1) := by
  unfold llquantize_run at h
  simp only at h
  split at h
  · cases h
  · split at h
    · cases h
    · rename_i s0 hloop
      have := llquantize_loop_indices _ _ _ _ _ s0 (by simp [List.range_succ]) hloop
      cases h
      simp [this, List.range_succ]

/-- On a cache miss `_ranges_llquantize` returns only a table with exactly
`nbuckets` entries, and that table is what the cache then holds under
`varid`. -/
theorem ranges_llquantize_done_length (fuel : Nat) (dtc dtc' : DTraceConsumer) (varid : Int)
    (arg : Nat) (nbuckets : Int) (r : Option RangeTable)
    (hmiss : _ranges_cached dtc varid = none)
    (h : _ranges_llquantize fuel dtc varid arg nbuckets = .done (r, dtc')) :
    ∃ t, r = some t ∧ (t.length : Int) = nbuckets ∧
      dtc'.dtc_ranges = some t ∧ dtc'.dtc_ranges_varid = varid := by
  unfold _ranges_llquantize at h
  rw [hmiss] at h
  simp only at h
  split at h
  · cases h
  · rename_i s hrun
    split at h
    · rename_i hb
      have hidx := llquantize_run_indices fuel arg s hrun
      have hlen : s.writes.length = s.bucket + 1 := by
        have := congrArg List.length hidx
        simpa using this
      simp only [_ranges_cache, Run.done.injEq, Prod.mk.injEq] at h
      obtain ⟨h1, h2⟩ := h
      subst h1 h2
      refine ⟨_, rfl, ?_, rfl, rfl⟩
      simp [hlen]
      omega
    · cases h

/-- A DIF-expression record of size 1, 2, 4 or 8 is decoded by one 64-bit
load, whatever the size. -/
theorem make_record_difexpr_int (addr2str : Nat → List Nat) (uaddr2str : Nat → Nat → List Nat)
    (size offset : Nat) (addr : List Nat)
    (h : size = 8 ∨ size = 4 ∨ size = 2 ∨ size = 1) :
    _make_record addr2str uaddr2str ⟨DTRACEACT_DIFEXPR, size, offset⟩ addr =
      some (.long (load_i64 addr)) := by
  have hfix : int64 (load_i64 addr) = load_i64 addr := by
    unfold load_i64 int64 wrapSigned
    norm_num
  simp [_make_record, h, Py_BuildValue_l, hfix]

/-- A DIF-expression record of any other size is decoded as the NUL-terminated
string at the raw data. -/
theorem make_record_difexpr_str (addr2str : Nat → List Nat) (uaddr2str : Nat → Nat → List Nat)
    (size offset : Nat) (addr : List Nat)
    (h : ¬ (size = 8 ∨ size = 4 ∨ size = 2 ∨ size = 1)) :
    _make_record addr2str uaddr2str ⟨DTRACEACT_DIFEXPR, size, offset⟩ addr =
      some (.str (c_str addr)) := by
  simp [_make_record, h]

/-! ## Auxiliary facts on error texts -/

/-- A C string holds no NUL byte. -/
theorem zero_not_mem_c_str (buf : List Nat) : 0 ∉ c_str buf := by
  intro hmem
  have := List.mem_takeWhile_imp hmem
  simp at this

/-- A byte list without NUL is its own C string. -/
theorem c_str_of_no_zero (m : List Nat) (hz : 0 ∉ m) : c_str m = m := by
  unfold c_str
  rw [List.takeWhile_eq_self_iff]
  intro x hx
  have : x ≠ 0 := fun e => hz (e ▸ hx)
  simpa using this

/-- No digit character is the NUL character. -/
theorem digitChar_toNat_ne_zero (k : Nat) : (Nat.digitChar k).toNat ≠ 0 := by
  by_cases hk : k < 16
  · have hall : ∀ j < 16, (Nat.digitChar j).toNat ≠ 0 := by decide
    exact hall k hk
  · have hstar : Nat.digitChar k = Char.ofNat 42 := by
      unfold Nat.digitChar
      repeat (rw [if_neg (by omega)])
    rw [hstar]
    decide

/-- The digits written by `Nat.toDigitsCore` are not NUL. -/
theorem toDigitsCore_no_zero (b : Nat) :
    ∀ (fuel n : Nat) (ds : List Char), (∀ c ∈ ds, c.toNat ≠ 0) →
      ∀ c ∈ Nat.toDigitsCore b fuel n ds, c.toNat ≠ 0 := by
  intro fuel
  induction fuel with
  | zero => intro n ds hds c hc; exact hds c (by simpa [Nat.toDigitsCore] using hc)
  | succ fuel ih =>
    intro n ds hds c hc
    have hcons : ∀ c ∈ Nat.digitChar (n % b) :: ds, c.toNat ≠ 0 := by
      intro c hc
      rcases List.mem_cons.mp hc with h1 | h1
      · rw [h1]; exact digitChar_toNat_ne_zero _
      · exact hds c h1
    unfold Nat.toDigitsCore at hc
    simp only at hc
    split at hc
    · exact hcons c hc
    · exact ih _ _ hcons c hc

/-- The conversion `%x` writes no NUL byte. -/
theorem zero_not_mem_fmt_x (n : Nat) : 0 ∉ fmt_x n := by
  intro hmem
  unfold fmt_x at hmem
  obtain ⟨c, hc, hc0⟩ := List.mem_map.mp hmem
  exact toDigitsCore_no_zero 16 _ _ [] (by simp) c hc hc0

/-- The action names of `_action` hold no NUL byte, so `%s` prints them whole. -/
theorem c_str_action (r : dtrace_recdesc_t) : c_str (_action r) = _action r := by
  apply c_str_of_no_zero
  unfold _action
  cases r.dtrd_action
  case other code =>
    intro hmem
    exact zero_not_mem_c_str _ (List.mem_of_mem_take hmem)
  all_goals decide

/-- A text without NUL that fits the buffer is stored whole by `snprintf`. -/
theorem snprintf_of_fits (m : List Nat) (hz : 0 ∉ m) (hlen : m.length ≤ 1023) :
    snprintf 1024 m = m := by
  unfold snprintf
  rw [c_str_of_no_zero m hz]
  exact List.take_of_length_le (by omega)

/-- `_error` on a text that fits the buffer and ends in a newline: the text
without that newline, and no OS error text. -/
theorem error_of_newline (h : Host) (body : List Nat) (hz : 0 ∉ body)
    (hlen : body.length + 1 ≤ 1023) : _error h (body ++ [10]) = body := by
  have hz2 : 0 ∉ body ++ [10] := by simp [hz]
  have hs : snprintf 1024 (body ++ [10]) = body ++ [10] :=
    snprintf_of_fits _ hz2 (by simpa using hlen)
  unfold _error
  simp only [hs]
  simp [List.getD_eq_getElem?_getD]

/-- `_error` on a non-empty text that fits the buffer and does not end in a
newline: the text, `": "` and the OS error text, cut to the buffer. -/
theorem error_of_no_newline (h : Host) (m : List Nat) (hz : 0 ∉ m) (hne : m ≠ [])
    (hlen : m.length ≤ 1023) (hlast : m.getLast? ≠ some 10) :
    _error h m = (m ++ bytes ": " ++ c_str h.strerror).take 1023 := by
  have hs : snprintf 1024 m = m := snprintf_of_fits _ hz hlen
  have hlen0 : m.length ≠ 0 := fun e => hne (List.length_eq_zero.mp e)
  have hl : m.getD (m.length - 1) 0 ≠ 10 := by
    intro e
    apply hlast
    rw [List.getLast?_eq_getElem?]
    rw [List.getD_eq_getElem?_getD] at e
    have hlt : m.length - 1 < m.length := by omega
    rw [List.getElem?_eq_getElem hlt] at e ⊢
    simpa using e
  have hz3 : 0 ∉ m ++ bytes ": " ++ c_str h.strerror := by
    simp only [List.mem_append, not_or]
    exact ⟨⟨hz, by decide⟩, zero_not_mem_c_str _⟩
  unfold _error
  simp only [hs, hlen0, if_false, hl, ne_eq, not_false_eq_true, if_true]
  unfold snprintf
  rw [c_str_of_no_zero _ hz3]

/-- The text `_error` returns is never empty when the formatted text has at
least two bytes. -/
theorem error_ne_nil (h : Host) (m : List Nat) (hlen : 2 ≤ (c_str m).length) :
    _error h m ≠ [] := by
  have hbuf : 2 ≤ (snprintf 1024 m).length := by
    unfold snprintf
    rw [List.length_take]
    omega
  have hzb : 0 ∉ snprintf 1024 m := fun hmem =>
    zero_not_mem_c_str m (List.mem_of_mem_take hmem)
  intro hnil
  have hl := congrArg List.length hnil
  have hb0 : (snprintf 1024 m).length ≠ 0 := by omega
  unfold _error at hl
  simp only [hb0, if_false] at hl
  split at hl
  · have hz3 : 0 ∉ snprintf 1024 m ++ bytes ": " ++ c_str h.strerror := by
      simp only [List.mem_append, not_or]
      exact ⟨⟨hzb, by decide⟩, zero_not_mem_c_str _⟩
    rw [snprintf, c_str_of_no_zero _ hz3, List.length_take] at hl
    simp only [List.length_append, List.length_nil] at hl
    omega
  · rw [List.length_take] at hl
    simp only [List.length_nil] at hl
    omega

/-- A record that passes `_valid` is decoded by `_make_record` without
reaching `assert(0)`. -/
theorem make_record_of_valid (a : Nat → List Nat) (u : Nat → Nat → List Nat)
    (r : dtrace_recdesc_t) (addr : List Nat) (hv : _valid r = true) :
    ∃ v, _make_record a u r addr = some v := by
  unfold _valid at hv
  unfold _make_record
  cases hact : r.dtrd_action <;> rw [hact] at hv <;> simp at hv
  all_goals simp
  all_goals split <;> simp

/-- The key loop on records that all pass `_valid`: every record is decoded,
in order. -/
theorem key_loop_valid (h : Host) (data : List Nat) (l : List dtrace_recdesc_t) :
    ∀ i, (∀ r ∈ l, _valid r = true) →
      key_loop h data i l = .done (.inl (l.filterMap fun r =>
        _make_record h.addr2str h.uaddr2str r (data.drop r.dtrd_offset))) := by
  induction l with
  | nil => intro i _; simp [key_loop]
  | cons r rest ih =>
    intro i hall
    have hr : _valid r = true := hall r (by simp)
    obtain ⟨v, hv⟩ := make_record_of_valid h.addr2str h.uaddr2str r (data.drop r.dtrd_offset) hr
    have hrest := ih (i + 1) (fun x hx => hall x (by simp [hx]))
    simp [key_loop, hr, hv, hrest]

/-- The histogram loop when every non-zero bucket index lies inside the range
table: one pair per non-zero bucket, in index order, the count narrowed by
format unit `i`. -/
theorem hist_entries_eq (ranges : RangeTable) (data : Nat → Int) (idx : List Nat)
    (hin : ∀ i ∈ idx, data i ≠ 0 → i < ranges.length) :
    hist_entries ranges data idx = .done (idx.filterMap fun i =>
      if data i = 0 then none else ranges[i]?.map fun r => (r, Py_BuildValue_i (data i))) := by
  induction idx with
  | nil => simp [hist_entries]
  | cons i rest ih =>
    have hrest := ih (fun j hj => hin j (by simp [hj]))
    by_cases h0 : data i = 0
    · simp [hist_entries, h0, hrest]
    · have hlt : i < ranges.length := hin i (by simp) h0
      simp [hist_entries, h0, hrest, List.getElem?_eq_getElem hlt]

/-- The text formatted for an unsupported aggregating action holds no NUL
byte. -/
theorem zero_not_mem_agg_error_text (r : dtrace_recdesc_t) (name : List Nat) :
    0 ∉ agg_error_text r name := by
  have l1 : 0 ∉ bytes "unsupported aggregating action " := by decide
  have l3 : 0 ∉ bytes " in aggregation " := by decide
  unfold agg_error_text
  simp [l1, l3, zero_not_mem_c_str]

/-- The pending error for an unsupported aggregating action, when the
formatted text fits the buffer: the text without its newline. -/
theorem error_agg_text (h : Host) (r : dtrace_recdesc_t) (name : List Nat)
    (hfit : (agg_error_text r name).length ≤ 1023) :
    _error h (agg_error_text r name) =
      bytes "unsupported aggregating action " ++ _action r ++
        bytes " in aggregation " ++ [34] ++ c_str name ++ [34] := by
  have hbody : agg_error_text r name =
      (bytes "unsupported aggregating action " ++ _action r ++
        bytes " in aggregation " ++ [34] ++ c_str name ++ [34]) ++ [10] := by
    unfold agg_error_text
    rw [c_str_action]
    simp [List.append_assoc]
  have hz := zero_not_mem_agg_error_text r name
  rw [hbody] at hfit hz ⊢
  apply error_of_newline
  · intro hmem
    exact hz (List.mem_append_left _ hmem)
  · rw [List.length_append, List.length_singleton] at hfit
    exact hfit

/-- The text formatted by `_consume` holds no NUL byte. -/
theorem zero_not_mem_consume_error_text (r : dtrace_recdesc_t) (pd : dtrace_probedesc_t) :
    0 ∉ consume_error_text r pd := by
  have l1 : 0 ∉ bytes "unsupported action " := by decide
  have l3 : 0 ∉ bytes " in record for " := by decide
  unfold consume_error_text
  simp [l1, l3, zero_not_mem_c_str]

/-- The pending error of `_consume`, when the formatted text fits the buffer:
the text without its newline. -/
theorem error_consume_text (h : Host) (r : dtrace_recdesc_t) (pd : dtrace_probedesc_t)
    (hfit : (consume_error_text r pd).length ≤ 1023) :
    _error h (consume_error_text r pd) =
      bytes "unsupported action " ++ _action r ++ bytes " in record for " ++
        c_str pd.dtpd_provider ++ [58] ++ c_str pd.dtpd_mod ++ [58] ++ c_str pd.dtpd_func ++
        [58] ++ c_str pd.dtpd_name := by
  have hbody : consume_error_text r pd =
      (bytes "unsupported action " ++ _action r ++ bytes " in record for " ++
        c_str pd.dtpd_provider ++ [58] ++ c_str pd.dtpd_mod ++ [58] ++ c_str pd.dtpd_func ++
        [58] ++ c_str pd.dtpd_name) ++ [10] := by
    unfold consume_error_text
    rw [c_str_action]
  have hz := zero_not_mem_consume_error_text r pd
  rw [hbody] at hfit hz ⊢
  apply error_of_newline
  · intro hmem
    exact hz (List.mem_append_left _ hmem)
  · rw [List.length_append, List.length_singleton] at hfit
    exact hfit

/-- A formatted text that starts with one of the source's literals has at
least two bytes before any NUL. -/
theorem two_le_c_str_length (m : List Nat) (hz : 0 ∉ m) (hlen : 2 ≤ m.length) :
    2 ≤ (c_str m).length := by
  rw [c_str_of_no_zero m hz]
  exact hlen

/-- `_aggwalk` on a tuple whose keys all pass `_valid`: the keys are decoded
in order and the outcome is decided by the `switch` on the last record. -/
theorem aggwalk_of_valid_keys (fuel : Nat) (h : Host) (dtc : DTraceConsumer)
    (agg : dtrace_aggdata_t) (aggrec : dtrace_recdesc_t)
    (hn : 2 ≤ agg.dtada_desc.dtagd_rec.length)
    (hkeys : ∀ r ∈ interior agg, _valid r = true)
    (hlast : agg.dtada_desc.dtagd_rec[agg.dtada_desc.dtagd_rec.length - 1]? = some aggrec) :
    _aggwalk fuel h dtc agg =
      match agg_value fuel h dtc agg.dtada_desc.dtagd_varid aggrec
          (agg.dtada_data.drop aggrec.dtrd_offset) with
      | .fault f => .fault f
      | .done (none, dtc') =>
        .done ⟨DTRACE_AGGWALK_ERROR,
          ⟨some (_error h (agg_error_text aggrec agg.dtada_desc.dtagd_name)),
            dtc'.dtc_ranges_varid, dtc'.dtc_ranges⟩, []⟩
      | .done (some val, dtc') =>
        .done ⟨DTRACE_AGGWALK_REMOVE, dtc',
          [⟨Py_BuildValue_i (h.PyInt_addr (Py_BuildValue_i agg.dtada_desc.dtagd_varid)),
            (interior agg).filterMap (fun r =>
              _make_record h.addr2str h.uaddr2str r (agg.dtada_data.drop r.dtrd_offset)),
            val⟩]⟩ := by
  have hloop := key_loop_valid h agg.dtada_data (interior agg) 1 hkeys
  unfold interior at hloop
  unfold _aggwalk interior
  simp only [hloop, hlast, Nat.not_lt.mpr hn, if_false]

/-- The spec-side set of aggregating actions, spelled out. -/
theorem aggregating_iff (a : dtrace_actkind_t) :
    aggregating a = true ↔
      (a = DTRACEAGG_COUNT ∨ a = DTRACEAGG_MIN ∨ a = DTRACEAGG_MAX ∨ a = DTRACEAGG_SUM) ∨
      a = DTRACEAGG_AVG ∨ a = DTRACEAGG_QUANTIZE ∨ a = DTRACEAGG_LQUANTIZE ∨
      a = DTRACEAGG_LLQUANTIZE := by
  cases a <;> simp [aggregating]

/-- The `switch` takes its `default` branch on every action outside the eight
aggregating ones. -/
theorem agg_value_of_not_aggregating (fuel : Nat) (h : Host) (dtc : DTraceConsumer)
    (varid : Int)
    (aggrec : dtrace_recdesc_t) (addr : List Nat)
    (hact : aggregating aggrec.dtrd_action = false) :
    agg_value fuel h dtc varid aggrec addr = .done (none, dtc) := by
  have hnot : ¬ (aggregating aggrec.dtrd_action = true) := by simp [hact]
  rw [aggregating_iff] at hnot
  simp only [not_or] at hnot
  obtain ⟨h1, h2, h3, h4, h5⟩ := hnot
  unfold agg_value
  rw [if_neg (by simpa [not_or] using h1), if_neg h2, if_neg h3, if_neg h4, if_neg h5]

/-- A histogram branch that completes has built a value. -/
theorem hist_value_done (table : Run (Option RangeTable × DTraceConsumer)) (data : Nat → Int)
    (n : Nat) (ov : Option AggValue) (dtc' : DTraceConsumer)
    (hdone : hist_value table data n = .done (ov, dtc')) : ∃ v, ov = some v := by
  unfold hist_value at hdone
  split at hdone
  · cases hdone
  · cases hdone
  · split at hdone
    · cases hdone
    · simp only [Run.done.injEq, Prod.mk.injEq] at hdone
      exact ⟨_, hdone.1.symm⟩

/-- On the eight aggregating actions the `switch` never ends in the `default`
branch: when it completes, it has built a value. -/
theorem agg_value_of_aggregating (fuel : Nat) (h : Host) (dtc dtc' : DTraceConsumer)
    (varid : Int)
    (aggrec : dtrace_recdesc_t) (addr : List Nat) (ov : Option AggValue)
    (hact : aggregating aggrec.dtrd_action = true)
    (hdone : agg_value fuel h dtc varid aggrec addr = .done (ov, dtc')) :
    ∃ v, ov = some v := by
  rw [aggregating_iff] at hact
  unfold agg_value at hdone
  by_cases h1 : aggrec.dtrd_action = DTRACEAGG_COUNT ∨ aggrec.dtrd_action = DTRACEAGG_MIN ∨
      aggrec.dtrd_action = DTRACEAGG_MAX ∨ aggrec.dtrd_action = DTRACEAGG_SUM
  · rw [if_pos h1] at hdone
    by_cases hs : aggrec.dtrd_size = 8
    · rw [if_pos hs] at hdone
      simp only [Run.done.injEq, Prod.mk.injEq] at hdone
      exact ⟨_, hdone.1.symm⟩
    · rw [if_neg hs] at hdone
      cases hdone
  rw [if_neg h1] at hdone
  by_cases h2 : aggrec.dtrd_action = DTRACEAGG_AVG
  · rw [if_pos h2] at hdone
    by_cases hs : aggrec.dtrd_size = 16
    · rw [if_pos hs] at hdone
      simp only [Run.done.injEq, Prod.mk.injEq] at hdone
      exact ⟨_, hdone.1.symm⟩
    · rw [if_neg hs] at hdone
      cases hdone
  rw [if_neg h2] at hdone
  by_cases h3 : aggrec.dtrd_action = DTRACEAGG_QUANTIZE
  · rw [if_pos h3] at hdone
    exact hist_value_done _ _ _ _ _ hdone
  rw [if_neg h3] at hdone
  by_cases h4 : aggrec.dtrd_action = DTRACEAGG_LQUANTIZE
  · rw [if_pos h4] at hdone
    exact hist_value_done _ _ _ _ _ hdone
  rw [if_neg h4] at hdone
  by_cases h5 : aggrec.dtrd_action = DTRACEAGG_LLQUANTIZE
  · rw [if_pos h5] at hdone
    exact hist_value_done _ _ _ _ _ hdone
  · exfalso
    rcases hact with h | h | h | h | h
    · exact h1 h
    · exact h2 h
    · exact h3 h
    · exact h4 h
    · exact h5 h

/-- A histogram branch whose `n` buckets all lie inside the returned table:
one pair per non-zero bucket, in index order. -/
theorem hist_value_of_in_range (ranges : RangeTable) (dtc' : DTraceConsumer) (data : Nat → Int)
    (n : Nat) (hlen : n ≤ ranges.length) :
    hist_value (.done (some ranges, dtc')) data n =
      .done (some (.hist ((List.range n).filterMap fun i =>
        if data i = 0 then none else ranges[i]?.map fun r => (r, Py_BuildValue_i (data i)))),
        dtc') := by
  have hin : ∀ i ∈ List.range n, data i ≠ 0 → i < ranges.length :=
    fun i hi _ => Nat.lt_of_lt_of_le (List.mem_range.mp hi) hlen
  unfold hist_value
  simp only [hist_entries_eq ranges data (List.range n) hin]

/-- The quantize table has one entry per bucket. -/
theorem quantize_table_length : quantize_table.length = DTRACE_QUANTIZE_NBUCKETS := by
  simp [quantize_table]

/-- When the `switch` has built a value, `_aggwalk` returns the remove outcome
after one sink invocation. -/
theorem aggwalk_of_value (fuel : Nat) (h : Host) (dtc dtc' : DTraceConsumer)
    (agg : dtrace_aggdata_t) (aggrec : dtrace_recdesc_t) (v : AggValue)
    (hn : 2 ≤ agg.dtada_desc.dtagd_rec.length)
    (hkeys : ∀ r ∈ interior agg, _valid r = true)
    (hlast : agg.dtada_desc.dtagd_rec[agg.dtada_desc.dtagd_rec.length - 1]? = some aggrec)
    (hval : agg_value fuel h dtc agg.dtada_desc.dtagd_varid aggrec
      (agg.dtada_data.drop aggrec.dtrd_offset) = .done (some v, dtc')) :
    _aggwalk fuel h dtc agg = .done ⟨DTRACE_AGGWALK_REMOVE, dtc',
      [⟨Py_BuildValue_i (h.PyInt_addr (Py_BuildValue_i agg.dtada_desc.dtagd_varid)),
        (interior agg).filterMap (fun r =>
          _make_record h.addr2str h.uaddr2str r (agg.dtada_data.drop r.dtrd_offset)),
        v⟩]⟩ := by
  rw [aggwalk_of_valid_keys fuel h dtc agg aggrec hn hkeys hlast, hval]

/-- `_action_valid` and `_valid` accept the same actions. -/
theorem action_valid_eq_valid (r : dtrace_recdesc_t) : _action_valid r = _valid r := by
  unfold _action_valid _valid
  cases r.dtrd_action <;> rfl

/-- What `_error` returns depends only on the first 1023 bytes of the
formatted text. -/
theorem error_of_cut (h : Host) (m : List Nat) :
    _error h m = _error h ((c_str m).take 1023) := by
  have hz : 0 ∉ (c_str m).take 1023 := fun hmem =>
    zero_not_mem_c_str m (List.mem_of_mem_take hmem)
  have hs : snprintf 1024 ((c_str m).take 1023) = snprintf 1024 m := by
    unfold snprintf
    rw [c_str_of_no_zero _ hz]
    simp
  unfold _error
  rw [hs]

/-- The snapshot pass: a failing status, snapshot or walk call always ends in
a raised `RuntimeError` (after a failing walk, the pending error when there is
one), and a pass whose three calls succeed returns `None`. -/
theorem aggwalk_pass_outcome (h : Host) (e : Engine) (self : DTraceConsumer) :
    ((e.dtrace_status = -1 ∨ e.dtrace_aggregate_snap = -1 ∨
        (e.dtrace_aggregate_walk ⟨none, self.dtc_ranges_varid, self.dtc_ranges⟩).1 = -1) →
      ∃ msg, (DTraceConsumer_aggwalk h e true self).1 = .raised PyExc_RuntimeError msg) ∧
    (e.dtrace_status ≠ -1 → e.dtrace_aggregate_snap ≠ -1 →
      (e.dtrace_aggregate_walk ⟨none, self.dtc_ranges_varid, self.dtc_ranges⟩).1 = -1 →
      ∀ err, (e.dtrace_aggregate_walk
          ⟨none, self.dtc_ranges_varid, self.dtc_ranges⟩).2.dtc_error = some err →
        (DTraceConsumer_aggwalk h e true self).1 = .raised PyExc_RuntimeError err) ∧
    (e.dtrace_status ≠ -1 → e.dtrace_aggregate_snap ≠ -1 →
      (e.dtrace_aggregate_walk ⟨none, self.dtc_ranges_varid, self.dtc_ranges⟩).1 ≠ -1 →
      (DTraceConsumer_aggwalk h e true self).1 = .Py_None) := by
  refine ⟨?_, ?_, ?_⟩
  · intro hfail
    unfold DTraceConsumer_aggwalk
    simp only [Bool.true_eq_false, if_false]
    by_cases h1 : e.dtrace_status = -1
    · exact ⟨_, by rw [if_pos h1]⟩
    · rw [if_neg h1]
      by_cases h2 : e.dtrace_aggregate_snap = -1
      · exact ⟨_, by rw [if_pos h2]⟩
      · rw [if_neg h2]
        have h3 : (e.dtrace_aggregate_walk
            ⟨none, self.dtc_ranges_varid, self.dtc_ranges⟩).1 = -1 := by
          rcases hfail with hf | hf | hf
          · exact absurd hf h1
          · exact absurd hf h2
          · exact hf
        simp only [h3, if_true]
        split
        · exact ⟨_, rfl⟩
        · exact ⟨_, rfl⟩
  · intro h1 h2 h3 err herr
    unfold DTraceConsumer_aggwalk
    simp only [Bool.true_eq_false, if_false, if_neg h1, if_neg h2, h3, if_true]
    simp only [_ranges_cache, herr]
  · intro h1 h2 h3
    unfold DTraceConsumer_aggwalk
    simp only [Bool.true_eq_false, if_false, if_neg h1, if_neg h2, if_neg h3]

/-- The consume pass raises only the pending error of a failed work call;
every other outcome of the work call, a failure without pending error
included, ends in `None`. -/
theorem consume_pass_outcome (e : Engine) (self : DTraceConsumer) :
    (∀ err, (e.dtrace_work ⟨none, self.dtc_ranges_varid, self.dtc_ranges⟩).1 = -1 →
      (e.dtrace_work ⟨none, self.dtc_ranges_varid, self.dtc_ranges⟩).2.dtc_error = some err →
      (DTraceConsumer_consume e true self).1 = .raised PyExc_RuntimeError err) ∧
    ((e.dtrace_work ⟨none, self.dtc_ranges_varid, self.dtc_ranges⟩).1 ≠ -1 →
      (DTraceConsumer_consume e true self).1 = .Py_None) ∧
    ((e.dtrace_work ⟨none, self.dtc_ranges_varid, self.dtc_ranges⟩).2.dtc_error = none →
      (DTraceConsumer_consume e true self).1 = .Py_None) := by
  refine ⟨?_, ?_, ?_⟩
  · intro err h1 herr
    unfold DTraceConsumer_consume
    simp only [Bool.true_eq_false, if_false, herr, h1, if_true]
  · intro h1
    unfold DTraceConsumer_consume
    simp only [Bool.true_eq_false, if_false]
    split
    · rw [if_neg h1]
    · rfl
  · intro hnone
    unfold DTraceConsumer_consume
    simp only [Bool.true_eq_false, if_false, hnone]

/-- Zero bytes in front of and behind a piece of raw data: a byte is read
from the piece, shifted by the length of the front padding, or is zero. -/
theorem load_byte_zero_padded (n : Nat) (m : List Nat) (b : Nat) (k : Nat) :
    load_byte (List.replicate n 0 ++ m ++ List.replicate b 0) k =
      if k < n then 0 else load_byte m (k - n) := by
  unfold load_byte
  rw [List.getD_eq_getElem?_getD, List.getD_eq_getElem?_getD, List.append_assoc]
  by_cases hk : k < n
  · rw [if_pos hk, List.getElem?_append_left (by simpa using hk)]
    simp [List.getElem?_replicate, hk]
  · rw [if_neg hk, List.getElem?_append_right (by simpa using hk)]
    simp only [List.length_replicate]
    by_cases hm : k - n < m.length
    · rw [List.getElem?_append_left hm]
    · have hge : m.length ≤ k - n := by omega
      rw [List.getElem?_append_right hge, List.getElem?_eq_none hge,
        List.getElem?_replicate]
      split <;> rfl

/-- Two loads of a 64-bit word agree when their eight bytes agree. -/
theorem load_u64_congr (addr1 addr2 : List Nat) (k1 k2 : Nat)
    (hb : ∀ j, j < 8 → load_byte addr1 (8 * k1 + j) = load_byte addr2 (8 * k2 + j)) :
    load_u64 addr1 k1 = load_u64 addr2 k2 := by
  unfold load_u64
  have hl : ∀ l : List Nat, (∀ j ∈ l, j < 8) →
      l.foldr (fun j acc => load_byte addr1 (8 * k1 + j) + 256 * acc) 0 =
        l.foldr (fun j acc => load_byte addr2 (8 * k2 + j) + 256 * acc) 0 := by
    intro l
    induction l with
    | nil => intro _; rfl
    | cons j rest ih =>
      intro hall
      simp only [List.foldr_cons]
      rw [ih (fun x hx => hall x (by simp [hx])), hb j (hall j (by simp))]
  exact hl (List.range 8) (fun j hj => List.mem_range.mp hj)

/-- Zero words in front of and zero bytes behind a piece of raw data: a word is
read from the piece, shifted by the number of zero words in front, or is zero. -/
theorem load_word_zero_padded (a : Nat) (m : List Nat) (b : Nat) :
    load_word (List.replicate (8 * a) 0 ++ m ++ List.replicate b 0) =
      fun k => if k < a then 0 else load_word m (k - a) := by
  funext k
  unfold load_word
  by_cases hk : k < a
  · rw [if_pos hk]
    have hz : load_u64 (List.replicate (8 * a) 0 ++ m ++ List.replicate b 0) k =
        load_u64 [] 0 := by
      apply load_u64_congr
      intro j hj
      rw [load_byte_zero_padded, if_pos (by omega)]
      simp [load_byte]
    rw [hz]
    have h0 : load_u64 [] 0 = 0 := by decide
    rw [h0]
    decide
  · rw [if_neg hk]
    have hs : load_u64 (List.replicate (8 * a) 0 ++ m ++ List.replicate b 0) k =
        load_u64 m (k - a) := by
      apply load_u64_congr
      intro j hj
      rw [load_byte_zero_padded, if_neg (by omega)]
      have he : 8 * k + j - 8 * a = 8 * (k - a) + j := by omega
      rw [he]
    rw [hs]

/-- A lookup in a cache without a table returns nothing, whatever the id. -/
theorem ranges_cached_of_no_table (dtc : DTraceConsumer) (h : dtc.dtc_ranges = none)
    (id : Int) : _ranges_cached dtc id = none := by
  unfold _ranges_cached
  split
  · exact h
  · rfl

/-- A snapshot pass leaves a cache without a table without a table. -/
theorem aggwalk_pass_keeps_no_table (h : Host) (e : Engine) (parsed : Bool)
    (self : DTraceConsumer) (hs : self.dtc_ranges = none) :
    (DTraceConsumer_aggwalk h e parsed self).2.dtc_ranges = none := by
  unfold DTraceConsumer_aggwalk
  split
  · exact hs
  · split
    · exact hs
    · split
      · exact hs
      · simp only [_ranges_cache]
        split
        · split <;> rfl
        · rfl

/-- A consume pass leaves the cache fields to its work call. -/
theorem consume_pass_cache (e : Engine) (parsed : Bool) (self : DTraceConsumer) :
    (DTraceConsumer_consume e parsed self).2 = self ∨
    (DTraceConsumer_consume e parsed self).2 =
      (e.dtrace_work ⟨none, self.dtc_ranges_varid, self.dtc_ranges⟩).2 := by
  unfold DTraceConsumer_consume
  split
  · exact Or.inl rfl
  · right
    simp only
    split
    · split <;> rfl
    · rfl

/-- A sequence of passes whose work calls keep the cache leaves a cache
without a table without a table. -/
theorem run_passes_keeps_no_table (ps : List Pass) :
    ∀ dtc : DTraceConsumer, (∀ q ∈ ps, keeps_cache q) → dtc.dtc_ranges = none →
      (run_passes ps dtc).dtc_ranges = none := by
  induction ps with
  | nil => intro dtc _ h; exact h
  | cons p rest ih =>
    intro dtc hk h
    have hrest : ∀ q ∈ rest, keeps_cache q := fun q hq => hk q (List.mem_cons_of_mem _ hq)
    have hp : keeps_cache p := hk p (List.mem_cons_self _ _)
    show (run_passes rest (run_pass p dtc)).dtc_ranges = none
    apply ih _ hrest
    cases p with
    | aggwalk hh e parsed => exact aggwalk_pass_keeps_no_table hh e parsed dtc h
    | consume e parsed =>
      show (DTraceConsumer_consume e parsed dtc).2.dtc_ranges = none
      rcases consume_pass_cache e parsed dtc with hc | hc
      · rw [hc]; exact h
      · rw [hc, (hp _).1]; exact h

/-- A snapshot pass leaves the stored id as it is or resets it to the id of no
variable. -/
theorem aggwalk_pass_varid (h : Host) (e : Engine) (parsed : Bool) (self : DTraceConsumer) :
    (DTraceConsumer_aggwalk h e parsed self).2.dtc_ranges_varid = self.dtc_ranges_varid ∨
    (DTraceConsumer_aggwalk h e parsed self).2.dtc_ranges_varid = DTRACE_AGGVARIDNONE := by
  unfold DTraceConsumer_aggwalk
  split
  · exact Or.inl rfl
  · split
    · exact Or.inl rfl
    · split
      · exact Or.inl rfl
      · right
        simp only [_ranges_cache]
        split
        · split <;> rfl
        · rfl

/-- A sequence of passes whose work calls keep the cache leaves the id of no
variable as the stored id. -/
theorem run_passes_keeps_no_varid (ps : List Pass) :
    ∀ dtc : DTraceConsumer, (∀ q ∈ ps, keeps_cache q) →
      dtc.dtc_ranges_varid = DTRACE_AGGVARIDNONE →
      (run_passes ps dtc).dtc_ranges_varid = DTRACE_AGGVARIDNONE := by
  induction ps with
  | nil => intro dtc _ h; exact h
  | cons p rest ih =>
    intro dtc hk h
    have hrest : ∀ q ∈ rest, keeps_cache q := fun q hq => hk q (List.mem_cons_of_mem _ hq)
    have hp : keeps_cache p := hk p (List.mem_cons_self _ _)
    show (run_passes rest (run_pass p dtc)).dtc_ranges_varid = DTRACE_AGGVARIDNONE
    apply ih _ hrest
    cases p with
    | aggwalk hh e parsed =>
      rcases aggwalk_pass_varid hh e parsed dtc with hc | hc
      · exact hc.trans h
      · exact hc
    | consume e parsed =>
      show (DTraceConsumer_consume e parsed dtc).2.dtc_ranges_varid = DTRACE_AGGVARIDNONE
      rcases consume_pass_cache e parsed dtc with hc | hc
      · rw [hc]; exact h
      · rw [hc, (hp _).2]; exact h

/-! ## Auxiliary facts on the llquantize loop and the cache -/

/-- A value inside the signed 64-bit range is left alone by the narrowing. -/
theorem int64_of_fits (x : Int) (h1 : -(2 ^ 63) ≤ x) (h2 : x < 2 ^ 63) : int64 x = x := by
  unfold int64 wrapSigned
  norm_num at h1 h2 ⊢
  omega

/-- Powers of a positive factor do not decrease. -/
theorem pow_le_pow_succ_of_pos (factor k : Nat) (hf : 1 ≤ factor) :
    factor ^ k ≤ factor ^ (k + 1) :=
  Nat.pow_le_pow_right hf (Nat.le_succ k)

/-- As long as the power fits in 64 bits, the loop `value *= factor` computes
it exactly. -/
theorem llquantize_start_eq_pow (factor : Nat) (hf : 1 ≤ factor) :
    ∀ low : Nat, factor ^ low < 2 ^ 63 → llquantize_start factor low = ((factor ^ low : Nat) : Int)
  | 0, _ => by simp [llquantize_start]
  | low + 1, h => by
    have hle := pow_le_pow_succ_of_pos factor low hf
    have ih := llquantize_start_eq_pow factor hf low (lt_of_le_of_lt hle h)
    unfold llquantize_start
    rw [ih]
    have hc : ((factor ^ low : Nat) : Int) * (factor : Int) = ((factor ^ (low + 1) : Nat) : Int) := by
      push_cast
      ring
    rw [hc]
    apply int64_of_fits
    · have : (0 : Int) ≤ ((factor ^ (low + 1) : Nat) : Int) := Int.ofNat_nonneg _
      omega
    · exact_mod_cast h

/-- The increment for a boundary that the number of steps divides is the
exact quotient. -/
theorem llquantize_step_of_dvd (next nsteps : Nat) (hd : nsteps ∣ next) (hpos : 0 < next) :
    llquantize_step (next : Int) nsteps = .done ((next / nsteps : Nat) : Int) := by
  have hn0 : nsteps ≠ 0 := by
    rintro rfl
    simp at hd
    omega
  have hle : nsteps ≤ next := Nat.le_of_dvd hpos hd
  unfold llquantize_step
  by_cases hgt : (next : Int) > (nsteps : Int)
  · rw [if_pos hgt, if_neg hn0]
    rfl
  · rw [if_neg hgt]
    have : next = nsteps := by
      have : (next : Int) ≤ nsteps := not_lt.mp hgt
      omega
    subst this
    rw [Nat.div_self hpos]
    rfl

/-- With a non-zero number of steps the increment is always computed. -/
theorem llquantize_step_done (next : Int) (nsteps : Nat) (hn : nsteps ≠ 0) :
    ∃ st, llquantize_step next nsteps = .done st := by
  unfold llquantize_step
  split
  · exact ⟨_, rfl⟩
  · exact ⟨_, rfl⟩

/-- Once `order` has passed `high` the loop is over. -/
theorem llquantize_loop_of_order_gt (factor high nsteps fuel : Nat) (s : LLState)
    (h : high < s.order) : llquantize_loop factor high nsteps fuel s = .done s := by
  have hn : ¬ s.order ≤ high := by omega
  cases fuel <;> simp [llquantize_loop, hn]

/-- One iteration of the loop while `order <= high`. -/
theorem llquantize_loop_succ (factor high nsteps fuel : Nat) (s : LLState)
    (h : s.order ≤ high) :
    llquantize_loop factor high nsteps (fuel + 1) s =
      if int64 (s.value + s.step) ≠ s.next then
        llquantize_loop factor high nsteps fuel
          ⟨int64 (s.value + s.step), s.next, s.step, s.order, s.bucket + 1,
            s.writes ++ [(s.bucket, set_range s.value (int64 (int64 (s.value + s.step) - 1)))]⟩
      else
        match llquantize_step (int64 (int64 (s.value + s.step) * factor)) nsteps with
        | .fault f => .fault f
        | .done step =>
          llquantize_loop factor high nsteps fuel
            ⟨int64 (s.value + s.step), int64 (int64 (s.value + s.step) * factor), step,
              s.order + 1, s.bucket + 1,
              s.writes ++
                [(s.bucket, set_range s.value (int64 (int64 (s.value + s.step) - 1)))]⟩ := by
  conv_lhs => unfold llquantize_loop
  simp only [h, if_true]

/-- One order of the loop: from a state inside an order whose boundary `nx`
is a whole number `m` of increments above the start `v` of the order, the
remaining `d` iterations stay below the boundary, the last one lands on it,
and the loop goes on in the next order with `d` more buckets stored. -/
theorem llquantize_loop_order (factor high nsteps : Nat) (v st nx : Int) (k m : Nat)
    (hk : k ≤ high) (hv : 0 ≤ v) (hst : 1 ≤ st) (hnx : v + (m : Int) * st = nx)
    (hfit : nx < 2 ^ 63) :
    ∀ (d j b : Nat) (w : List (Nat × BucketRange)) (fuel : Nat), j + d = m → 1 ≤ d →
      ∃ w', llquantize_loop factor high nsteps (d + fuel) ⟨v + (j : Int) * st, nx, st, k, b, w⟩ =
        match llquantize_step (int64 (nx * factor)) nsteps with
        | .fault f => .fault f
        | .done step' =>
          llquantize_loop factor high nsteps fuel
            ⟨nx, int64 (nx * factor), step', k + 1, b + d, w'⟩ := by
  intro d
  induction d with
  | zero => intro j b w fuel _ h; omega
  | succ d ih =>
    intro j b w fuel hj _
    have hfuel : d + 1 + fuel = (d + fuel) + 1 := by omega
    rw [hfuel]
    have hst0 : (0 : Int) ≤ st := by omega
    have hle : ((j + 1 : Nat) : Int) * st + (d : Int) * st = (m : Int) * st := by
      rw [← hj]
      push_cast
      ring
    have hd0 : (0 : Int) ≤ (d : Int) * st := mul_nonneg (Int.ofNat_nonneg _) hst0
    have hj0 : (0 : Int) ≤ ((j + 1 : Nat) : Int) * st := mul_nonneg (Int.ofNat_nonneg _) hst0
    have hval : int64 (v + (j : Int) * st + st) = v + ((j + 1 : Nat) : Int) * st := by
      have e : v + (j : Int) * st + st = v + ((j + 1 : Nat) : Int) * st := by
        push_cast
        ring
      rw [e]
      apply int64_of_fits
      · linarith
      · linarith
    rw [llquantize_loop_succ _ _ _ _ _ hk]
    simp only [hval]
    by_cases hd : d = 0
    · subst hd
      have hvn : v + ((j + 1 : Nat) : Int) * st = nx := by
        rw [← hnx, ← hle]
        simp
      rw [hvn]
      simp only [ne_eq, not_true_eq_false, if_false, Nat.zero_add]
      exact ⟨_, rfl⟩
    · have hd1 : (1 : Int) ≤ (d : Int) * st := by
        have : (1 : Int) ≤ (d : Int) := by omega
        nlinarith
      have hne : v + ((j + 1 : Nat) : Int) * st ≠ nx := by
        intro hc
        linarith
      rw [if_pos hne]
      obtain ⟨w', hw'⟩ := ih (j + 1) (b + 1)
        (w ++ [(b, set_range (v + (j : Int) * st) (int64 (v + ((j + 1 : Nat) : Int) * st - 1)))])
        fuel (by omega) (by omega)
      refine ⟨w', ?_⟩
      rw [hw']
      have hb : b + 1 + d = b + (d + 1) := by omega
      rw [hb]

/-- The arithmetic of one order: when `factor` divides `nsteps` and `nsteps`
divides `factor ^ (low + 1)`, the increment `factor ^ (k + 1) / nsteps` of an
order `k ≥ low` is exact and at least 1, and `nsteps - nsteps / factor`
increments lead from `factor ^ k` to `factor ^ (k + 1)`. -/
theorem llquantize_order_arith (factor nsteps low k : Nat) (hf : 2 ≤ factor)
    (hd1 : factor ∣ nsteps) (hd2 : nsteps ∣ factor ^ (low + 1)) (hk : low ≤ k) :
    nsteps ≠ 0 ∧ nsteps ∣ factor ^ (k + 1) ∧ 1 ≤ factor ^ (k + 1) / nsteps ∧
    1 ≤ nsteps - nsteps / factor ∧
    factor ^ k + (nsteps - nsteps / factor) * (factor ^ (k + 1) / nsteps) = factor ^ (k + 1) := by
  have hfpos : 0 < factor := by omega
  have hpow : 0 < factor ^ (k + 1) := pow_pos hfpos _
  have hdk : nsteps ∣ factor ^ (k + 1) :=
    Nat.dvd_trans hd2 (Nat.pow_dvd_pow factor (by omega))
  obtain ⟨q, rfl⟩ := hd1
  obtain ⟨t, ht⟩ := hdk
  have hq0 : q ≠ 0 := by
    rintro rfl
    simp at ht
    omega
  have ht0 : t ≠ 0 := by
    rintro rfl
    simp at ht
    omega
  have hqpos : 0 < q := Nat.pos_of_ne_zero hq0
  have htpos : 0 < t := Nat.pos_of_ne_zero ht0
  have hnpos : 0 < factor * q := Nat.mul_pos hfpos hqpos
  have hdivq : factor * q / factor = q := Nat.mul_div_cancel_left q hfpos
  have hdivt : factor ^ (k + 1) / (factor * q) = t := by
    rw [ht]
    exact Nat.mul_div_cancel_left t hnpos
  have hk' : factor ^ k = q * t := by
    have h1 : factor * factor ^ k = factor * (q * t) := by
      rw [← Nat.pow_succ', ht, Nat.mul_assoc]
    exact Nat.eq_of_mul_eq_mul_left hfpos h1
  have hqlt : q < factor * q := by
    have : 2 * q ≤ factor * q := Nat.mul_le_mul_right q hf
    omega
  refine ⟨by omega, ⟨t, ht⟩, ?_, ?_, ?_⟩
  · rw [hdivt]; omega
  · rw [hdivq]; omega
  · rw [hdivq, hdivt, hk', ht, Nat.sub_mul]
    have hle : q * t ≤ factor * q * t := Nat.mul_le_mul_right t (le_of_lt hqlt)
    omega

/-- The orders of the loop: from the start of an order `k`, with `r` orders
to go, the loop ends after `r * (nsteps - nsteps / factor)` iterations, at the
boundary `factor ^ (high + 1)`. -/
theorem llquantize_loop_orders (factor low high nsteps : Nat) (hf : 2 ≤ factor)
    (hd1 : factor ∣ nsteps) (hd2 : nsteps ∣ factor ^ (low + 1))
    (hb : factor ^ (high + 1) < 2 ^ 63) :
    ∀ (r k : Nat) (s : LLState) (fuel : Nat), k + r = high + 1 → low ≤ k →
      s.value = ((factor ^ k : Nat) : Int) → s.order = k →
      s.next = int64 (s.value * factor) → llquantize_step s.next nsteps = .done s.step →
      ∃ s', llquantize_loop factor high nsteps (r * (nsteps - nsteps / factor) + fuel) s =
          .done s' ∧
        s'.value = ((factor ^ (high + 1) : Nat) : Int) ∧ s'.order = high + 1 ∧
        s'.bucket = s.bucket + r * (nsteps - nsteps / factor) := by
  intro r
  induction r with
  | zero =>
    intro k s fuel hkr _ hval hord _ _
    have hk : k = high + 1 := by omega
    subst hk
    refine ⟨s, llquantize_loop_of_order_gt _ _ _ _ _ (by omega), hval, hord, by simp⟩
  | succ r ih =>
    intro k s fuel hkr hlow hval hord hnext hstep
    obtain ⟨value, next, step, order, bucket, writes⟩ := s
    simp only at hval hord hnext hstep
    subst hval
    have hord2 := hord.symm
    subst hord2
    have hkh : k ≤ high := by omega
    obtain ⟨hn0, hdk, hst1, hm1, hsum⟩ := llquantize_order_arith factor nsteps low k hf hd1 hd2 hlow
    have hfpos : 1 ≤ factor := by omega
    have hpk : factor ^ (k + 1) ≤ factor ^ (high + 1) :=
      Nat.pow_le_pow_right hfpos (by omega)
    have hpk2 : factor ^ (k + 1) < 2 ^ 63 := lt_of_le_of_lt hpk hb
    have hpos : 0 < factor ^ (k + 1) := pow_pos (by omega) _
    have hcast : ((factor ^ k : Nat) : Int) * (factor : Int) = ((factor ^ (k + 1) : Nat) : Int) := by
      push_cast
      ring
    have hnx : next = ((factor ^ (k + 1) : Nat) : Int) := by
      rw [hnext, hcast]
      apply int64_of_fits
      · have : (0 : Int) ≤ ((factor ^ (k + 1) : Nat) : Int) := Int.ofNat_nonneg _
        omega
      · exact_mod_cast hpk2
    subst hnx
    have hst : step = ((factor ^ (k + 1) / nsteps : Nat) : Int) := by
      rw [llquantize_step_of_dvd _ _ hdk hpos] at hstep
      cases hstep
      rfl
    subst hst
    have hfuel : (r + 1) * (nsteps - nsteps / factor) + fuel =
        (nsteps - nsteps / factor) + (r * (nsteps - nsteps / factor) + fuel) := by
      rw [Nat.succ_mul]
      omega
    rw [hfuel]
    have hsumI : ((factor ^ k : Nat) : Int) +
        ((nsteps - nsteps / factor : Nat) : Int) * ((factor ^ (k + 1) / nsteps : Nat) : Int) =
        ((factor ^ (k + 1) : Nat) : Int) := by
      exact_mod_cast hsum
    obtain ⟨w', hw'⟩ := llquantize_loop_order factor high nsteps ((factor ^ k : Nat) : Int)
      ((factor ^ (k + 1) / nsteps : Nat) : Int) ((factor ^ (k + 1) : Nat) : Int) k
      (nsteps - nsteps / factor) hkh (Int.ofNat_nonneg _) (by exact_mod_cast hst1) hsumI
      (by exact_mod_cast hpk2) (nsteps - nsteps / factor) 0 bucket writes
      (r * (nsteps - nsteps / factor) + fuel) (by omega) hm1
    simp only [Nat.cast_zero, zero_mul, add_zero] at hw'
    rw [hw']
    obtain ⟨st', hst'⟩ := llquantize_step_done
      (int64 (((factor ^ (k + 1) : Nat) : Int) * (factor : Int))) nsteps hn0
    rw [hst']
    simp only
    obtain ⟨s', hs', h1, h2, h3⟩ := ih (k + 1)
      ⟨((factor ^ (k + 1) : Nat) : Int), int64 (((factor ^ (k + 1) : Nat) : Int) * (factor : Int)),
        st', k + 1, bucket + (nsteps - nsteps / factor), w'⟩ fuel (by omega) (by omega)
      rfl rfl rfl hst'
    refine ⟨s', hs', h1, h2, ?_⟩
    rw [h3, Nat.succ_mul]
    simp only
    omega

/-- The bucket computation of `_ranges_llquantize` for a control word whose
factor is at least 2 and divides the number of steps, whose number of steps
divides `factor ^ (low + 1)`, whose orders are not empty and whose last
boundary fits in 64 bits: with enough iterations allowed it reaches the
assertion, the last boundary is `factor ^ (high + 1)`, and
`(high - low + 1) * (nsteps - nsteps / factor) + 2` buckets are stored. -/
theorem llquantize_run_done (arg fuel : Nat)
    (hf : 2 ≤ DTRACE_LLQUANTIZE_FACTOR arg)
    (hlh : DTRACE_LLQUANTIZE_LOW arg ≤ DTRACE_LLQUANTIZE_HIGH arg)
    (hd1 : DTRACE_LLQUANTIZE_FACTOR arg ∣ DTRACE_LLQUANTIZE_NSTEP arg)
    (hd2 : DTRACE_LLQUANTIZE_NSTEP arg ∣
      DTRACE_LLQUANTIZE_FACTOR arg ^ (DTRACE_LLQUANTIZE_LOW arg + 1))
    (hb : DTRACE_LLQUANTIZE_FACTOR arg ^ (DTRACE_LLQUANTIZE_HIGH arg + 1) < 2 ^ 63)
    (hfuel : (DTRACE_LLQUANTIZE_HIGH arg - DTRACE_LLQUANTIZE_LOW arg + 1) *
      (DTRACE_LLQUANTIZE_NSTEP arg - DTRACE_LLQUANTIZE_NSTEP arg / DTRACE_LLQUANTIZE_FACTOR arg)
        ≤ fuel) :
    ∃ s, llquantize_run fuel arg = .done s ∧
      s.bucket = (DTRACE_LLQUANTIZE_HIGH arg - DTRACE_LLQUANTIZE_LOW arg + 1) *
        (DTRACE_LLQUANTIZE_NSTEP arg -
          DTRACE_LLQUANTIZE_NSTEP arg / DTRACE_LLQUANTIZE_FACTOR arg) + 1 ∧
      s.value = ((DTRACE_LLQUANTIZE_FACTOR arg ^ (DTRACE_LLQUANTIZE_HIGH arg + 1) : Nat) : Int) ∧
      s.order = DTRACE_LLQUANTIZE_HIGH arg + 1 := by
  obtain ⟨extra, rfl⟩ := Nat.exists_eq_add_of_le hfuel
  unfold llquantize_run
  simp only
  generalize DTRACE_LLQUANTIZE_FACTOR arg = factor at *
  generalize DTRACE_LLQUANTIZE_LOW arg = low at *
  generalize DTRACE_LLQUANTIZE_HIGH arg = high at *
  generalize DTRACE_LLQUANTIZE_NSTEP arg = nsteps at *
  have hfpos : 1 ≤ factor := by omega
  have hlow : factor ^ low ≤ factor ^ (high + 1) := Nat.pow_le_pow_right hfpos (by omega)
  have hlow1 : factor ^ (low + 1) ≤ factor ^ (high + 1) := Nat.pow_le_pow_right hfpos (by omega)
  have hpos : 0 < factor ^ (low + 1) := pow_pos (by omega) _
  rw [llquantize_start_eq_pow factor hfpos low (lt_of_le_of_lt hlow hb)]
  have hcast : ((factor ^ low : Nat) : Int) * (factor : Int) =
      ((factor ^ (low + 1) : Nat) : Int) := by
    push_cast
    ring
  have hnx : int64 (((factor ^ low : Nat) : Int) * (factor : Int)) =
      ((factor ^ (low + 1) : Nat) : Int) := by
    rw [hcast]
    apply int64_of_fits
    · have : (0 : Int) ≤ ((factor ^ (low + 1) : Nat) : Int) := Int.ofNat_nonneg _
      omega
    · exact_mod_cast lt_of_le_of_lt hlow1 hb
  have hstep := llquantize_step_of_dvd (factor ^ (low + 1)) nsteps hd2 hpos
  rw [hnx, hstep]
  simp only
  obtain ⟨s', hs', h1, h2, h3⟩ := llquantize_loop_orders factor low high nsteps hf hd1 hd2 hb
    (high - low + 1) low
    ⟨((factor ^ low : Nat) : Int), ((factor ^ (low + 1) : Nat) : Int),
      ((factor ^ (low + 1) / nsteps : Nat) : Int), low, 1,
      [(0, set_range 0 (int64 (((factor ^ low : Nat) : Int) - 2)))]⟩ extra (by omega) le_rfl
    rfl rfl hnx.symm hstep
  rw [hs']
  simp only at h3
  refine ⟨_, rfl, ?_, h1, h2⟩
  simp only [h3]
  omega

/-- Narrowing to 64 bits keeps the parity. -/
theorem int64_mod_two (x : Int) : int64 x % 2 = x % 2 := by
  unfold int64 wrapSigned
  norm_num
  omega

/-- With factor 10 and 4 steps per order the increment of the first order is
2, so the running value stays odd and never equals the boundary 10: the loop
is still running when any iteration budget is spent. -/
theorem llquantize_loop_steps_over (high : Nat) :
    ∀ (fuel : Nat) (s : LLState), s.value % 2 = 1 → s.next = 10 → s.step = 2 →
      s.order ≤ high → llquantize_loop 10 high 4 fuel s = .fault .out_of_fuel := by
  intro fuel
  induction fuel with
  | zero =>
    intro s _ _ _ hord
    simp [llquantize_loop, hord]
  | succ fuel ih =>
    intro s hodd hnext hstep hord
    rw [llquantize_loop_succ _ _ _ _ _ hord]
    have hpar : int64 (s.value + s.step) % 2 = 1 := by
      rw [int64_mod_two, hstep]
      omega
    have hne : int64 (s.value + s.step) ≠ s.next := by
      rw [hnext]
      intro hc
      rw [hc] at hpar
      omega
    rw [if_pos hne]
    exact ih _ hpar hnext hstep hord

/-- A control word with factor 10, low 0 and 4 steps per order: the bucket
computation never reaches the assertion. -/
theorem llquantize_run_steps_over (arg : Nat) (h1 : DTRACE_LLQUANTIZE_FACTOR arg = 10)
    (h2 : DTRACE_LLQUANTIZE_LOW arg = 0) (h3 : DTRACE_LLQUANTIZE_NSTEP arg = 4) (fuel : Nat) :
    llquantize_run fuel arg = .fault .out_of_fuel := by
  unfold llquantize_run
  simp only [h1, h2, h3]
  have hs : llquantize_step (int64 (llquantize_start 10 0 * ((10 : Nat) : Int))) 4 = .done 2 := by
    decide
  rw [hs]
  simp only
  rw [llquantize_loop_steps_over _ fuel _ (by decide) (by decide) rfl (Nat.zero_le _)]

/-- With a non-zero number of steps the increment is `max(1, next / nsteps)`,
the division truncating as in C. -/
theorem llquantize_step_eq_max (next : Int) (nsteps : Nat) (hn : nsteps ≠ 0) :
    llquantize_step next nsteps = .done (max 1 (Int.tdiv next nsteps)) := by
  have hnpos : (0 : Int) < (nsteps : Int) := by
    have : 0 < nsteps := Nat.pos_of_ne_zero hn
    exact_mod_cast this
  unfold llquantize_step
  by_cases hgt : next > (nsteps : Int)
  · rw [if_pos hgt, if_neg hn]
    have h0 : (0 : Int) ≤ next := by omega
    have h1 : (1 : Int) ≤ Int.tdiv next nsteps := by
      rw [Int.tdiv_eq_ediv h0 (le_of_lt hnpos)]
      apply Int.le_ediv_of_mul_le hnpos
      omega
    rw [max_eq_right h1]
  · rw [if_neg hgt]
    have h1 : Int.tdiv next nsteps ≤ 1 := by
      by_cases h0 : 0 ≤ next
      · rw [Int.tdiv_eq_ediv h0 (le_of_lt hnpos)]
        have : next / (nsteps : Int) < 2 := Int.ediv_lt_of_lt_mul hnpos (by omega)
        omega
      · have hneg : (0 : Int) ≤ Int.tdiv (-next) nsteps :=
          Int.tdiv_nonneg (by omega) (le_of_lt hnpos)
        rw [Int.neg_tdiv] at hneg
        omega
    rw [max_eq_left h1]

/-- On a cache miss `_ranges_llquantize` returns exactly when the bucket
computation reaches the assertion and the assertion holds; it then returns the
stored buckets as the table and leaves them in the cache under `varid`. -/
theorem ranges_llquantize_miss_iff (fuel : Nat) (dtc : DTraceConsumer) (varid : Int)
    (arg : Nat) (nbuckets : Int) (hmiss : _ranges_cached dtc varid = none)
    (r : Option RangeTable × DTraceConsumer) :
    _ranges_llquantize fuel dtc varid arg nbuckets = .done r ↔
      ∃ s, llquantize_run fuel arg = .done s ∧ (s.bucket : Int) + 1 = nbuckets ∧
        r = (some (s.writes.map Prod.snd),
          ⟨dtc.dtc_error, varid, some (s.writes.map Prod.snd)⟩) := by
  unfold _ranges_llquantize
  rw [hmiss]
  simp only
  constructor
  · intro h
    split at h
    · cases h
    · rename_i s hs
      split at h
      · rename_i hb
        cases h
        exact ⟨s, hs, hb, rfl⟩
      · cases h
  · rintro ⟨s, hs, hb, rfl⟩
    rw [hs]
    simp only [hb, if_true, _ranges_cache]

/-- A lookup returns a table only under the stored id. -/
theorem ranges_cached_some (dtc : DTraceConsumer) (varid : Int) (t : RangeTable)
    (h : _ranges_cached dtc varid = some t) :
    varid = dtc.dtc_ranges_varid ∧ dtc.dtc_ranges = some t := by
  unfold _ranges_cached at h
  split at h
  · rename_i hv
    exact ⟨hv, h⟩
  · cases h

/-- What a lookup returns in a cache that holds a table `t` under `varid`. -/
theorem ranges_cached_of_holds (dtc : DTraceConsumer) (varid : Int) (t : RangeTable)
    (hv : dtc.dtc_ranges_varid = varid) (ht : dtc.dtc_ranges = some t) :
    _ranges_cached dtc varid = some t ∧
    ∀ other, other ≠ varid → _ranges_cached dtc other = none := by
  unfold _ranges_cached
  constructor
  · rw [if_pos hv.symm, ht]
  · intro other ho
    rw [if_neg (by rw [hv]; exact ho)]

/-- A histogram branch on a table that has an entry for every non-zero
bucket among the `n` visited: one pair per non-zero bucket, in index order. -/
theorem hist_value_of_covered (ranges : RangeTable) (dtc' : DTraceConsumer) (data : Nat → Int)
    (n : Nat) (hcov : ∀ i < n, data i ≠ 0 → i < ranges.length) :
    hist_value (.done (some ranges, dtc')) data n =
      .done (some (.hist ((List.range n).filterMap fun i =>
        if data i = 0 then none else ranges[i]?.map fun r => (r, Py_BuildValue_i (data i)))),
        dtc') := by
  have hin : ∀ i ∈ List.range n, data i ≠ 0 → i < ranges.length :=
    fun i hi h0 => hcov i (List.mem_range.mp hi) h0
  unfold hist_value
  simp only [hist_entries_eq ranges data (List.range n) hin]

/-! ## The claims -/

set_option maxRecDepth 100000

/-- C1: on a cache miss with base = 0, step = 10, levels = 3 the table that
`_ranges_lquantize` returns is `[0,-1], [0,9], [10,19], [20,29], [30,-1]`: the
interior bounds are as claimed, but the open ends `INT64_MIN` and `INT64_MAX`
reach the table as `0` and `-1`, because every bound is stored through the
32-bit format unit `i`. -/
theorem lquantize_example_table :
    DTRACE_LQUANTIZE_BASE (lquantize_arg 0 10 3) = 0 ∧
    DTRACE_LQUANTIZE_STEP (lquantize_arg 0 10 3) = 10 ∧
    DTRACE_LQUANTIZE_LEVELS (lquantize_arg 0 10 3) = 3 ∧
    _ranges_cached empty_consumer 1 = none ∧
    (_ranges_lquantize empty_consumer 1 (lquantize_arg 0 10 3)).1 =
      some [⟨0, -1⟩, ⟨0, 9⟩, ⟨10, 19⟩, ⟨20, 29⟩, ⟨30, -1⟩] ∧
    (lquantize_minmax 0 10 3 0).1 = INT64_MIN ∧ Py_BuildValue_i INT64_MIN = 0 ∧
    (lquantize_minmax 0 10 3 4).2 = INT64_MAX ∧ Py_BuildValue_i INT64_MAX = -1 := by
  decide

/-- C2: the table that `_ranges_quantize` returns on a cache miss does not
tile the int64 domain: bucket 0 is `[0,0]` (not starting at `INT64_MIN`), the
last bucket is `[0,-1]` (not ending at `INT64_MAX`), bucket 31 is
`[1,-2147483648]` with min above max, and the max of bucket 94 plus 1 is not
the min of bucket 95. -/
theorem quantize_table_not_tiling :
    _ranges_cached empty_consumer 1 = none ∧
    (_ranges_quantize empty_consumer 1).1 = some quantize_table ∧
    quantize_table.length = DTRACE_QUANTIZE_NBUCKETS ∧
    entry (_ranges_quantize empty_consumer 1).1 0 = some ⟨0, 0⟩ ∧
    entry (_ranges_quantize empty_consumer 1).1 126 = some ⟨0, -1⟩ ∧
    entry (_ranges_quantize empty_consumer 1).1 31 = some ⟨1, -2147483648⟩ ∧
    entry (_ranges_quantize empty_consumer 1).1 94 = some ⟨1073741824, 2147483647⟩ ∧
    entry (_ranges_quantize empty_consumer 1).1 95 = some ⟨-2147483648, -1⟩ := by
  decide

/-- C3: on a cache miss with base = -5, step = 5, levels = 2 the table that
`_ranges_lquantize` returns starts at `0` and ends at `-1` instead of
`INT64_MIN` and `INT64_MAX`; with base = 2147483647, step = 1, levels = 1 the
`int` arithmetic wraps as well and the max of bucket 1 plus 1 (2147483648) is
not the min of bucket 2 (-2147483648). -/
theorem lquantize_table_not_covering :
    (_ranges_lquantize empty_consumer 1 (lquantize_arg (-5) 5 2)).1 =
      some [⟨0, -6⟩, ⟨-5, -1⟩, ⟨0, 4⟩, ⟨5, -1⟩] ∧
    (_ranges_lquantize empty_consumer 1 (lquantize_arg 2147483647 1 1)).1 =
      some [⟨0, 2147483646⟩, ⟨2147483647, 2147483647⟩, ⟨-2147483648, -1⟩] ∧
    DTRACE_LQUANTIZE_BASE (lquantize_arg 2147483647 1 1) = 2147483647 ∧
    (lquantize_minmax 2147483647 1 1 1).2 = 2147483647 ∧
    (lquantize_minmax 2147483647 1 1 2).1 = -2147483648 := by
  decide

/-- C4: for factor = 10, low = 1, high = 1, nsteps = 10 and nbuckets = 11 the
call returns a table whose bucket 0 is `[0,8]`, not `[0, v0-1] = [0,9]` with
`v0 = factor^low = 10`; bucket 1 starts at 10, so the value 9 lies in no
bucket, and the final bucket is `[100,-1]`, not `[100, INT64_MAX]`. -/
theorem llquantize_first_bucket_short :
    llquantize_start 10 1 = 10 ∧
    _ranges_llquantize 100 empty_consumer 1 (llquantize_arg 10 1 1 10) 11 =
      .done (some [⟨0, 8⟩, ⟨10, 19⟩, ⟨20, 29⟩, ⟨30, 39⟩, ⟨40, 49⟩, ⟨50, 59⟩, ⟨60, 69⟩,
                   ⟨70, 79⟩, ⟨80, 89⟩, ⟨90, 99⟩, ⟨100, -1⟩],
             ⟨none, 1,
              some [⟨0, 8⟩, ⟨10, 19⟩, ⟨20, 29⟩, ⟨30, 39⟩, ⟨40, 49⟩, ⟨50, 59⟩, ⟨60, 69⟩,
                    ⟨70, 79⟩, ⟨80, 89⟩, ⟨90, 99⟩, ⟨100, -1⟩]⟩) := by
  decide

/-- C5: in the table of `_ranges_quantize` bucket 63 is `[0,0]`, bucket 62 has
max -1 and bucket 64 has min 1, as claimed; but bucket 0 is `[0,0]` although
bucket-value(0) is `-2^62`, bucket 96 is `[0,-1]` although bucket-value(96) is
`2^32`, and the last bucket is `[0,-1]` although bucket-value(126) is `2^62`. -/
theorem quantize_zero_bucket_and_ends :
    entry (_ranges_quantize empty_consumer 2).1 DTRACE_QUANTIZE_ZEROBUCKET = some ⟨0, 0⟩ ∧
    (entry (_ranges_quantize empty_consumer 2).1 (DTRACE_QUANTIZE_ZEROBUCKET - 1)).map (·.max)
      = some (-1) ∧
    (entry (_ranges_quantize empty_consumer 2).1 (DTRACE_QUANTIZE_ZEROBUCKET + 1)).map (·.min)
      = some 1 ∧
    entry (_ranges_quantize empty_consumer 2).1 0 = some ⟨0, 0⟩ ∧
    DTRACE_QUANTIZE_BUCKETVAL 0 = -(2 ^ 62) ∧
    entry (_ranges_quantize empty_consumer 2).1 96 = some ⟨0, -1⟩ ∧
    DTRACE_QUANTIZE_BUCKETVAL 96 = 2 ^ 32 ∧
    entry (_ranges_quantize empty_consumer 2).1 126 = some ⟨0, -1⟩ ∧
    DTRACE_QUANTIZE_BUCKETVAL 126 = 2 ^ 62 := by
  decide

/-- C6: for factor = 10, low = 1, high = 1, nsteps = 10 and a declared
nbuckets = 5 the call ends in the assertion failure, but only after it has
stored eleven buckets, at the indices 0..10: the indices 5..10 lie outside the
five-entry array. -/
theorem llquantize_writes_before_assert :
    llquantize_run 100 (llquantize_arg 10 1 1 10) =
      .done ⟨100, 1000, 100, 2, 10,
        [(0, ⟨0, 8⟩), (1, ⟨10, 19⟩), (2, ⟨20, 29⟩), (3, ⟨30, 39⟩), (4, ⟨40, 49⟩),
         (5, ⟨50, 59⟩), (6, ⟨60, 69⟩), (7, ⟨70, 79⟩), (8, ⟨80, 89⟩), (9, ⟨90, 99⟩),
         (10, ⟨100, -1⟩)]⟩ ∧
    _ranges_llquantize 100 empty_consumer 1 (llquantize_arg 10 1 1 10) 5 =
      .fault .assertion_failed := by
  decide

/-- C7: after `_ranges_cache(id, t)` with a non-NULL table `t`, whatever the
cache held before, `_ranges_cached(id)` returns `t`, `_ranges_cached(id')`
returns NULL for every other id, the cache holds exactly `(id, t)`, and the
store itself returns `t`. -/
theorem ranges_cache_then_cached (dtc : DTraceConsumer) (id : Int) (t : RangeTable) :
    _ranges_cached (_ranges_cache dtc id (some t)).2 id = some t ∧
    (∀ id', id' ≠ id → _ranges_cached (_ranges_cache dtc id (some t)).2 id' = none) ∧
    (_ranges_cache dtc id (some t)).2.dtc_ranges = some t ∧
    (_ranges_cache dtc id (some t)).2.dtc_ranges_varid = id ∧
    (_ranges_cache dtc id (some t)).1 = some t := by
  refine ⟨by simp [_ranges_cached, _ranges_cache], ?_, rfl, rfl, rfl⟩
  intro id' h
  simp [_ranges_cached, _ranges_cache, h]

/-- C8: for a DIF-expression record of declared size 1 whose first byte is 1,
`_make_record` returns 513 when the next byte is 2 and 1 when it is 0: the
result depends on bytes beyond the declared size. Likewise size 4 with the
bytes `ff ff ff ff 01` gives 8589934591, which is neither -1 nor 4294967295. -/
theorem make_record_reads_eight_bytes :
    _make_record (fun _ => []) (fun _ _ => []) ⟨DTRACEACT_DIFEXPR, 1, 0⟩
      [1, 2, 0, 0, 0, 0, 0, 0] = some (.long 513) ∧
    _make_record (fun _ => []) (fun _ _ => []) ⟨DTRACEACT_DIFEXPR, 1, 0⟩
      [1, 0, 0, 0, 0, 0, 0, 0] = some (.long 1) ∧
    _make_record (fun _ => []) (fun _ _ => []) ⟨DTRACEACT_DIFEXPR, 4, 0⟩
      [255, 255, 255, 255, 1, 0, 0, 0] = some (.long 8589934591) := by
  decide

/-- C9: for the actions mod and umod `_make_record` returns, for the string
`s` the address-resolution service left in the buffer, the prefix of `s`
before its first back-tick when there is one and the sentinel `<unknown>`
otherwise; the result never contains a back-tick. -/
theorem make_record_module (addr2str : Nat → List Nat) (uaddr2str : Nat → Nat → List Nat)
    (size offset : Nat) (addr : List Nat) :
    _make_record addr2str uaddr2str ⟨DTRACEACT_MOD, size, offset⟩ addr =
      some (.str (if TICK ∈ c_str (addr2str (load_u64 addr 0))
        then (c_str (addr2str (load_u64 addr 0))).takeWhile (· ≠ TICK) else UNKNOWN)) ∧
    _make_record addr2str uaddr2str ⟨DTRACEACT_UMOD, size, offset⟩ addr =
      some (.str (if TICK ∈ c_str (uaddr2str (load_u64 addr 0) (load_u64 addr 1))
        then (c_str (uaddr2str (load_u64 addr 0) (load_u64 addr 1))).takeWhile (· ≠ TICK)
        else UNKNOWN)) ∧
    (∀ r, (_make_record addr2str uaddr2str ⟨DTRACEACT_MOD, size, offset⟩ addr = some (.str r) ∨
           _make_record addr2str uaddr2str ⟨DTRACEACT_UMOD, size, offset⟩ addr = some (.str r)) →
      TICK ∉ r) := by
  have hk : _make_record addr2str uaddr2str ⟨DTRACEACT_MOD, size, offset⟩ addr =
      some (.str (module_part (c_str (addr2str (load_u64 addr 0))))) := by
    simp only [_make_record, class_is_kernel]
    simpa using module_branch (addr2str (load_u64 addr 0))
  have hu : _make_record addr2str uaddr2str ⟨DTRACEACT_UMOD, size, offset⟩ addr =
      some (.str (module_part (c_str (uaddr2str (load_u64 addr 0) (load_u64 addr 1))))) := by
    simp only [_make_record, class_is_kernel]
    simpa using module_branch (uaddr2str (load_u64 addr 0) (load_u64 addr 1))
  refine ⟨hk, hu, ?_⟩
  intro r hr
  rcases hr with h | h
  · rw [hk] at h
    have e : module_part (c_str (addr2str (load_u64 addr 0))) = r := by simpa using h
    rw [← e]
    exact tick_not_mem_module_part _
  · rw [hu] at h
    have e : module_part (c_str (uaddr2str (load_u64 addr 0) (load_u64 addr 1))) = r := by
      simpa using h
    rw [← e]
    exact tick_not_mem_module_part _

/-- C10: for the actions sym and usym `_make_record` returns, for the string
`s` the address-resolution service left in the buffer, the prefix of `s`
before its last `+` when there is one (`s = result ++ '+' :: post` with no `+`
in `post`) and `s` unchanged otherwise; for uaddr it returns `s` unchanged. -/
theorem make_record_symbol (addr2str : Nat → List Nat) (uaddr2str : Nat → Nat → List Nat)
    (size offset : Nat) (addr : List Nat) :
    _make_record addr2str uaddr2str ⟨DTRACEACT_SYM, size, offset⟩ addr =
      some (.str (symbol_part (c_str (addr2str (load_u64 addr 0))))) ∧
    _make_record addr2str uaddr2str ⟨DTRACEACT_USYM, size, offset⟩ addr =
      some (.str (symbol_part (c_str (uaddr2str (load_u64 addr 0) (load_u64 addr 1))))) ∧
    _make_record addr2str uaddr2str ⟨DTRACEACT_UADDR, size, offset⟩ addr =
      some (.str (c_str (uaddr2str (load_u64 addr 0) (load_u64 addr 1)))) ∧
    (∀ s : List Nat, (PLUS ∈ s → ∃ post, s = symbol_part s ++ PLUS :: post ∧ PLUS ∉ post) ∧
      (PLUS ∉ s → symbol_part s = s)) := by
  refine ⟨?_, ?_, ?_, ?_⟩
  · simp only [_make_record, class_is_kernel]
    simpa using symbol_branch (addr2str (load_u64 addr 0))
  · simp only [_make_record, class_is_kernel]
    simpa using symbol_branch (uaddr2str (load_u64 addr 0) (load_u64 addr 1))
  · simp [_make_record, class_is_kernel]
  · intro s
    exact ⟨symbol_part_spec s, fun h => by simp [symbol_part, h]⟩

/-- C12 (counterexample): a tuple without keys whose aggregating action is
llquantize, with a declared size of 48 bytes against a control word for eleven
buckets: the call ends in the assertion failure; it neither returns the remove
outcome nor invokes the sink. And for `stddev()` in an aggregation with a
1100-byte name the pending error is the first 1023 bytes of the formatted
text: it holds 967 bytes of the name, not the name. -/
theorem aggwalk_llquantize_assert_fails :
    aggregating DTRACEAGG_LLQUANTIZE = true ∧
    interior short_llquantize_agg = [] ∧
    _aggwalk 100 sample_host empty_consumer short_llquantize_agg =
      .fault .assertion_failed ∧
    aggregating DTRACEAGG_STDDEV = false ∧
    long_name_stddev_agg.dtada_desc.dtagd_name = List.replicate 1100 97 ∧
    _aggwalk 0 sample_host empty_consumer long_name_stddev_agg =
      .done ⟨DTRACE_AGGWALK_ERROR,
        ⟨some (bytes "unsupported aggregating action stddev() in aggregation " ++ [34] ++
          List.replicate 967 97), 0, none⟩, []⟩ := by
  decide

/-- C12 (amended): for every aggregation tuple whose interior records are all
representable: (1) on an aggregating action outside the eight, `_aggwalk`
returns the abort outcome, invokes no sink and sets the pending error to a
non-empty message, which reads `unsupported aggregating action <action> in
aggregation "<name>"` when the formatted text fits the 1024-byte buffer;
(2) whenever the call returns, it has returned the remove outcome after exactly
one sink invocation if and only if the action is one of the eight; (3) it does
return so for count, min, max, sum of size 8 and for avg of size 16; for
quantize, lquantize and llquantize on a cache hit with a table that has an
entry for every non-zero bucket visited; for quantize on every cache miss; for
lquantize on a cache miss with every non-zero bucket (so also with the
declared bucket count) within the `levels + 2` table entries; and for
llquantize on a cache miss whenever the
bucket computation reaches the assertion `bucket + 1 == nbuckets` and the
assertion holds, which it does, given enough iterations, for every control
word with factor at least 2, low at most high, factor dividing nsteps, nsteps
dividing `factor ^ (low + 1)` and `factor ^ (high + 1) < 2 ^ 63` whose bucket
count is the declared one. -/
theorem aggwalk_aggregating_action (fuel : Nat) (h : Host) (dtc : DTraceConsumer)
    (agg : dtrace_aggdata_t) (aggrec : dtrace_recdesc_t)
    (hn : 2 ≤ agg.dtada_desc.dtagd_rec.length)
    (hkeys : ∀ r ∈ interior agg, _valid r = true)
    (hlast : agg.dtada_desc.dtagd_rec[agg.dtada_desc.dtagd_rec.length - 1]? = some aggrec) :
    (aggregating aggrec.dtrd_action = false →
      _aggwalk fuel h dtc agg = .done ⟨DTRACE_AGGWALK_ERROR,
        ⟨some (_error h (agg_error_text aggrec agg.dtada_desc.dtagd_name)),
          dtc.dtc_ranges_varid, dtc.dtc_ranges⟩, []⟩ ∧
      _error h (agg_error_text aggrec agg.dtada_desc.dtagd_name) ≠ [] ∧
      ((agg_error_text aggrec agg.dtada_desc.dtagd_name).length ≤ 1023 →
        _error h (agg_error_text aggrec agg.dtada_desc.dtagd_name) =
          bytes "unsupported aggregating action " ++ _action aggrec ++
            bytes " in aggregation " ++ [34] ++ c_str agg.dtada_desc.dtagd_name ++ [34])) ∧
    (∀ res, _aggwalk fuel h dtc agg = .done res →
      ((res.rval = DTRACE_AGGWALK_REMOVE ∧ res.calls.length = 1) ↔
        aggregating aggrec.dtrd_action = true)) ∧
    ((aggrec.dtrd_action = DTRACEAGG_COUNT ∨ aggrec.dtrd_action = DTRACEAGG_MIN ∨
        aggrec.dtrd_action = DTRACEAGG_MAX ∨ aggrec.dtrd_action = DTRACEAGG_SUM) →
      aggrec.dtrd_size = 8 →
      ∃ res, _aggwalk fuel h dtc agg = .done res ∧ res.rval = DTRACE_AGGWALK_REMOVE ∧
        res.calls.length = 1) ∧
    (aggrec.dtrd_action = DTRACEAGG_AVG → aggrec.dtrd_size = 16 →
      ∃ res, _aggwalk fuel h dtc agg = .done res ∧ res.rval = DTRACE_AGGWALK_REMOVE ∧
        res.calls.length = 1) ∧
    (aggrec.dtrd_action = DTRACEAGG_QUANTIZE →
      _ranges_cached dtc agg.dtada_desc.dtagd_varid = none →
      ∃ res, _aggwalk fuel h dtc agg = .done res ∧ res.rval = DTRACE_AGGWALK_REMOVE ∧
        res.calls.length = 1) ∧
    (aggrec.dtrd_action = DTRACEAGG_LQUANTIZE →
      _ranges_cached dtc agg.dtada_desc.dtagd_varid = none →
      (agg_levels aggrec).toNat ≤
        DTRACE_LQUANTIZE_LEVELS (load_u64 (agg.dtada_data.drop aggrec.dtrd_offset) 0) + 2 →
      ∃ res, _aggwalk fuel h dtc agg = .done res ∧ res.rval = DTRACE_AGGWALK_REMOVE ∧
        res.calls.length = 1) ∧
    (aggrec.dtrd_action = DTRACEAGG_LLQUANTIZE →
      ∀ t dtc', _ranges_llquantize fuel dtc agg.dtada_desc.dtagd_varid
          (load_u64 (agg.dtada_data.drop aggrec.dtrd_offset) 0) (agg_levels aggrec) =
            .done (some t, dtc') →
        (agg_levels aggrec).toNat ≤ t.length →
        ∃ res, _aggwalk fuel h dtc agg = .done res ∧ res.rval = DTRACE_AGGWALK_REMOVE ∧
          res.calls.length = 1) ∧
    (aggrec.dtrd_action = DTRACEAGG_QUANTIZE →
      ∀ t, _ranges_cached dtc agg.dtada_desc.dtagd_varid = some t →
        (∀ i < DTRACE_QUANTIZE_NBUCKETS,
          load_word (agg.dtada_data.drop aggrec.dtrd_offset) i ≠ 0 → i < t.length) →
        ∃ res, _aggwalk fuel h dtc agg = .done res ∧ res.rval = DTRACE_AGGWALK_REMOVE ∧
          res.calls.length = 1) ∧
    ((aggrec.dtrd_action = DTRACEAGG_LQUANTIZE ∨ aggrec.dtrd_action = DTRACEAGG_LLQUANTIZE) →
      ∀ t, _ranges_cached dtc agg.dtada_desc.dtagd_varid = some t →
        (∀ i < (agg_levels aggrec).toNat,
          load_word (agg.dtada_data.drop aggrec.dtrd_offset) (i + 1) ≠ 0 → i < t.length) →
        ∃ res, _aggwalk fuel h dtc agg = .done res ∧ res.rval = DTRACE_AGGWALK_REMOVE ∧
          res.calls.length = 1) ∧
    (aggrec.dtrd_action = DTRACEAGG_LLQUANTIZE →
      _ranges_cached dtc agg.dtada_desc.dtagd_varid = none →
      ∀ s, llquantize_run fuel (load_u64 (agg.dtada_data.drop aggrec.dtrd_offset) 0) = .done s →
        (s.bucket : Int) + 1 = agg_levels aggrec →
        ∃ res, _aggwalk fuel h dtc agg = .done res ∧ res.rval = DTRACE_AGGWALK_REMOVE ∧
          res.calls.length = 1) ∧
    (aggrec.dtrd_action = DTRACEAGG_LLQUANTIZE →
      _ranges_cached dtc agg.dtada_desc.dtagd_varid = none →
      2 ≤ DTRACE_LLQUANTIZE_FACTOR (load_u64 (agg.dtada_data.drop aggrec.dtrd_offset) 0) →
      DTRACE_LLQUANTIZE_LOW (load_u64 (agg.dtada_data.drop aggrec.dtrd_offset) 0) ≤
        DTRACE_LLQUANTIZE_HIGH (load_u64 (agg.dtada_data.drop aggrec.dtrd_offset) 0) →
      DTRACE_LLQUANTIZE_FACTOR (load_u64 (agg.dtada_data.drop aggrec.dtrd_offset) 0) ∣
        DTRACE_LLQUANTIZE_NSTEP (load_u64 (agg.dtada_data.drop aggrec.dtrd_offset) 0) →
      DTRACE_LLQUANTIZE_NSTEP (load_u64 (agg.dtada_data.drop aggrec.dtrd_offset) 0) ∣
        DTRACE_LLQUANTIZE_FACTOR (load_u64 (agg.dtada_data.drop aggrec.dtrd_offset) 0) ^
          (DTRACE_LLQUANTIZE_LOW (load_u64 (agg.dtada_data.drop aggrec.dtrd_offset) 0) + 1) →
      DTRACE_LLQUANTIZE_FACTOR (load_u64 (agg.dtada_data.drop aggrec.dtrd_offset) 0) ^
        (DTRACE_LLQUANTIZE_HIGH (load_u64 (agg.dtada_data.drop aggrec.dtrd_offset) 0) + 1) <
          2 ^ 63 →
      llquantize_bucket_count (load_u64 (agg.dtada_data.drop aggrec.dtrd_offset) 0) - 2 ≤ fuel →
      agg_levels aggrec =
        (llquantize_bucket_count (load_u64 (agg.dtada_data.drop aggrec.dtrd_offset) 0) : Int) →
      ∃ res, _aggwalk fuel h dtc agg = .done res ∧ res.rval = DTRACE_AGGWALK_REMOVE ∧
        res.calls.length = 1) ∧
    (aggrec.dtrd_action = DTRACEAGG_LQUANTIZE →
      _ranges_cached dtc agg.dtada_desc.dtagd_varid = none →
      (∀ i < (agg_levels aggrec).toNat,
        load_word (agg.dtada_data.drop aggrec.dtrd_offset) (i + 1) ≠ 0 →
        i < DTRACE_LQUANTIZE_LEVELS (load_u64 (agg.dtada_data.drop aggrec.dtrd_offset) 0) + 2) →
      ∃ res, _aggwalk fuel h dtc agg = .done res ∧ res.rval = DTRACE_AGGWALK_REMOVE ∧
        res.calls.length = 1) := by
  have hwalk := aggwalk_of_valid_keys fuel h dtc agg aggrec hn hkeys hlast
  have hret : ∀ v dtc', agg_value fuel h dtc agg.dtada_desc.dtagd_varid aggrec
      (agg.dtada_data.drop aggrec.dtrd_offset) = .done (some v, dtc') →
      ∃ res, _aggwalk fuel h dtc agg = .done res ∧ res.rval = DTRACE_AGGWALK_REMOVE ∧
        res.calls.length = 1 := by
    intro v dtc' hval
    exact ⟨_, aggwalk_of_value fuel h dtc dtc' agg aggrec v hn hkeys hlast hval, rfl, rfl⟩
  have hllmiss : aggrec.dtrd_action = DTRACEAGG_LLQUANTIZE →
      _ranges_cached dtc agg.dtada_desc.dtagd_varid = none →
      ∀ s, llquantize_run fuel (load_u64 (agg.dtada_data.drop aggrec.dtrd_offset) 0) = .done s →
        (s.bucket : Int) + 1 = agg_levels aggrec →
        ∃ res, _aggwalk fuel h dtc agg = .done res ∧ res.rval = DTRACE_AGGWALK_REMOVE ∧
          res.calls.length = 1 := by
    intro hact hmiss s hs hb
    apply hret
    unfold agg_value
    rw [hact]
    simp only [reduceCtorEq, or_self, if_false, if_true]
    rw [(ranges_llquantize_miss_iff fuel dtc _ _ _ hmiss _).2 ⟨s, hs, hb, rfl⟩]
    apply hist_value_of_in_range
    have hidx := llquantize_run_indices fuel _ s hs
    have hlen : s.writes.length = s.bucket + 1 := by
      have := congrArg List.length hidx
      simpa using this
    rw [List.length_map, hlen, ← hb]
    omega
  refine ⟨?_, ?_, ?_, ?_, ?_, ?_, ?_, ?_, ?_, hllmiss, ?_, ?_⟩
  · intro hact
    refine ⟨?_, ?_, error_agg_text h aggrec agg.dtada_desc.dtagd_name⟩
    · rw [hwalk, agg_value_of_not_aggregating fuel h dtc _ aggrec _ hact]
    · apply error_ne_nil
      apply two_le_c_str_length _ (zero_not_mem_agg_error_text _ _)
      unfold agg_error_text
      simp only [List.length_append]
      have : (bytes "unsupported aggregating action ").length = 31 := by decide
      omega
  · intro res hres
    rw [hwalk] at hres
    cases hv : agg_value fuel h dtc agg.dtada_desc.dtagd_varid aggrec
        (agg.dtada_data.drop aggrec.dtrd_offset) with
    | fault f => rw [hv] at hres; cases hres
    | done p =>
      obtain ⟨ov, d⟩ := p
      rw [hv] at hres
      cases ov with
      | none =>
        simp only [Run.done.injEq] at hres
        subst hres
        have hna : ¬ (aggregating aggrec.dtrd_action = true) := by
          intro hact
          obtain ⟨v, hv2⟩ := agg_value_of_aggregating fuel h dtc d _ aggrec _ none hact hv
          cases hv2
        simp [hna]
      | some v =>
        simp only [Run.done.injEq] at hres
        subst hres
        have ha : aggregating aggrec.dtrd_action = true := by
          by_contra hna
          have hf : aggregating aggrec.dtrd_action = false := by simpa using hna
          rw [agg_value_of_not_aggregating fuel h dtc _ aggrec _ hf] at hv
          cases hv
        simp [ha]
  · intro hact hsize
    apply hret
    unfold agg_value
    rw [if_pos hact, if_pos hsize]
  · intro hact hsize
    apply hret
    unfold agg_value
    rw [hact]
    simp only [reduceCtorEq, or_self, if_false, if_true]
    rw [if_pos hsize]
  · intro hact hmiss
    apply hret
    unfold agg_value
    rw [hact]
    simp only [reduceCtorEq, or_self, if_false, if_true]
    unfold _ranges_quantize
    rw [hmiss]
    simp only [_ranges_cache]
    exact hist_value_of_in_range _ _ _ _ (le_of_eq quantize_table_length.symm)
  · intro hact hmiss hlev
    apply hret
    unfold agg_value
    rw [hact]
    simp only [reduceCtorEq, or_self, if_false, if_true]
    unfold _ranges_lquantize
    rw [hmiss]
    simp only [_ranges_cache]
    exact hist_value_of_in_range _ _ _ _ (by rw [lquantize_table_length]; exact hlev)
  · intro hact t dtc' hsynth hlev
    apply hret
    unfold agg_value
    rw [hact]
    simp only [reduceCtorEq, or_self, if_false, if_true]
    rw [hsynth]
    exact hist_value_of_in_range _ _ _ _ hlev
  · intro hact t hhit hcov
    apply hret
    unfold agg_value
    rw [hact]
    simp only [reduceCtorEq, or_self, if_false, if_true]
    unfold _ranges_quantize
    rw [hhit]
    exact hist_value_of_covered _ _ _ _ hcov
  · intro hact t hhit hcov
    apply hret
    unfold agg_value
    rcases hact with hact | hact
    · simp only [hact, reduceCtorEq, or_self, if_false, if_true]
      unfold _ranges_lquantize
      rw [hhit]
      exact hist_value_of_covered _ _ _ _ hcov
    · simp only [hact, reduceCtorEq, or_self, if_false, if_true]
      unfold _ranges_llquantize
      rw [hhit]
      exact hist_value_of_covered _ _ _ _ hcov
  · intro hact hmiss hf hlh hd1 hd2 hb hfuel hlev
    obtain ⟨s, hs, hbk, _⟩ := llquantize_run_done _ fuel hf hlh hd1 hd2 hb
      (by unfold llquantize_bucket_count at hfuel; omega)
    apply hllmiss hact hmiss s hs
    rw [hlev, hbk]
    unfold llquantize_bucket_count
    push_cast
    ring
  · intro hact hmiss hcov
    apply hret
    unfold agg_value
    simp only [hact, reduceCtorEq, or_self, if_false, if_true]
    unfold _ranges_lquantize
    rw [hmiss]
    simp only [_ranges_cache]
    exact hist_value_of_covered _ _ _ _ (by rw [lquantize_table_length]; exact hcov)

/-- C12 (witness): the amended statement applied to the spec's count
aggregation, and to the quantize tuple with the quantize table already cached
under its id: both return the remove outcome after one sink invocation. -/
theorem aggwalk_aggregating_action_witness :
    (∃ res, _aggwalk 0 sample_host empty_consumer count_agg = .done res ∧
      res.rval = DTRACE_AGGWALK_REMOVE ∧ res.calls.length = 1) ∧
    _ranges_cached ⟨none, 1, some quantize_table⟩ 1 = some quantize_table ∧
    (∃ res, _aggwalk 0 sample_host ⟨none, 1, some quantize_table⟩ quantize_agg = .done res ∧
      res.rval = DTRACE_AGGWALK_REMOVE ∧ res.calls.length = 1) :=
  ⟨(aggwalk_aggregating_action 0 sample_host empty_consumer count_agg
      ⟨DTRACEAGG_COUNT, 8, 16⟩ (by decide) (by decide) (by decide)).2.2.1
      (Or.inl rfl) rfl,
    by decide,
    (aggwalk_aggregating_action 0 sample_host ⟨none, 1, some quantize_table⟩ quantize_agg
      ⟨DTRACEAGG_QUANTIZE, 1016, 0⟩ (by decide) (by decide) (by decide)).2.2.2.2.2.2.2.1
      rfl quantize_table (by decide)
      (fun i hi _ => by rw [quantize_table_length]; exact hi)⟩

/-- C17: for every probe and every record whose action is printf, `_consume`
returns `DTRACE_CONSUME_THIS` with the consumer object (and so the pending
error) unchanged and without invoking the sink; `_bufhandler` always returns
`DTRACE_HANDLE_OK`, invokes the callback only for a present record whose action
is printf, and then exactly once with the probe and the buffered text. -/
theorem consume_printf_deferred (h : Host) (dtc : DTraceConsumer) (data : dtrace_probedata_t)
    (size offset : Nat) (bufdata : dtrace_bufdata_t) :
    _consume h dtc data (some ⟨DTRACEACT_PRINTF, size, offset⟩) =
      .done ⟨DTRACE_CONSUME_THIS, dtc, []⟩ ∧
    (_bufhandler bufdata).1 = DTRACE_HANDLE_OK ∧
    ((_bufhandler bufdata).2 ≠ [] →
      ∃ r, bufdata.dtbda_recdesc = some r ∧ r.dtrd_action = DTRACEACT_PRINTF) ∧
    (∀ r, bufdata.dtbda_recdesc = some r → r.dtrd_action = DTRACEACT_PRINTF →
      (_bufhandler bufdata).2 =
        [⟨_make_probedesc bufdata.dtbda_probe.dtpda_pdesc,
          .str (c_str bufdata.dtbda_buffered)⟩]) := by
  refine ⟨by simp [_consume, _action_valid], ?_, ?_, ?_⟩
  · unfold _bufhandler
    split
    · rfl
    · split <;> rfl
  · intro hne
    unfold _bufhandler at hne
    split at hne
    · exact absurd rfl hne
    · rename_i r hr
      split at hne
      · exact absurd rfl hne
      · rename_i hact
        exact ⟨r, hr, by simpa using hact⟩
  · intro r hr hact
    unfold _bufhandler
    rw [hr]
    simp [hact]

/-- C18 (counterexample): for a `stack()` record of a probe whose provider
name is 1100 bytes long, the pending error is the first 1023 bytes of the
formatted text: it ends inside the provider name and holds no colon, so it
names neither module, function nor name of the probe. -/
theorem consume_long_provider_cut :
    _action_valid ⟨DTRACEACT_STACK, 8, 0⟩ = false ∧
    long_provider_probe.dtpda_pdesc.dtpd_provider = List.replicate 1100 97 ∧
    _consume sample_host empty_consumer long_provider_probe (some ⟨DTRACEACT_STACK, 8, 0⟩) =
      .done ⟨DTRACE_CONSUME_ABORT,
        ⟨some (bytes "unsupported action stack() in record for " ++ List.replicate 982 97),
          0, none⟩, []⟩ ∧
    58 ∉ bytes "unsupported action stack() in record for " ++ List.replicate 982 97 := by
  decide

/-- C18 (amended): `_consume` advances without a sink call on an absent record; on a
present record it returns the abort outcome exactly when the action is neither
representable nor printf, and then it invokes no sink and sets the pending
error to a non-empty message, which reads `unsupported action <action> in
record for <provider>:<module>:<function>:<name>` when the formatted text fits
the 1024-byte buffer; in every other case the consumer object is unchanged,
and on a representable action the sink is invoked exactly once with the probe
descriptor and the decoded value and the outcome is `DTRACE_CONSUME_NEXT`. -/
theorem consume_outcome (h : Host) (dtc : DTraceConsumer) (data : dtrace_probedata_t)
    (r : dtrace_recdesc_t) :
    _consume h dtc data none = .done ⟨DTRACE_CONSUME_NEXT, dtc, []⟩ ∧
    (∃ res, _consume h dtc data (some r) = .done res ∧
      (res.rval = DTRACE_CONSUME_ABORT ↔
        (_action_valid r = false ∧ r.dtrd_action ≠ DTRACEACT_PRINTF)) ∧
      ((_action_valid r = false ∧ r.dtrd_action ≠ DTRACEACT_PRINTF) →
        res.calls = [] ∧
        res.dtc = ⟨some (_error h (consume_error_text r data.dtpda_pdesc)),
          dtc.dtc_ranges_varid, dtc.dtc_ranges⟩ ∧
        _error h (consume_error_text r data.dtpda_pdesc) ≠ [] ∧
        ((consume_error_text r data.dtpda_pdesc).length ≤ 1023 →
          _error h (consume_error_text r data.dtpda_pdesc) =
            bytes "unsupported action " ++ _action r ++ bytes " in record for " ++
              c_str data.dtpda_pdesc.dtpd_provider ++ [58] ++
              c_str data.dtpda_pdesc.dtpd_mod ++ [58] ++
              c_str data.dtpda_pdesc.dtpd_func ++ [58] ++
              c_str data.dtpda_pdesc.dtpd_name)) ∧
      (¬ (_action_valid r = false ∧ r.dtrd_action ≠ DTRACEACT_PRINTF) → res.dtc = dtc) ∧
      (_action_valid r = true →
        ∃ v, _make_record h.addr2str h.uaddr2str r data.dtpda_data = some v ∧
          res = ⟨DTRACE_CONSUME_NEXT, dtc, [⟨_make_probedesc data.dtpda_pdesc, v⟩]⟩)) := by
  refine ⟨rfl, ?_⟩
  by_cases hv : _action_valid r = true
  · obtain ⟨v, hrec⟩ := make_record_of_valid h.addr2str h.uaddr2str r data.dtpda_data
      (by rw [← action_valid_eq_valid]; exact hv)
    refine ⟨⟨DTRACE_CONSUME_NEXT, dtc, [⟨_make_probedesc data.dtpda_pdesc, v⟩]⟩, ?_, ?_, ?_, ?_, ?_⟩
    · simp [_consume, hv, hrec]
    · simp [hv]
    · intro hc
      rw [hv] at hc
      exact absurd hc.1 (by decide)
    · intro _; rfl
    · intro _; exact ⟨v, hrec, rfl⟩
  · have hf : _action_valid r = false := by simpa using hv
    by_cases hp : r.dtrd_action = DTRACEACT_PRINTF
    · refine ⟨⟨DTRACE_CONSUME_THIS, dtc, []⟩, ?_, ?_, ?_, ?_, ?_⟩
      · simp [_consume, hf, hp]
      · simp [hp]
      · intro hc; exact absurd hp hc.2
      · intro _; rfl
      · intro ht; rw [hf] at ht; cases ht
    · refine ⟨⟨DTRACE_CONSUME_ABORT,
        ⟨some (_error h (consume_error_text r data.dtpda_pdesc)),
          dtc.dtc_ranges_varid, dtc.dtc_ranges⟩, []⟩, ?_, ?_, ?_, ?_, ?_⟩
      · simp [_consume, hf, hp]
      · simp [hf, hp]
      · intro _
        refine ⟨rfl, rfl, ?_, error_consume_text h r data.dtpda_pdesc⟩
        apply error_ne_nil
        apply two_le_c_str_length _ (zero_not_mem_consume_error_text _ _)
        unfold consume_error_text
        simp only [List.length_append]
        have : (bytes "unsupported action ").length = 19 := by decide
        omega
      · intro hc; exact absurd ⟨hf, hp⟩ hc
      · intro ht; rw [hf] at ht; cases ht

/-- C18 (witness): on the probe `syscall:genunix:read:entry` a `stack()`
record aborts with the message naming the action and the probe, and a
DIF-expression record of 8 bytes holding 7 reaches the sink. -/
theorem consume_outcome_witness :
    _consume sample_host empty_consumer sample_probe (some ⟨DTRACEACT_STACK, 8, 0⟩) =
      .done ⟨DTRACE_CONSUME_ABORT,
        ⟨some (bytes "unsupported action stack() in record for syscall:genunix:read:entry"),
          0, none⟩, []⟩ ∧
    _consume sample_host empty_consumer sample_probe (some ⟨DTRACEACT_DIFEXPR, 8, 0⟩) =
      .done ⟨DTRACE_CONSUME_NEXT, empty_consumer,
        [⟨⟨bytes "syscall", bytes "genunix", bytes "read", bytes "entry"⟩, .long 7⟩]⟩ ∧
    (∃ res, _consume sample_host empty_consumer sample_probe (some ⟨DTRACEACT_STACK, 8, 0⟩) =
        .done res ∧
      (res.rval = DTRACE_CONSUME_ABORT ↔
        (_action_valid ⟨DTRACEACT_STACK, 8, 0⟩ = false ∧
          DTRACEACT_STACK ≠ DTRACEACT_PRINTF))) :=
  ⟨by decide, by decide,
    let ⟨res, h1, h2, _⟩ :=
      (consume_outcome sample_host empty_consumer sample_probe ⟨DTRACEACT_STACK, 8, 0⟩).2
    ⟨res, h1, h2⟩⟩

/-- C13: for the spec's count aggregation (variable id 1, one key decoding to
1, stored value 5) `_aggwalk` returns the remove outcome after one sink
invocation with the key list `[1]` and the value 5 and leaves the pending error
unset, but the first argument the sink receives is 4325408, the address of the
integer object built for the id, not the id 1: `id` is a `PyObject *` handed
over under the format unit `i` of `"iOO"`. -/
theorem aggwalk_count_sink_arguments :
    count_agg.dtada_desc.dtagd_varid = 1 ∧
    sample_host.PyInt_addr 1 = 4325408 ∧
    _aggwalk 0 sample_host empty_consumer count_agg =
      .done ⟨DTRACE_AGGWALK_REMOVE, empty_consumer, [⟨4325408, [.long 1], .long 5⟩]⟩ := by
  decide

/-- C14: for every tuple with representable keys whose aggregating record is
an avg record of 16 bytes, the value `_aggwalk` hands to the sink is the Python
integer that format unit `l` reads where the `double`
`data[1] / (double)data[0]` was passed, not the quotient. For the stored pair
count 3, sum 30 that is `long_of_double 3 30` of the host; on the sample host,
where unit `l` reads the 64 bits of the double 10.0 (exponent field 1026,
fraction a quarter), the sink receives 4621819117588971520, not 10. -/
theorem aggwalk_avg_double_under_long :
    (∀ (fuel : Nat) (h : Host) (dtc : DTraceConsumer) (agg : dtrace_aggdata_t)
        (aggrec : dtrace_recdesc_t),
      2 ≤ agg.dtada_desc.dtagd_rec.length →
      (∀ r ∈ interior agg, _valid r = true) →
      agg.dtada_desc.dtagd_rec[agg.dtada_desc.dtagd_rec.length - 1]? = some aggrec →
      aggrec.dtrd_action = DTRACEAGG_AVG → aggrec.dtrd_size = 16 →
      _aggwalk fuel h dtc agg = .done ⟨DTRACE_AGGWALK_REMOVE, dtc,
        [⟨Py_BuildValue_i (h.PyInt_addr (Py_BuildValue_i agg.dtada_desc.dtagd_varid)),
          (interior agg).filterMap (fun r =>
            _make_record h.addr2str h.uaddr2str r (agg.dtada_data.drop r.dtrd_offset)),
          .long (Py_BuildValue_l (h.long_of_double
            (load_word (agg.dtada_data.drop aggrec.dtrd_offset) 0)
            (load_word (agg.dtada_data.drop aggrec.dtrd_offset) 1)))⟩]⟩) ∧
    load_word avg_agg.dtada_data 0 = 3 ∧
    load_word avg_agg.dtada_data 1 = 30 ∧
    (∀ (fuel : Nat) (h : Host) (dtc : DTraceConsumer),
      _aggwalk fuel h dtc avg_agg = .done ⟨DTRACE_AGGWALK_REMOVE, dtc,
        [⟨Py_BuildValue_i (h.PyInt_addr 1), [],
          .long (Py_BuildValue_l (h.long_of_double 3 30))⟩]⟩) ∧
    double_bits 3 30 = 1026 * 2 ^ 52 + 2 ^ 50 ∧
    _aggwalk 0 sample_host empty_consumer avg_agg =
      .done ⟨DTRACE_AGGWALK_REMOVE, empty_consumer,
        [⟨4325408, [], .long 4621819117588971520⟩]⟩ := by
  have hgen : ∀ (fuel : Nat) (h : Host) (dtc : DTraceConsumer) (agg : dtrace_aggdata_t)
      (aggrec : dtrace_recdesc_t),
      2 ≤ agg.dtada_desc.dtagd_rec.length →
      (∀ r ∈ interior agg, _valid r = true) →
      agg.dtada_desc.dtagd_rec[agg.dtada_desc.dtagd_rec.length - 1]? = some aggrec →
      aggrec.dtrd_action = DTRACEAGG_AVG → aggrec.dtrd_size = 16 →
      _aggwalk fuel h dtc agg = .done ⟨DTRACE_AGGWALK_REMOVE, dtc,
        [⟨Py_BuildValue_i (h.PyInt_addr (Py_BuildValue_i agg.dtada_desc.dtagd_varid)),
          (interior agg).filterMap (fun r =>
            _make_record h.addr2str h.uaddr2str r (agg.dtada_data.drop r.dtrd_offset)),
          .long (Py_BuildValue_l (h.long_of_double
            (load_word (agg.dtada_data.drop aggrec.dtrd_offset) 0)
            (load_word (agg.dtada_data.drop aggrec.dtrd_offset) 1)))⟩]⟩ := by
    intro fuel h dtc agg aggrec hn hkeys hlast hact hsize
    apply aggwalk_of_value fuel h dtc dtc agg aggrec _ hn hkeys hlast
    unfold agg_value
    rw [hact]
    simp only [reduceCtorEq, or_self, if_false, if_true]
    rw [if_pos hsize]
  refine ⟨hgen, by decide, by decide, ?_, by decide, by decide⟩
  intro fuel h dtc
  have h0 : load_word (avg_agg.dtada_data.drop 0) 0 = 3 := by decide
  have h1 : load_word (avg_agg.dtada_data.drop 0) 1 = 30 := by decide
  have := hgen fuel h dtc avg_agg ⟨DTRACEAGG_AVG, 16, 0⟩ (by decide) (by decide) (by decide)
    rfl rfl
  rw [h0, h1] at this
  exact this

/-- C15: for a quantize record with the counts 7, 2^32 + 5 and 2^32 in the
buckets 63, 64 and 65 the list handed to the sink is `[([0,0], 7), ([1,1], 5),
([2,3], 0)]`: the buckets are the non-zero ones in ascending order, but the
counts 4294967301 and 4294967296 arrive as 5 and 0, narrowed by the format
unit `i`. -/
theorem aggwalk_quantize_counts_narrowed :
    quantize_agg.dtada_data.length = 1016 ∧
    load_word quantize_agg.dtada_data 64 = 4294967301 ∧
    load_word quantize_agg.dtada_data 65 = 4294967296 ∧
    _aggwalk 0 sample_host empty_consumer quantize_agg =
      .done ⟨DTRACE_AGGWALK_REMOVE, ⟨none, 1, some quantize_table⟩,
        [⟨4325408, [], .hist [(⟨0, 0⟩, 7), (⟨1, 1⟩, 5), (⟨2, 3⟩, 0)]⟩]⟩ := by
  have hdata : load_word quantize_agg.dtada_data = fun k => if k < 63 then 0 else
      load_word [7, 0, 0, 0, 0, 0, 0, 0, 5, 0, 0, 0, 1, 0, 0, 0, 0, 0, 0, 0, 1, 0, 0, 0]
        (k - 63) :=
    load_word_zero_padded 63 _ 488
  have hval : agg_value 0 sample_host empty_consumer quantize_agg.dtada_desc.dtagd_varid
      ⟨DTRACEAGG_QUANTIZE, 1016, 0⟩ (quantize_agg.dtada_data.drop 0) =
      .done (some (.hist [(⟨0, 0⟩, 7), (⟨1, 1⟩, 5), (⟨2, 3⟩, 0)]),
        ⟨none, 1, some quantize_table⟩) := by
    unfold agg_value
    simp only [reduceCtorEq, or_self, if_false, if_true, List.drop_zero]
    rw [hdata]
    decide
  refine ⟨by simp [quantize_agg], by rw [hdata]; decide, by rw [hdata]; decide, ?_⟩
  rw [aggwalk_of_value 0 sample_host empty_consumer _ quantize_agg
    ⟨DTRACEAGG_QUANTIZE, 1016, 0⟩ _ (by decide) (by decide) (by decide) hval]
  decide

/-- C16: for an lquantize record of 48 bytes with the control word for base 0,
step 10, levels 3 and the bucket counts 1, 0, 2^32 + 7, 2^32, 3 the control
word is taken from the first 8 bytes, n = 5 counts follow, all inside the
five-entry table, and the list handed to the sink pairs the table entries 0,
2, 3, 4 with the counts 1, 7, 0, 3: the counts 4294967303 and 4294967296
arrive narrowed by the format unit `i`. -/
theorem aggwalk_lquantize_counts_narrowed :
    load_u64 lquantize_agg.dtada_data 0 = lquantize_arg 0 10 3 ∧
    agg_levels ⟨DTRACEAGG_LQUANTIZE, 48, 0⟩ = 5 ∧
    load_word lquantize_agg.dtada_data 3 = 4294967303 ∧
    load_word lquantize_agg.dtada_data 4 = 4294967296 ∧
    _aggwalk 0 sample_host empty_consumer lquantize_agg =
      .done ⟨DTRACE_AGGWALK_REMOVE,
        ⟨none, 1, some [⟨0, -1⟩, ⟨0, 9⟩, ⟨10, 19⟩, ⟨20, 29⟩, ⟨30, -1⟩]⟩,
        [⟨4325408, [],
          .hist [(⟨0, -1⟩, 1), (⟨10, 19⟩, 7), (⟨20, 29⟩, 0), (⟨30, -1⟩, 3)]⟩]⟩ := by
  decide

/-- C19 (counterexample): for the message of 1030 bytes `a` followed by a
newline the result is the first 1023 bytes `a`, not the message without its
newline (1030 bytes). -/
theorem error_long_text_cut :
    (List.replicate 1030 97 ++ [10]).getLast? = some 10 ∧
    _error sample_host (List.replicate 1030 97 ++ [10]) = List.replicate 1023 97 ∧
    (List.replicate 1030 97 ++ [10]).dropLast = List.replicate 1030 97 := by
  decide

/-- C19 (amended): for every non-empty formatted message `m` (a C string) of
at most 1023 bytes: if `m` ends with a newline the result is `m` without that
newline and without OS error text; otherwise it is `m` followed by `": "` and
the OS error text, cut to 1023 bytes. Every message is treated as its first
1023 bytes. -/
theorem error_text (h : Host) (m : List Nat) (hz : 0 ∉ m) (hne : m ≠ [])
    (hlen : m.length ≤ 1023) :
    (m.getLast? = some 10 → _error h m = m.dropLast) ∧
    (m.getLast? ≠ some 10 →
      _error h m = (m ++ bytes ": " ++ c_str h.strerror).take 1023) ∧
    (∀ m' : List Nat, _error h m' = _error h ((c_str m').take 1023)) := by
  refine ⟨?_, error_of_no_newline h m hz hne hlen, error_of_cut h⟩
  intro hlast
  have hsplit : m = m.dropLast ++ [10] := by
    have := List.dropLast_append_getLast? 10 (by simpa using hlast)
    exact this.symm
  have hz2 : 0 ∉ m.dropLast := fun hmem => hz (List.dropLast_subset m hmem)
  have hl2 : m.dropLast.length + 1 ≤ 1023 := by
    rw [List.length_dropLast]
    have : m.length ≠ 0 := fun e => hne (List.length_eq_zero.mp e)
    omega
  have := error_of_newline h m.dropLast hz2 hl2
  rw [← hsplit] at this
  exact this

/-- C19 (witness): the amended statement applied to the message `ab` followed
by a newline. -/
theorem error_text_witness :
    _error sample_host (bytes "ab" ++ [10]) = (bytes "ab" ++ [10]).dropLast :=
  (error_text sample_host (bytes "ab" ++ [10]) (by decide) (by decide) (by decide)).1
    (by decide)

/-- C20: when `dtrace_work` fails (-1) with no decode error pending,
`DTraceConsumer_consume` returns `None`, the success value; the snapshot pass
on the same engine raises `RuntimeError` with the engine's message after its
failing walk. -/
theorem consume_pass_swallows_engine_failure :
    (failing_engine.dtrace_work ⟨none, 0, none⟩).1 = -1 ∧
    DTraceConsumer_consume failing_engine true empty_consumer = (.Py_None, empty_consumer) ∧
    DTraceConsumer_aggwalk sample_host failing_engine true empty_consumer =
      (.raised PyExc_RuntimeError (bytes "couldn't walk aggregate: Abort due to drop"),
        empty_consumer) := by
  decide

/-- C21: a snapshot pass `DTraceConsumer_aggwalk` in which the walk is run
(the arguments parse, the status and snapshot calls succeed) ends, whatever the
walk returns and leaves behind, with the stored table `NULL` and the stored id
`DTRACE_AGGVARIDNONE`, so `_ranges_cached` returns nothing for every id; a pass
in which the walk is not run leaves both cache fields as they are, and so does
`_consume`. Hence after `DTraceConsumer_init` has opened the engine, every
sequence of passes whose work calls keep the cache ends, and so the next pass
starts, with the stored table `NULL` (and, on an object whose stored id was
zero-filled at allocation, with the stored id `DTRACE_AGGVARIDNONE`), so
`_ranges_cached` returns nothing for every id. -/
theorem aggwalk_pass_flushes_cache (h : Host) (e : Engine) (self : DTraceConsumer) :
    (e.dtrace_status ≠ -1 → e.dtrace_aggregate_snap ≠ -1 →
      (DTraceConsumer_aggwalk h e true self).2 =
        ⟨(e.dtrace_aggregate_walk ⟨none, self.dtc_ranges_varid, self.dtc_ranges⟩).2.dtc_error,
          DTRACE_AGGVARIDNONE, none⟩ ∧
      (DTraceConsumer_aggwalk h e true self).2.dtc_ranges = none ∧
      (DTraceConsumer_aggwalk h e true self).2.dtc_ranges_varid = DTRACE_AGGVARIDNONE ∧
      (∀ id, _ranges_cached (DTraceConsumer_aggwalk h e true self).2 id = none) ∧
      _ranges_cached (DTraceConsumer_aggwalk h e true self).2 DTRACE_AGGVARIDNONE = none) ∧
    (∀ parsed, (parsed = false ∨ e.dtrace_status = -1 ∨ e.dtrace_aggregate_snap = -1) →
      (DTraceConsumer_aggwalk h e parsed self).2.dtc_ranges = self.dtc_ranges ∧
      (DTraceConsumer_aggwalk h e parsed self).2.dtc_ranges_varid = self.dtc_ranges_varid) ∧
    (∀ data r res, _consume h self data r = .done res →
      res.dtc.dtc_ranges = self.dtc_ranges ∧
      res.dtc.dtc_ranges_varid = self.dtc_ranges_varid) ∧
    (DTraceConsumer_init false true self).1 = 0 ∧
    (∀ ps : List Pass, (∀ q ∈ ps, keeps_cache q) →
      (run_passes ps (DTraceConsumer_init false true self).2).dtc_ranges = none ∧
      (self.dtc_ranges_varid = DTRACE_AGGVARIDNONE →
        (run_passes ps (DTraceConsumer_init false true self).2).dtc_ranges_varid =
          DTRACE_AGGVARIDNONE) ∧
      ∀ id, _ranges_cached (run_passes ps (DTraceConsumer_init false true self).2) id = none) := by
  refine ⟨?_, ?_, ?_, rfl, ?_⟩
  · intro h1 h2
    have hout : (DTraceConsumer_aggwalk h e true self).2 =
        ⟨(e.dtrace_aggregate_walk ⟨none, self.dtc_ranges_varid, self.dtc_ranges⟩).2.dtc_error,
          DTRACE_AGGVARIDNONE, none⟩ := by
      unfold DTraceConsumer_aggwalk
      simp only [Bool.true_eq_false, if_false, if_neg h1, if_neg h2, _ranges_cache]
      split
      · split <;> rfl
      · rfl
    rw [hout]
    exact ⟨rfl, rfl, rfl, fun id => ranges_cached_of_no_table _ rfl id,
      ranges_cached_of_no_table _ rfl _⟩
  · intro parsed hnot
    unfold DTraceConsumer_aggwalk
    by_cases hp : parsed = false
    · rw [if_pos hp]
      exact ⟨rfl, rfl⟩
    · rw [if_neg hp]
      by_cases h1 : e.dtrace_status = -1
      · rw [if_pos h1]
        exact ⟨rfl, rfl⟩
      · rw [if_neg h1]
        have h2 : e.dtrace_aggregate_snap = -1 := by
          rcases hnot with hn | hn | hn
          · exact absurd hn hp
          · exact absurd hn h1
          · exact hn
        rw [if_pos h2]
        exact ⟨rfl, rfl⟩
  · intro data r res hres
    unfold _consume at hres
    split at hres
    · cases hres; exact ⟨rfl, rfl⟩
    · split at hres
      · split at hres
        · cases hres; exact ⟨rfl, rfl⟩
        · cases hres; exact ⟨rfl, rfl⟩
      · split at hres
        · cases hres
        · cases hres; exact ⟨rfl, rfl⟩
  · intro ps hk
    exact ⟨run_passes_keeps_no_table ps _ hk rfl,
      fun hv => run_passes_keeps_no_varid ps _ hk hv,
      fun id => ranges_cached_of_no_table _ (run_passes_keeps_no_table ps _ hk rfl) id⟩

/-- C21 (witness): a walk that leaves a table in the cache under the id 7 is
followed by the flush, so the pass ends with an empty cache; and after
initialisation a consume pass followed by such a snapshot pass leaves nothing
to look up under the id 7. -/
theorem aggwalk_pass_flushes_cache_witness :
    (caching_engine.dtrace_aggregate_walk empty_consumer).2.dtc_ranges_varid = 7 ∧
    (caching_engine.dtrace_aggregate_walk empty_consumer).2.dtc_ranges ≠ none ∧
    (DTraceConsumer_aggwalk sample_host caching_engine true empty_consumer).2.dtc_ranges =
      none ∧
    _ranges_cached
      (run_passes [.consume failing_engine true, .aggwalk sample_host caching_engine true]
        (DTraceConsumer_init false true cached_consumer).2) 7 = none :=
  ⟨by decide, by decide,
    ((aggwalk_pass_flushes_cache sample_host caching_engine empty_consumer).1
      (by decide) (by decide)).2.1,
    ((aggwalk_pass_flushes_cache sample_host caching_engine cached_consumer).2.2.2.2
      [.consume failing_engine true, .aggwalk sample_host caching_engine true]
      (fun q hq => by
        rcases List.mem_cons.1 hq with h | h
        · subst h
          exact fun d => ⟨rfl, rfl⟩
        · rcases List.mem_cons.1 h with h2 | h2
          · subst h2
            exact True.intro
          · cases h2)).2.2 7⟩

/-- C23: with a non-zero number of steps the increment of `_ranges_llquantize`
is `max(1, next / nsteps)`, at least 1 and computed without a division by
zero, for every boundary `next`; with `nsteps = 0` and a positive boundary the
code evaluates `next / nsteps` and divides by zero. For the control word with
factor 10, low 0, high 1 and nsteps 0 the call on an empty cache ends in that
division, whatever bucket count is declared. -/
theorem llquantize_step_divides_by_zero :
    (∀ (next : Int) (nsteps : Nat), nsteps ≠ 0 →
      llquantize_step next nsteps = .done (max 1 (Int.tdiv next nsteps)) ∧
      1 ≤ max 1 (Int.tdiv next nsteps)) ∧
    (∀ next : Int, 0 < next → llquantize_step next 0 = .fault .division_by_zero) ∧
    (∀ next : Int, next ≤ 0 → llquantize_step next 0 = .done 1) ∧
    DTRACE_LLQUANTIZE_FACTOR (llquantize_arg 10 0 1 0) = 10 ∧
    DTRACE_LLQUANTIZE_LOW (llquantize_arg 10 0 1 0) = 0 ∧
    DTRACE_LLQUANTIZE_HIGH (llquantize_arg 10 0 1 0) = 1 ∧
    DTRACE_LLQUANTIZE_NSTEP (llquantize_arg 10 0 1 0) = 0 ∧
    (∀ fuel, llquantize_run fuel (llquantize_arg 10 0 1 0) = .fault .division_by_zero) ∧
    (∀ fuel nbuckets,
      _ranges_llquantize fuel empty_consumer 1 (llquantize_arg 10 0 1 0) nbuckets =
        .fault .division_by_zero) := by
  have hrun : ∀ fuel, llquantize_run fuel (llquantize_arg 10 0 1 0) =
      .fault .division_by_zero := by
    intro fuel
    unfold llquantize_run
    have hs : llquantize_step
        (int64 (llquantize_start (DTRACE_LLQUANTIZE_FACTOR (llquantize_arg 10 0 1 0))
          (DTRACE_LLQUANTIZE_LOW (llquantize_arg 10 0 1 0)) *
            ((DTRACE_LLQUANTIZE_FACTOR (llquantize_arg 10 0 1 0) : Nat) : Int)))
        (DTRACE_LLQUANTIZE_NSTEP (llquantize_arg 10 0 1 0)) = .fault .division_by_zero := by
      decide
    simp only [hs]
  refine ⟨?_, ?_, ?_, by decide, by decide, by decide, by decide, hrun, ?_⟩
  · intro next nsteps hn
    exact ⟨llquantize_step_eq_max next nsteps hn, le_max_left _ _⟩
  · intro next hpos
    unfold llquantize_step
    have : next > ((0 : Nat) : Int) := by simpa using hpos
    rw [if_pos this]
    rfl
  · intro next hle
    unfold llquantize_step
    have : ¬ next > ((0 : Nat) : Int) := by simpa using hle
    rw [if_neg this]
  · intro fuel nbuckets
    unfold _ranges_llquantize
    have hc : _ranges_cached empty_consumer 1 = none := by decide
    simp only [hc, hrun]

/-- C24: for a control word with factor at least 2, low at most high, factor
dividing nsteps, nsteps dividing `factor ^ (low + 1)` and
`factor ^ (high + 1) < 2 ^ 63`, the bucket computation of `_ranges_llquantize`
reaches the assertion once `(high - low + 1) * (nsteps - nsteps / factor)`
iterations are allowed: the running value has then landed on every boundary
up to `factor ^ (high + 1)`, `order` is `high + 1`, and exactly
`(high - low + 1) * (nsteps - nsteps / factor) + 2` buckets are stored; on a
cache miss the call returns a table of that many entries when the declared
`nbuckets` is that number and fails the assertion when it is not. For every
control word with factor 10, low 0 and nsteps 4 the running value steps over
the boundary 10 and the loop is still running after any number of
iterations. -/
theorem llquantize_terminates_with_bucket_count (arg : Nat)
    (hf : 2 ≤ DTRACE_LLQUANTIZE_FACTOR arg)
    (hlh : DTRACE_LLQUANTIZE_LOW arg ≤ DTRACE_LLQUANTIZE_HIGH arg)
    (hd1 : DTRACE_LLQUANTIZE_FACTOR arg ∣ DTRACE_LLQUANTIZE_NSTEP arg)
    (hd2 : DTRACE_LLQUANTIZE_NSTEP arg ∣
      DTRACE_LLQUANTIZE_FACTOR arg ^ (DTRACE_LLQUANTIZE_LOW arg + 1))
    (hb : DTRACE_LLQUANTIZE_FACTOR arg ^ (DTRACE_LLQUANTIZE_HIGH arg + 1) < 2 ^ 63) :
    (∀ fuel, llquantize_bucket_count arg - 2 ≤ fuel →
      ∃ s, llquantize_run fuel arg = .done s ∧
        s.value =
          ((DTRACE_LLQUANTIZE_FACTOR arg ^ (DTRACE_LLQUANTIZE_HIGH arg + 1) : Nat) : Int) ∧
        s.order = DTRACE_LLQUANTIZE_HIGH arg + 1 ∧
        s.bucket + 1 = llquantize_bucket_count arg ∧
        s.writes.length = llquantize_bucket_count arg ∧
        ∀ (dtc : DTraceConsumer) (varid nbuckets : Int), _ranges_cached dtc varid = none →
          (nbuckets = (llquantize_bucket_count arg : Int) →
            ∃ t : RangeTable, t.length = llquantize_bucket_count arg ∧
              _ranges_llquantize fuel dtc varid arg nbuckets =
                .done (some t, ⟨dtc.dtc_error, varid, some t⟩)) ∧
          (nbuckets ≠ (llquantize_bucket_count arg : Int) →
            _ranges_llquantize fuel dtc varid arg nbuckets = .fault .assertion_failed)) ∧
    (∀ other fuel, DTRACE_LLQUANTIZE_FACTOR other = 10 → DTRACE_LLQUANTIZE_LOW other = 0 →
      DTRACE_LLQUANTIZE_NSTEP other = 4 →
      llquantize_run fuel other = .fault .out_of_fuel) := by
  refine ⟨?_, fun other fuel h1 h2 h3 => llquantize_run_steps_over other h1 h2 h3 fuel⟩
  intro fuel hfuel
  obtain ⟨s, hs, hbk, hval, hord⟩ := llquantize_run_done arg fuel hf hlh hd1 hd2 hb
    (by unfold llquantize_bucket_count at hfuel; omega)
  have hcount : s.bucket + 1 = llquantize_bucket_count arg := by
    unfold llquantize_bucket_count
    omega
  have hidx := llquantize_run_indices fuel arg s hs
  have hlen : s.writes.length = s.bucket + 1 := by
    have := congrArg List.length hidx
    simpa using this
  refine ⟨s, hs, hval, hord, hcount, hlen.trans hcount, ?_⟩
  intro dtc varid nbuckets hmiss
  constructor
  · intro hnb
    refine ⟨s.writes.map Prod.snd, by simp [hlen, hcount], ?_⟩
    unfold _ranges_llquantize
    have hb1 : (s.bucket : Int) + 1 = nbuckets := by
      rw [hnb, ← hcount]
      push_cast
      rfl
    simp only [hmiss, hs, hb1, if_true, _ranges_cache]
  · intro hnb
    unfold _ranges_llquantize
    have hb1 : ¬ ((s.bucket : Int) + 1 = nbuckets) := by
      intro hc
      apply hnb
      rw [← hc, ← hcount]
      push_cast
      rfl
    simp only [hmiss, hs, hb1, if_false]

/-- C24 (witness): the control word for factor 10, low 0, high 1 and nsteps 10
meets the precondition and describes 20 buckets; 18 iterations suffice. -/
theorem llquantize_terminates_with_bucket_count_witness :
    llquantize_bucket_count (llquantize_arg 10 0 1 10) = 20 ∧
    ∃ s, llquantize_run 18 (llquantize_arg 10 0 1 10) = .done s ∧
      s.value = 100 ∧ s.bucket + 1 = 20 ∧ s.writes.length = 20 :=
  ⟨by decide,
    let ⟨s, h1, h2, _, h4, h5, _⟩ :=
      (llquantize_terminates_with_bucket_count (llquantize_arg 10 0 1 10)
        (by decide) (by decide) (by decide) (by decide) (by decide)).1 18 (by decide)
    ⟨s, h1, h2, h4, h5⟩⟩

/-- C22 (counterexample): on an empty cache, `_ranges_llquantize` called for
id 1 with the control word for factor 10, low 1, high 1, nsteps 10 and the
declared bucket count 5 returns no table, however many iterations are
allowed: with fewer than 9 the loop is still running, with 9 or more the
assertion `bucket + 1 == nbuckets` fails. -/
theorem ranges_llquantize_miss_without_table :
    _ranges_cached empty_consumer 1 = none ∧
    (∀ fuel r,
      _ranges_llquantize fuel empty_consumer 1 (llquantize_arg 10 1 1 10) 5 ≠ .done r) ∧
    _ranges_llquantize 100 empty_consumer 1 (llquantize_arg 10 1 1 10) 5 =
      .fault .assertion_failed := by
  refine ⟨by decide, ?_, by decide⟩
  intro fuel r hr
  have hmiss : _ranges_cached empty_consumer 1 = none := by decide
  obtain ⟨s, hs, hb, _⟩ :=
    (ranges_llquantize_miss_iff fuel empty_consumer 1 _ 5 hmiss r).1 hr
  by_cases hfuel : 9 ≤ fuel
  · obtain ⟨s', hs', hb', _⟩ := llquantize_run_done (llquantize_arg 10 1 1 10) fuel
      (by decide) (by decide) (by decide) (by decide) (by decide) hfuel
    rw [hs] at hs'
    cases hs'
    have h10 : s.bucket = 10 := hb'
    rw [h10] at hb
    exact absurd hb (by decide)
  · have hsmall : ∀ f < 9, llquantize_run f (llquantize_arg 10 1 1 10) =
        .fault .out_of_fuel := by
      decide
    rw [hsmall fuel (by omega)] at hs
    cases hs

/-- C22: for every requested id, control word and declared bucket count:
when the cache holds a table under the id, each of `_ranges_quantize`,
`_ranges_lquantize` and `_ranges_llquantize` returns that table and leaves the
consumer object as it is; on a miss `_ranges_quantize` and `_ranges_lquantize`
return the newly built table and leave the cache holding the requested id and
that table, and `_ranges_llquantize` does so exactly when its bucket
computation reaches the assertion and the assertion holds (it fails the
assertion otherwise, and it does return for the control words of C24 with the
matching bucket count); a request under an id other than the stored one is a
miss; and after every returning call the cache holds the requested id with
the returned table and nothing under any other id. -/
theorem ranges_hit_or_synthesize (fuel : Nat) (dtc : DTraceConsumer) (varid : Int) (arg : Nat)
    (nbuckets : Int) :
    (∀ t, _ranges_cached dtc varid = some t →
      _ranges_quantize dtc varid = (some t, dtc) ∧
      _ranges_lquantize dtc varid arg = (some t, dtc) ∧
      _ranges_llquantize fuel dtc varid arg nbuckets = .done (some t, dtc)) ∧
    (_ranges_cached dtc varid = none →
      _ranges_quantize dtc varid =
        (some quantize_table, ⟨dtc.dtc_error, varid, some quantize_table⟩) ∧
      _ranges_lquantize dtc varid arg =
        (some (lquantize_table (DTRACE_LQUANTIZE_BASE arg) (DTRACE_LQUANTIZE_STEP arg)
            (DTRACE_LQUANTIZE_LEVELS arg)),
          ⟨dtc.dtc_error, varid,
            some (lquantize_table (DTRACE_LQUANTIZE_BASE arg) (DTRACE_LQUANTIZE_STEP arg)
              (DTRACE_LQUANTIZE_LEVELS arg))⟩) ∧
      (∀ r, _ranges_llquantize fuel dtc varid arg nbuckets = .done r ↔
        ∃ s, llquantize_run fuel arg = .done s ∧ (s.bucket : Int) + 1 = nbuckets ∧
          r = (some (s.writes.map Prod.snd),
            ⟨dtc.dtc_error, varid, some (s.writes.map Prod.snd)⟩)) ∧
      (∀ s, llquantize_run fuel arg = .done s → (s.bucket : Int) + 1 ≠ nbuckets →
        _ranges_llquantize fuel dtc varid arg nbuckets = .fault .assertion_failed) ∧
      (2 ≤ DTRACE_LLQUANTIZE_FACTOR arg →
        DTRACE_LLQUANTIZE_LOW arg ≤ DTRACE_LLQUANTIZE_HIGH arg →
        DTRACE_LLQUANTIZE_FACTOR arg ∣ DTRACE_LLQUANTIZE_NSTEP arg →
        DTRACE_LLQUANTIZE_NSTEP arg ∣
          DTRACE_LLQUANTIZE_FACTOR arg ^ (DTRACE_LLQUANTIZE_LOW arg + 1) →
        DTRACE_LLQUANTIZE_FACTOR arg ^ (DTRACE_LLQUANTIZE_HIGH arg + 1) < 2 ^ 63 →
        llquantize_bucket_count arg - 2 ≤ fuel →
        nbuckets = (llquantize_bucket_count arg : Int) →
        ∃ t, _ranges_llquantize fuel dtc varid arg nbuckets =
          .done (some t, ⟨dtc.dtc_error, varid, some t⟩))) ∧
    (varid ≠ dtc.dtc_ranges_varid → _ranges_cached dtc varid = none) ∧
    (∀ t dtc2,
      (_ranges_quantize dtc varid = (some t, dtc2) ∨
        _ranges_lquantize dtc varid arg = (some t, dtc2) ∨
        _ranges_llquantize fuel dtc varid arg nbuckets = .done (some t, dtc2)) →
      dtc2.dtc_ranges_varid = varid ∧ dtc2.dtc_ranges = some t ∧
      dtc2.dtc_error = dtc.dtc_error ∧
      _ranges_cached dtc2 varid = some t ∧
      ∀ other, other ≠ varid → _ranges_cached dtc2 other = none) := by
  have hhit : ∀ t, _ranges_cached dtc varid = some t →
      _ranges_quantize dtc varid = (some t, dtc) ∧
      _ranges_lquantize dtc varid arg = (some t, dtc) ∧
      _ranges_llquantize fuel dtc varid arg nbuckets = .done (some t, dtc) := by
    intro t ht
    refine ⟨?_, ?_, ?_⟩
    · unfold _ranges_quantize
      rw [ht]
    · unfold _ranges_lquantize
      rw [ht]
    · unfold _ranges_llquantize
      rw [ht]
  have hq : _ranges_cached dtc varid = none → _ranges_quantize dtc varid =
      (some quantize_table, ⟨dtc.dtc_error, varid, some quantize_table⟩) := by
    intro hmiss
    unfold _ranges_quantize
    rw [hmiss]
    rfl
  have hl : _ranges_cached dtc varid = none → _ranges_lquantize dtc varid arg =
      (some (lquantize_table (DTRACE_LQUANTIZE_BASE arg) (DTRACE_LQUANTIZE_STEP arg)
          (DTRACE_LQUANTIZE_LEVELS arg)),
        ⟨dtc.dtc_error, varid,
          some (lquantize_table (DTRACE_LQUANTIZE_BASE arg) (DTRACE_LQUANTIZE_STEP arg)
            (DTRACE_LQUANTIZE_LEVELS arg))⟩) := by
    intro hmiss
    unfold _ranges_lquantize
    rw [hmiss]
    rfl
  refine ⟨hhit, ?_, ?_, ?_⟩
  · intro hmiss
    refine ⟨hq hmiss, hl hmiss, ranges_llquantize_miss_iff fuel dtc varid arg nbuckets hmiss,
      ?_, ?_⟩
    · intro s hs hb
      unfold _ranges_llquantize
      simp only [hmiss, hs, hb, if_false]
    · intro hf hlh hd1 hd2 hb hfuel hnb
      obtain ⟨s, hs, hbk, _⟩ := llquantize_run_done arg fuel hf hlh hd1 hd2 hb
        (by unfold llquantize_bucket_count at hfuel; omega)
      refine ⟨s.writes.map Prod.snd, ?_⟩
      rw [ranges_llquantize_miss_iff fuel dtc varid arg nbuckets hmiss]
      refine ⟨s, hs, ?_, rfl⟩
      rw [hnb, hbk]
      unfold llquantize_bucket_count
      push_cast
      ring
  · intro hne
    unfold _ranges_cached
    rw [if_neg hne]
  · intro t dtc2 hret
    have key : dtc2.dtc_ranges_varid = varid ∧ dtc2.dtc_ranges = some t ∧
        dtc2.dtc_error = dtc.dtc_error := by
      cases hc : _ranges_cached dtc varid with
      | some t0 =>
        obtain ⟨h1, h2, h3⟩ := hhit t0 hc
        obtain ⟨hv, ht⟩ := ranges_cached_some dtc varid t0 hc
        rcases hret with h | h | h
        · rw [h1] at h
          cases h
          exact ⟨hv.symm, ht, rfl⟩
        · rw [h2] at h
          cases h
          exact ⟨hv.symm, ht, rfl⟩
        · rw [h3] at h
          cases h
          exact ⟨hv.symm, ht, rfl⟩
      | none =>
        rcases hret with h | h | h
        · rw [hq hc] at h
          cases h
          exact ⟨rfl, rfl, rfl⟩
        · rw [hl hc] at h
          cases h
          exact ⟨rfl, rfl, rfl⟩
        · obtain ⟨s, _, _, hr⟩ :=
            (ranges_llquantize_miss_iff fuel dtc varid arg nbuckets hc _).1 h
          cases hr
          exact ⟨rfl, rfl, rfl⟩
    obtain ⟨k1, k2, k3⟩ := key
    obtain ⟨c1, c2⟩ := ranges_cached_of_holds dtc2 varid t k1 k2
    exact ⟨k1, k2, k3, c1, c2⟩

/-- C22 (witness): with the one-entry table cached under the id 1, a request
for the id 1 through `_ranges_llquantize` returns that table for the control
word 0 and the declared bucket count 7, without any iteration; a request for
the id 2 through `_ranges_lquantize` is a miss, after which the cache holds
the id 2. -/
theorem ranges_hit_or_synthesize_witness :
    _ranges_cached cached_consumer 1 = some [⟨0, 8⟩] ∧
    _ranges_llquantize 0 cached_consumer 1 0 7 = .done (some [⟨0, 8⟩], cached_consumer) ∧
    _ranges_cached cached_consumer 2 = none ∧
    (_ranges_lquantize cached_consumer 2 (lquantize_arg 0 10 3)).2.dtc_ranges_varid = 2 :=
  ⟨by decide,
    ((ranges_hit_or_synthesize 0 cached_consumer 1 0 7).1 [⟨0, 8⟩] (by decide)).2.2,
    (ranges_hit_or_synthesize 0 cached_consumer 2 0 7).2.2.1 (by decide),
    by decide⟩

end PyDTrace
